import Mathlib

/-!
# K-means colour analysis (`ui/gfx/color_analysis.cc`)

A shallow embedding of `GridSampler::GetSample`, `FindClosestColor`, `KMeanCluster`
and `CalculateKMeanColorOfBuffer`.

Conventions of the embedding:

* `uint8_t` is `Fin 256`; `uint32_t` is a `Nat` reduced modulo `2^32` at every
  operation that can wrap; `int` is an `Int`.
* A function returns `Option`: `none` stands for undefined behaviour of the C++
  code, which is either a signed `int` result that does not fit 32 bits or a
  read outside the pixel buffer.  Every statement `= some c` below therefore
  also says that the run is free of both.
* The pixel buffer is the list of its bytes, in B, G, R, A order.
* A sampler (`KMeanImageSampler`) is a state type together with its `GetSample`
  step function; `GridSampler` is the instance whose state is `calls_`.
* `std::sort` leaves the relative order of clusters of equal weight open, so the
  sorting function is a parameter of `CalculateKMeanColorOfBuffer`.
-/

namespace color_utils

/-! ## Machine integers -/

/-- An 8-bit unsigned sample (`uint8_t`). -/
abbrev Byte := Fin 256

/-- The largest `int` (`<limits.h>`). -/
def INT_MAX : Int := 2147483647

/-- The smallest `int` (`<limits.h>`). -/
def INT_MIN : Int := -2147483648

/-- The largest `unsigned int` (`<limits.h>`). -/
def UINT_MAX : Nat := 4294967295

/-- Modelled from the spec: `kint32max` (`base/basictypes.h`, not among the sources), the
largest 32-bit signed value, the initial best-distance sentinel. -/
def kint32max : Int := 2147483647

/-- The value of a signed `int` expression: defined only when the mathematical
result is representable in 32 bits. -/
def int32 (z : Int) : Option Int :=
  if INT_MIN ≤ z ∧ z ≤ INT_MAX then some z else none

/-- Conversion of an `int` operand to `uint32_t` (usual arithmetic conversions). -/
def toUInt32 (z : Int) : Nat := (z % 4294967296).toNat

/-- Conversion of a `uint32_t` value to `int` (two's complement). -/
def toInt32 (n : Nat) : Int :=
  if n % 4294967296 < 2147483648 then ((n % 4294967296 : Nat) : Int)
  else ((n % 4294967296 : Nat) : Int) - 4294967296

/-- Addition of `uint32_t` values. -/
def uadd (a b : Nat) : Nat := (a + b) % 4294967296

/-- Multiplication of `uint32_t` values. -/
def umul (a b : Nat) : Nat := (a * b) % 4294967296

/-- The C++ remainder `a % b` on `int`: truncated, undefined for `b == 0` and
for `INT_MIN % -1`. -/
def imod (a b : Int) : Option Int :=
  if b = 0 ∨ (a = INT_MIN ∧ b = -1) then none else some (Int.tmod a b)

/-- Narrowing store of a `uint32_t` into a `uint8_t`. -/
def toByte (n : Nat) : Byte := ⟨n % 256, Nat.mod_lt _ (by decide)⟩

/-! ## Constants -/

def kNumberOfClusters : Nat := 4

def kNumberOfIterations : Nat := 50

def kMaxBrightness : Nat := 665

def kMinDarkness : Nat := 100

/-! ## Colours -/

/-- Modelled from the spec: the Skia colour type `SkColor` and its accessors are
not part of the sources; a colour is a 32-bit ARGB value, kept here as its four
8-bit components. -/
structure SkColor where
  a : Byte
  r : Byte
  g : Byte
  b : Byte
deriving DecidableEq, Repr

/-- Modelled from the spec: the Skia constructor of a colour from its four components. -/
def SkColorSetARGB (a r g b : Byte) : SkColor := ⟨a, r, g, b⟩

/-- Modelled from the spec: the Skia constructor of a colour of alpha 0xFF. -/
def SkColorSetRGB (r g b : Byte) : SkColor := SkColorSetARGB 0xFF r g b

/-- Modelled from the spec: the Skia accessor of the alpha component. -/
def SkColorGetA (color : SkColor) : Byte := color.a

/-- Modelled from the spec: the Skia accessor of the red component. -/
def SkColorGetR (color : SkColor) : Byte := color.r

/-- Modelled from the spec: the Skia accessor of the green component. -/
def SkColorGetG (color : SkColor) : Byte := color.g

/-- Modelled from the spec: the Skia accessor of the blue component. -/
def SkColorGetB (color : SkColor) : Byte := color.b

/-- Modelled from the spec: the Skia constant for white with alpha 0xFF. -/
def SK_ColorWHITE : SkColor := ⟨0xFF, 0xFF, 0xFF, 0xFF⟩

def kDefaultBgColor : SkColor := SK_ColorWHITE

/-! ## Pixel buffer -/

/-- One pixel of the buffer, in the order of its bytes. -/
structure Pixel where
  b : Byte
  g : Byte
  r : Byte
  a : Byte
deriving DecidableEq, Repr

/-- The four consecutive byte reads of the pixel with index `i`
(`b = *(byte++)`, `g`, `r`, `a`); `none` when a read leaves the buffer. -/
def readPixel (image : List Byte) (i : Nat) : Option Pixel := do
  let b ← image[4 * i]?
  let g ← image[4 * i + 1]?
  let r ← image[4 * i + 2]?
  let a ← image[4 * i + 3]?
  pure ⟨b, g, r, a⟩

/-- The reads `decoded_data[pixel_pos * 4 + k]`, `k = 0..3`, with an `int`
position. -/
def readPixelAt (decoded_data : List Byte) (pixel_pos : Int) : Option Pixel := do
  let offset ← int32 (pixel_pos * 4)
  if offset < 0 then none else readPixel decoded_data pixel_pos.toNat

/-- The sum of the three squared channel differences, computed in `int`
(at most `3 * 255^2`, so it never overflows). -/
def distanceSquared (x0 x1 x2 y0 y1 y2 : Byte) : Int :=
  ((x0.val : Int) - y0.val) * ((x0.val : Int) - y0.val) +
  ((x1.val : Int) - y1.val) * ((x1.val : Int) - y1.val) +
  ((x2.val : Int) - y2.val) * ((x2.val : Int) - y2.val)

/-! ## KMeanCluster -/

structure KMeanCluster where
  centroid0 : Byte
  centroid1 : Byte
  centroid2 : Byte
  aggregate0 : Nat
  aggregate1 : Nat
  aggregate2 : Nat
  counter : Nat
  weight : Nat
deriving DecidableEq, Repr

namespace KMeanCluster

/-- The state after `Reset()`, which is also the state after construction. -/
def Reset : KMeanCluster := ⟨0, 0, 0, 0, 0, 0, 0, 0⟩

def SetCentroid (c : KMeanCluster) (r g b : Byte) : KMeanCluster :=
  { c with centroid0 := r, centroid1 := g, centroid2 := b }

def IsAtCentroid (c : KMeanCluster) (r g b : Byte) : Bool :=
  decide (r = c.centroid0) && decide (g = c.centroid1) && decide (b = c.centroid2)

def RecomputeCentroid (c : KMeanCluster) : KMeanCluster :=
  if c.counter > 0 then
    { centroid0 := toByte (c.aggregate0 / c.counter)
      centroid1 := toByte (c.aggregate1 / c.counter)
      centroid2 := toByte (c.aggregate2 / c.counter)
      aggregate0 := 0
      aggregate1 := 0
      aggregate2 := 0
      weight := c.counter
      counter := 0 }
  else c

def AddPoint (c : KMeanCluster) (r g b : Byte) : KMeanCluster :=
  { c with
    aggregate0 := uadd c.aggregate0 r.val
    aggregate1 := uadd c.aggregate1 g.val
    aggregate2 := uadd c.aggregate2 b.val
    counter := uadd c.counter 1 }

def GetDistanceSqr (c : KMeanCluster) (r g b : Byte) : Nat :=
  toUInt32 (distanceSquared r g b c.centroid0 c.centroid1 c.centroid2)

def CompareCentroidWithAggregate (c : KMeanCluster) : Bool :=
  if c.counter = 0 then false
  else
    decide (c.aggregate0 / c.counter = c.centroid0.val) &&
    decide (c.aggregate1 / c.counter = c.centroid1.val) &&
    decide (c.aggregate2 / c.counter = c.centroid2.val)

def GetWeight (c : KMeanCluster) : Nat := c.weight

def SortKMeanClusterByWeight (a b : KMeanCluster) : Bool :=
  decide (a.GetWeight > b.GetWeight)

end KMeanCluster

/-! ## GridSampler -/

/-- `GridSampler::GetSample`; the state of the sampler is its counter `calls_`
(declared in `color_analysis.h`, which is not among the sources: an `int`, set to
0 by the constructor).  Returns the sample and the new counter.
`kNumberOfClusters` is a `uint32_t`, so both quotients and both products are
computed in `uint32_t` after converting the `int` operands, and the results are
converted back when they are stored in the `int` variables `x` and `y`. -/
def GridSampler.GetSample (calls_ : Int) (width height : Int) : Option (Int × Int) := do
  let kPadX : Int := 1
  let kPadY : Int := 1
  let padded_width ← int32 (width - 2 * kPadX)
  let x := toInt32 (uadd (toUInt32 kPadX)
    (umul (toUInt32 calls_ / kNumberOfClusters) (toUInt32 padded_width / kNumberOfClusters)))
  let padded_height ← int32 (height - 2 * kPadY)
  let y := toInt32 (uadd (toUInt32 kPadY)
    (umul (toUInt32 calls_ % kNumberOfClusters) (toUInt32 padded_height / kNumberOfClusters)))
  let row ← int32 (y * width)
  let index ← int32 (x + row)
  let calls_next ← int32 (calls_ + 1)
  let area ← int32 (width * height)
  let sample ← imod index area
  pure (sample, calls_next)

/-! ## FindClosestColor -/

/-- The loop of `FindClosestColor`: `n` iterations are left, `i` is the loop
counter (the read pointer is at byte `4 * i`). -/
def FindClosestColor.loop (image : List Byte) (in_r in_g in_b : Byte) :
    Nat → Nat → Int → SkColor → Option SkColor
  | 0, _, _, best_color => some best_color
  | n + 1, i, best_distance_squared, best_color => do
    let p ← readPixel image i
    if p.a = 0 then
      FindClosestColor.loop image in_r in_g in_b n (i + 1) best_distance_squared best_color
    else
      let distance_squared := distanceSquared in_b in_g in_r p.b p.g p.r
      if distance_squared < best_distance_squared then
        FindClosestColor.loop image in_r in_g in_b n (i + 1) distance_squared
          (SkColorSetRGB p.r p.g p.b)
      else
        FindClosestColor.loop image in_r in_g in_b n (i + 1) best_distance_squared best_color

def FindClosestColor (image : List Byte) (width height : Int) (color : SkColor) :
    Option SkColor := do
  let in_r := SkColorGetR color
  let in_g := SkColorGetG color
  let in_b := SkColorGetB color
  let area ← int32 (width * height)
  FindClosestColor.loop image in_r in_g in_b area.toNat 0 kint32max color

/-! ## CalculateKMeanColorOfBuffer -/

section KMean

variable {σ : Type}

/-- The `for (int i = 0; i < 10; ++i)` loop that looks for a seed of the cluster
at position `cluster`; `tries` iterations are left.  Returns `color_unique`, the
clusters and the sampler. -/
def seedLoop (GetSample : σ → Int → Int → Option (Int × σ)) (decoded_data : List Byte)
    (img_width img_height : Int) (clusters : List KMeanCluster) (cluster : Nat) :
    Nat → σ → Option (Bool × List KMeanCluster × σ)
  | 0, sampler => some (false, clusters, sampler)
  | tries + 1, sampler => do
    let (sample, sampler) ← GetSample sampler img_width img_height
    let area ← int32 (img_width * img_height)
    let pixel_pos ← imod sample area
    let p ← readPixelAt decoded_data pixel_pos
    if p.a = 0 then
      seedLoop GetSample decoded_data img_width img_height clusters cluster tries sampler
    else if (clusters.take cluster).any (fun cluster_check => cluster_check.IsAtCentroid p.r p.g p.b) then
      seedLoop GetSample decoded_data img_width img_height clusters cluster tries sampler
    else
      some (true, clusters.modify (fun c => c.SetCentroid p.r p.g p.b) cluster, sampler)

/-- The `while (cluster != clusters.end())` loop; `slots` is the distance from
`cluster` to `clusters.end()`, which every iteration decreases by one (either
the cluster is erased or the iterator advances). -/
def initLoop (GetSample : σ → Int → Int → Option (Int × σ)) (decoded_data : List Byte)
    (img_width img_height : Int) :
    Nat → List KMeanCluster → Nat → σ → Option (List KMeanCluster × σ)
  | 0, clusters, _, sampler => some (clusters, sampler)
  | slots + 1, clusters, cluster, sampler => do
    let (color_unique, clusters, sampler) ←
      seedLoop GetSample decoded_data img_width img_height clusters cluster 10 sampler
    if !color_unique then
      initLoop GetSample decoded_data img_width img_height slots (clusters.eraseIdx cluster)
        cluster sampler
    else
      initLoop GetSample decoded_data img_width img_height slots clusters (cluster + 1) sampler

end KMean

/-- The loop over the clusters that finds the one closest to `(r, g, b)`;
`cluster` is the position of the head of the list. -/
def closestLoop (r g b : Byte) :
    List KMeanCluster → Nat → Nat → Nat → Nat
  | [], _, _, closest_cluster => closest_cluster
  | c :: rest, cluster, distance_sqr_to_closest_cluster, closest_cluster =>
    let distance_sqr := c.GetDistanceSqr r g b
    if distance_sqr < distance_sqr_to_closest_cluster then
      closestLoop r g b rest (cluster + 1) distance_sqr cluster
    else
      closestLoop r g b rest (cluster + 1) distance_sqr_to_closest_cluster closest_cluster

/-- The loop over the pixels of one sweep: `n` pixels are left, `i` is the index
of the pixel under the read pointer. -/
def assignLoop (decoded_data : List Byte) :
    Nat → Nat → List KMeanCluster → Option (List KMeanCluster)
  | 0, _, clusters => some clusters
  | n + 1, i, clusters => do
    let p ← readPixel decoded_data i
    if p.a = 0 then
      assignLoop decoded_data n (i + 1) clusters
    else
      let closest_cluster := closestLoop p.r p.g p.b clusters 0 UINT_MAX 0
      assignLoop decoded_data n (i + 1)
        (clusters.modify (fun c => c.AddPoint p.r p.g p.b) closest_cluster)

/-- The loop that folds the convergence flag and recomputes the centroids. -/
def recomputeLoop : List KMeanCluster → Bool → Bool × List KMeanCluster
  | [], convergence => (convergence, [])
  | c :: rest, convergence =>
    let convergence := convergence && c.CompareCentroidWithAggregate
    let r := recomputeLoop rest convergence
    (r.1, c.RecomputeCentroid :: r.2)

/-- The refinement loop; `left` is `kNumberOfIterations - iteration`. -/
def iterateLoop (decoded_data : List Byte) (img_width img_height : Int) :
    Nat → Bool → List KMeanCluster → Option (List KMeanCluster)
  | 0, _, clusters => some clusters
  | left + 1, convergence, clusters =>
    if convergence then some clusters
    else do
      let area ← int32 (img_width * img_height)
      let size ← int32 (area * 4)
      let clusters ← assignLoop decoded_data (size.toNat / 4) 0 clusters
      let r := recomputeLoop clusters true
      iterateLoop decoded_data img_width img_height left r.1 r.2

/-- The selection loop over the sorted clusters; `first` tells whether the head
of the list is `clusters.begin()`. -/
def selectLoop (darkness_limit brightness_limit : Nat) :
    List KMeanCluster → Bool → SkColor → SkColor
  | [], _, color => color
  | c :: rest, first, color =>
    let r := c.centroid0
    let g := c.centroid1
    let b := c.centroid2
    let summed_color := toUInt32 ((r.val : Int) + g.val + b.val)
    if summed_color < brightness_limit ∧ summed_color > darkness_limit then
      SkColorSetARGB 0xFF r g b
    else if first then
      selectLoop darkness_limit brightness_limit rest false (SkColorSetARGB 0xFF r g b)
    else
      selectLoop darkness_limit brightness_limit rest false color

/-- `CalculateKMeanColorOfBuffer`.  `sort` stands for the call of `std::sort`
with `SortKMeanClusterByWeight`; `GetSample` and `sampler` are the sampler. -/
def CalculateKMeanColorOfBuffer {σ : Type} (sort : List KMeanCluster → List KMeanCluster)
    (GetSample : σ → Int → Int → Option (Int × σ)) (decoded_data : List Byte)
    (img_width img_height : Int) (darkness_limit brightness_limit : Nat) (sampler : σ) :
    Option SkColor :=
  let color := kDefaultBgColor
  if img_width > 0 ∧ img_height > 0 then do
    let (clusters, _) ← initLoop GetSample decoded_data img_width img_height
      kNumberOfClusters (List.replicate kNumberOfClusters KMeanCluster.Reset) 0 sampler
    if clusters.isEmpty then some color
    else do
      let clusters ← iterateLoop decoded_data img_width img_height kNumberOfIterations false
        clusters
      let color := selectLoop darkness_limit brightness_limit (sort clusters) true color
      FindClosestColor decoded_data img_width img_height color
  else
    FindClosestColor decoded_data img_width img_height color

/-- A sort by descending weight, one of the results `std::sort` may produce. -/
def sortByWeight (clusters : List KMeanCluster) : List KMeanCluster :=
  List.insertionSort (fun a b => a.GetWeight ≥ b.GetWeight) clusters

/-! ## Notions used in the statements -/

/-- The squared distance between a candidate colour, given by its channels, and
a pixel, as `FindClosestColor` computes it. -/
def pixelDistance (in_r in_g in_b : Byte) (p : Pixel) : Int :=
  distanceSquared in_b in_g in_r p.b p.g p.r

/-- The squared Euclidean distance in RGB space between a colour and a pixel. -/
def rgbDistance (color : SkColor) (p : Pixel) : Int :=
  ((SkColorGetR color).val - (p.r.val : Int)) ^ 2 +
  ((SkColorGetG color).val - (p.g.val : Int)) ^ 2 +
  ((SkColorGetB color).val - (p.b.val : Int)) ^ 2

/-- The next `n` calls of the sampler return pixel indices in
`[0, width * height)`. -/
def samplesInRange {σ : Type} (GetSample : σ → Int → Int → Option (Int × σ))
    (width height : Int) : Nat → σ → Bool
  | 0, _ => true
  | n + 1, sampler =>
    match GetSample sampler width height with
    | none => false
    | some (i, next) =>
      decide (0 ≤ i) && decide (i < width * height) &&
        samplesInRange GetSample width height n next

/-- The pixel with index `i` can be read and its alpha is not 0. -/
def alphaNonzeroAt (image : List Byte) (i : Int) : Bool :=
  match readPixel image i.toNat with
  | some p => decide (p.a ≠ 0)
  | none => false

/-- One of the next `n` calls of the sampler returns the index of a pixel whose
alpha is not 0. -/
def samplesHit {σ : Type} (GetSample : σ → Int → Int → Option (Int × σ)) (image : List Byte)
    (width height : Int) : Nat → σ → Bool
  | 0, _ => false
  | n + 1, sampler =>
    match GetSample sampler width height with
    | none => false
    | some (i, next) =>
      alphaNonzeroAt image i || samplesHit GetSample image width height n next

/-! ## Concrete inputs -/

/-- A 2 x 2 buffer whose only pixel of non-zero alpha is pixel 0, pure red. -/
def cornerRed2x2 : List Byte :=
  [0, 0, 255, 255,  0, 0, 0, 0,  0, 0, 0, 0,  0, 0, 0, 0]

/-- A 2 x 2 buffer whose only pixel of non-zero alpha is pixel 3, pure red. -/
def lastRed2x2 : List Byte :=
  [0, 0, 0, 0,  0, 0, 0, 0,  0, 0, 0, 0,  0, 0, 255, 255]

/-- A 2 x 2 buffer of transparent pixels with assorted RGB bytes. -/
def transparent2x2 : List Byte :=
  [1, 2, 3, 0,  40, 50, 60, 0,  0, 0, 0, 0,  255, 255, 255, 0]

/-- A 1 x 3 buffer in which every pixel is `(b, g, r, a) = (10, 20, 30, 255)`. -/
def uniform1x3 : List Byte :=
  [10, 20, 30, 255,  10, 20, 30, 255,  10, 20, 30, 255]

/-- A buffer of one pure red pixel of alpha 255. -/
def singleRed : List Byte := [0, 0, 255, 255]

/-- The 4 x 4 buffer whose upper half is pure red and whose lower half is pure
blue, all of alpha 255. -/
def redBlue4x4 : List Byte :=
  [0, 0, 255, 255,  0, 0, 255, 255,  0, 0, 255, 255,  0, 0, 255, 255,
   0, 0, 255, 255,  0, 0, 255, 255,  0, 0, 255, 255,  0, 0, 255, 255,
   255, 0, 0, 255,  255, 0, 0, 255,  255, 0, 0, 255,  255, 0, 0, 255,
   255, 0, 0, 255,  255, 0, 0, 255,  255, 0, 0, 255,  255, 0, 0, 255]

/-- A sampler without state whose `GetSample` always returns -1. -/
def minusOneSampler (sampler : Unit) (_width _height : Int) : Option (Int × Unit) :=
  some (-1, sampler)

/-! ## Notions used in the statements on sampling, selection and recomputation -/

/-- The column of the `n`-th grid point: `1 + (n div 4) * ((width - 2) div 4)`. -/
def gridX (width n : Nat) : Nat := 1 + (n / 4) * ((width - 2) / 4)

/-- The row of the `n`-th grid point: `1 + (n mod 4) * ((height - 2) div 4)`. -/
def gridY (height n : Nat) : Nat := 1 + (n % 4) * ((height - 2) / 4)

/-- The samples of `k` successive calls of `GetSample`, with the sampler after
the last call. -/
def sampleRun {σ : Type} (GetSample : σ → Int → Int → Option (Int × σ)) (width height : Int) :
    Nat → σ → Option (List Int × σ)
  | 0, sampler => some ([], sampler)
  | k + 1, sampler =>
    match GetSample sampler width height with
    | none => none
    | some (i, next) =>
      match sampleRun GetSample width height k next with
      | none => none
      | some (rest, last) => some (i :: rest, last)

/-- What `std::sort` with the comparison `SortKMeanClusterByWeight` guarantees:
the result is a permutation of the input in which no later cluster compares
before an earlier one. -/
def SortsByWeight (sort : List KMeanCluster → List KMeanCluster) : Prop :=
  ∀ clusters, (sort clusters).Perm clusters ∧
    (sort clusters).Pairwise (fun a b => KMeanCluster.SortKMeanClusterByWeight b a = false)

/-- The sum `r + g + b` of the centroid of a cluster. -/
def centroidSum (c : KMeanCluster) : Nat :=
  c.centroid0.val + c.centroid1.val + c.centroid2.val

/-- The centroid sum lies strictly between the two limits. -/
@[reducible] def withinLimits (darkness_limit brightness_limit : Nat) (c : KMeanCluster) : Prop :=
  darkness_limit < centroidSum c ∧ centroidSum c < brightness_limit

/-- The centroid of a cluster as a colour of alpha 0xFF. -/
def centroidColor (c : KMeanCluster) : SkColor :=
  SkColorSetARGB 0xFF c.centroid0 c.centroid1 c.centroid2

/-- The truncated mean `aggregate / counter` equals the centroid in all three
channels. -/
@[reducible] def meanIsCentroid (c : KMeanCluster) : Prop :=
  c.aggregate0 / c.counter = c.centroid0.val ∧
  c.aggregate1 / c.counter = c.centroid1.val ∧
  c.aggregate2 / c.counter = c.centroid2.val

/-- The states of a cluster that `Reset`, `SetCentroid` and `AddPoint` reach; the
index counts the calls of `AddPoint` since the `Reset`. -/
inductive KMeanCluster.Reachable : Nat → KMeanCluster → Prop
  | reset : KMeanCluster.Reachable 0 KMeanCluster.Reset
  | setCentroid {k : Nat} {c : KMeanCluster} (r g b : Byte) :
      KMeanCluster.Reachable k c → KMeanCluster.Reachable k (c.SetCentroid r g b)
  | addPoint {k : Nat} {c : KMeanCluster} (r g b : Byte) :
      KMeanCluster.Reachable k c → KMeanCluster.Reachable (k + 1) (c.AddPoint r g b)

/-- Three recomputed clusters, not in the order of their weights: centroid
`(120, 130, 140)`, sum 390, weight 1; centroid `(10, 20, 30)`, sum 60, weight 5;
centroid `(200, 100, 50)`, sum 350, weight 3. -/
def weightedClusters : List KMeanCluster :=
  [⟨120, 130, 140, 0, 0, 0, 0, 1⟩, ⟨10, 20, 30, 0, 0, 0, 0, 5⟩, ⟨200, 100, 50, 0, 0, 0, 0, 3⟩]

/-- After a sweep: a cluster that received no point and a cluster that received
two points equal to its centroid. -/
def emptyAndStable : List KMeanCluster :=
  [⟨9, 9, 9, 0, 0, 0, 0, 0⟩, ⟨10, 20, 30, 20, 40, 60, 2, 0⟩]

/-- The body of the refinement loop: one assignment sweep over the buffer, then
the convergence flag and the recomputed clusters. -/
def refineStep (decoded_data : List Byte) (img_width img_height : Int)
    (clusters : List KMeanCluster) : Option (Bool × List KMeanCluster) := do
  let area ← int32 (img_width * img_height)
  let size ← int32 (area * 4)
  let clusters ← assignLoop decoded_data (size.toNat / 4) 0 clusters
  pure (recomputeLoop clusters true)

/-- A cluster after `Reset`, `SetCentroid(30, 20, 10)` and two calls of
`AddPoint`. -/
def twoPointCluster : KMeanCluster :=
  ((KMeanCluster.Reset.SetCentroid 30 20 10).AddPoint 10 20 30).AddPoint 21 30 41

/-! ## Notions used in the statements on the assignment sweep -/

/-- The accumulation of the pixels `ps` into a cluster: one `AddPoint` each. -/
def addPoints (c : KMeanCluster) (ps : List Pixel) : KMeanCluster :=
  ps.foldl (fun c p => c.AddPoint p.r p.g p.b) c

/-- The position of the cluster that the sweep finds closest to a pixel. -/
def closestCluster (clusters : List KMeanCluster) (p : Pixel) : Nat :=
  closestLoop p.r p.g p.b clusters 0 UINT_MAX 0

/-- The pixels with indices in `[i, i + n)` that have non-zero alpha and whose
closest cluster is at position `k`, in buffer order. -/
def assignedPixels (image : List Byte) (clusters : List KMeanCluster) (i n k : Nat) :
    List Pixel :=
  (List.range' i n).filterMap (fun j =>
    match readPixel image j with
    | some p => if p.a ≠ 0 ∧ closestCluster clusters p = k then some p else none
    | none => none)

/-- The number of pixels with indices in `[i, i + n)` that have non-zero alpha. -/
def alphaNonzeroCount (image : List Byte) (i n : Nat) : Nat :=
  (List.range' i n).countP (fun j =>
    match readPixel image j with
    | some p => decide (p.a ≠ 0)
    | none => false)

/-- The squared Euclidean distance in RGB space between a pixel and the centroid
of a cluster. -/
def centroidDistance (c : KMeanCluster) (p : Pixel) : Int :=
  ((p.r.val : Int) - c.centroid0.val) ^ 2 + ((p.g.val : Int) - c.centroid1.val) ^ 2 +
  ((p.b.val : Int) - c.centroid2.val) ^ 2

/-- The aggregates and the counter of a cluster are zero, as they are at the
start of every sweep. -/
@[reducible] def accumulatorsClear (c : KMeanCluster) : Prop :=
  c.aggregate0 = 0 ∧ c.aggregate1 = 0 ∧ c.aggregate2 = 0 ∧ c.counter = 0

/-- Two clusters with clear accumulators whose centroids are pure red and pure
blue. -/
def redBlueClusters : List KMeanCluster :=
  [⟨255, 0, 0, 0, 0, 0, 0, 0⟩, ⟨0, 0, 255, 0, 0, 0, 0, 0⟩]

/-! ## Notions used in the statements on the seeds and on convergence -/

/-- Two clusters have different centroids. -/
@[reducible] def distinctCentroids (a b : KMeanCluster) : Prop :=
  ¬ (a.centroid0 = b.centroid0 ∧ a.centroid1 = b.centroid1 ∧ a.centroid2 = b.centroid2)

/-- The centroid of the cluster is the RGB of one of the first `n` pixels, one of
non-zero alpha. -/
def seededFromPixel (image : List Byte) (n : Nat) (c : KMeanCluster) : Prop :=
  ∃ j p, j < n ∧ readPixel image j = some p ∧ p.a ≠ 0 ∧
    c.centroid0 = p.r ∧ c.centroid1 = p.g ∧ c.centroid2 = p.b

/-- The refinement loop together with the convergence flag it ends with. -/
def iterateLoopFlag (decoded_data : List Byte) (img_width img_height : Int) :
    Nat → Bool → List KMeanCluster → Option (Bool × List KMeanCluster)
  | 0, convergence, clusters => some (convergence, clusters)
  | left + 1, convergence, clusters =>
    if convergence then some (true, clusters)
    else
      match refineStep decoded_data img_width img_height clusters with
      | none => none
      | some r => iterateLoopFlag decoded_data img_width img_height left r.1 r.2

/-! ## Notions used in the statements on images of two colours -/

/-- The pixel with index `i` can be read, its alpha is not 0 and its colour is
the centroid of none of the clusters `earlier`. -/
def freshAt (image : List Byte) (earlier : List KMeanCluster) (i : Int) : Bool :=
  match readPixel image i.toNat with
  | some p => decide (p.a ≠ 0) && !(earlier.any (fun c => c.IsAtCentroid p.r p.g p.b))
  | none => false

/-- One of the next `n` calls of the sampler returns the index of a pixel of
non-zero alpha whose colour is the centroid of none of the clusters `earlier`. -/
def samplesFresh {σ : Type} (GetSample : σ → Int → Int → Option (Int × σ))
    (image : List Byte) (width height : Int) (earlier : List KMeanCluster) : Nat → σ → Bool
  | 0, _ => false
  | n + 1, sampler =>
    match GetSample sampler width height with
    | none => false
    | some (i, next) =>
      freshAt image earlier i || samplesFresh GetSample image width height earlier n next

/-- A 5 x 2 buffer: pixel 0 is `(r, g, b) = (100, 100, 100)`, the other nine
pixels are `(30, 20, 10)`, all of alpha 255. -/
def darkWithLightCorner : List Byte :=
  [100, 100, 100, 255,  10, 20, 30, 255,  10, 20, 30, 255,  10, 20, 30, 255,
   10, 20, 30, 255,  10, 20, 30, 255,  10, 20, 30, 255,  10, 20, 30, 255,
   10, 20, 30, 255,  10, 20, 30, 255]

/-- A 2 x 6 buffer: pixel 5 is `(r, g, b) = (100, 100, 100)`, the other eleven
pixels are `(30, 20, 10)`, all of alpha 255.  The grid sampler draws pixel 3 in
its call 0 and pixel 5 in its call 1. -/
def darkWithLightStripe : List Byte :=
  [10, 20, 30, 255,  10, 20, 30, 255,  10, 20, 30, 255,  10, 20, 30, 255,
   10, 20, 30, 255,  100, 100, 100, 255,  10, 20, 30, 255,  10, 20, 30, 255,
   10, 20, 30, 255,  10, 20, 30, 255,  10, 20, 30, 255,  10, 20, 30, 255]

/-! ## Basic facts -/

theorem int32_eq_some {z : Int} (h1 : INT_MIN ≤ z) (h2 : z ≤ INT_MAX) : int32 z = some z := by
  simp [int32, h1, h2]

theorem int32_eq_some_iff {z r : Int} : int32 z = some r ↔ (INT_MIN ≤ z ∧ z ≤ INT_MAX) ∧ r = z := by
  unfold int32
  split <;> simp_all [eq_comm]

theorem readPixel_of_lt {image : List Byte} {i : Nat} (h : 4 * i + 3 < image.length) :
    ∃ p, readPixel image i = some p := by
  have h0 : 4 * i < image.length := by omega
  have h1 : 4 * i + 1 < image.length := by omega
  have h2 : 4 * i + 2 < image.length := by omega
  simp [readPixel, List.getElem?_eq_getElem, h0, h1, h2, h]

theorem readPixel_alpha {image : List Byte} {i : Nat} {p : Pixel}
    (h : readPixel image i = some p) : image[4 * i + 3]? = some p.a := by
  simp only [readPixel, Option.bind_eq_bind, Option.pure_def, Option.bind_eq_some] at h
  obtain ⟨b, _, g, _, r, _, a, ha, hp⟩ := h
  simp only [Option.some.injEq] at hp
  subst hp
  exact ha

theorem readPixel_of_alpha {image : List Byte} {i : Nat} {a : Byte}
    (h : image[4 * i + 3]? = some a) : ∃ p, readPixel image i = some p ∧ p.a = a := by
  have hlt : 4 * i + 3 < image.length := by
    by_contra hc
    rw [List.getElem?_eq_none (by omega)] at h
    exact Option.noConfusion h
  obtain ⟨p, hp⟩ := readPixel_of_lt hlt
  refine ⟨p, hp, ?_⟩
  have := readPixel_alpha hp
  rw [h] at this
  exact (Option.some.inj this).symm

theorem distanceSquared_nonneg (x0 x1 x2 y0 y1 y2 : Byte) :
    0 ≤ distanceSquared x0 x1 x2 y0 y1 y2 := by
  unfold distanceSquared
  have n0 := mul_self_nonneg ((x0.val : Int) - y0.val)
  have n1 := mul_self_nonneg ((x1.val : Int) - y1.val)
  have n2 := mul_self_nonneg ((x2.val : Int) - y2.val)
  omega

theorem distanceSquared_le (x0 x1 x2 y0 y1 y2 : Byte) :
    distanceSquared x0 x1 x2 y0 y1 y2 ≤ 195075 := by
  unfold distanceSquared
  have a0 := x0.isLt
  have a1 := x1.isLt
  have a2 := x2.isLt
  have b0 := y0.isLt
  have b1 := y1.isLt
  have b2 := y2.isLt
  have sq : ∀ a b : Nat, a < 256 → b < 256 → ((a : Int) - b) * ((a : Int) - b) ≤ 65025 := by
    intro a b ha hb
    nlinarith
  have s0 := sq _ _ a0 b0
  have s1 := sq _ _ a1 b1
  have s2 := sq _ _ a2 b2
  omega

theorem distanceSquared_eq_zero {x0 x1 x2 y0 y1 y2 : Byte}
    (h : distanceSquared x0 x1 x2 y0 y1 y2 = 0) : x0 = y0 ∧ x1 = y1 ∧ x2 = y2 := by
  unfold distanceSquared at h
  have n0 := mul_self_nonneg ((x0.val : Int) - y0.val)
  have n1 := mul_self_nonneg ((x1.val : Int) - y1.val)
  have n2 := mul_self_nonneg ((x2.val : Int) - y2.val)
  have z0 : ((x0.val : Int) - y0.val) * ((x0.val : Int) - y0.val) = 0 := by omega
  have z1 : ((x1.val : Int) - y1.val) * ((x1.val : Int) - y1.val) = 0 := by omega
  have z2 : ((x2.val : Int) - y2.val) * ((x2.val : Int) - y2.val) = 0 := by omega
  rw [mul_self_eq_zero] at z0 z1 z2
  refine ⟨Fin.ext ?_, Fin.ext ?_, Fin.ext ?_⟩ <;> omega

theorem distanceSquared_self (x0 x1 x2 : Byte) : distanceSquared x0 x1 x2 x0 x1 x2 = 0 := by
  simp [distanceSquared]

/-! ## What the loop of `FindClosestColor` computes -/

/-- The loop either keeps its state, when no remaining non-transparent pixel is
strictly closer than the current best distance, or ends on the first
non-transparent pixel of minimal distance. -/
theorem FindClosestColor.loop_spec (image : List Byte) (in_r in_g in_b : Byte) :
    ∀ (n i : Nat) (bd : Int) (bc : SkColor),
      (∀ j, i ≤ j → j < i + n → ∃ p, readPixel image j = some p) →
      (FindClosestColor.loop image in_r in_g in_b n i bd bc = some bc ∧
        ∀ j q, i ≤ j → j < i + n → readPixel image j = some q → q.a ≠ 0 →
          bd ≤ pixelDistance in_r in_g in_b q) ∨
      (∃ k p, i ≤ k ∧ k < i + n ∧ readPixel image k = some p ∧ p.a ≠ 0 ∧
        pixelDistance in_r in_g in_b p < bd ∧
        FindClosestColor.loop image in_r in_g in_b n i bd bc = some (SkColorSetRGB p.r p.g p.b) ∧
        (∀ j q, i ≤ j → j < i + n → readPixel image j = some q → q.a ≠ 0 →
          pixelDistance in_r in_g in_b p ≤ pixelDistance in_r in_g in_b q) ∧
        (∀ j q, i ≤ j → j < k → readPixel image j = some q → q.a ≠ 0 →
          pixelDistance in_r in_g in_b p < pixelDistance in_r in_g in_b q)) := by
  intro n
  induction n with
  | zero =>
    intro i bd bc _
    left
    refine ⟨rfl, ?_⟩
    intro j q h1 h2
    omega
  | succ n ih =>
    intro i bd bc hread
    obtain ⟨p, hp⟩ := hread i (Nat.le_refl i) (by omega)
    have hread2 : ∀ j, i + 1 ≤ j → j < i + 1 + n → ∃ p, readPixel image j = some p := by
      intro j h1 h2
      exact hread j (by omega) (by omega)
    by_cases ha : p.a = 0
    · -- transparent pixel: skipped
      have hstep : FindClosestColor.loop image in_r in_g in_b (n + 1) i bd bc =
          FindClosestColor.loop image in_r in_g in_b n (i + 1) bd bc := by
        simp [FindClosestColor.loop, hp, ha]
      rw [hstep]
      rcases ih (i + 1) bd bc hread2 with ⟨hres, hall⟩ | ⟨k, pk, hk1, hk2, hpk, hak, hlt, hres, hmin, hfirst⟩
      · left
        refine ⟨hres, ?_⟩
        intro j q h1 h2 hq hqa
        rcases Nat.eq_or_lt_of_le h1 with heq | hlt
        · subst heq
          rw [hp] at hq
          cases hq
          exact absurd ha hqa
        · exact hall j q hlt (by omega) hq hqa
      · right
        refine ⟨k, pk, by omega, by omega, hpk, hak, hlt, hres, ?_, ?_⟩
        · intro j q h1 h2 hq hqa
          rcases Nat.eq_or_lt_of_le h1 with heq | hlt
          · subst heq
            rw [hp] at hq
            cases hq
            exact absurd ha hqa
          · exact hmin j q hlt (by omega) hq hqa
        · intro j q h1 h2 hq hqa
          rcases Nat.eq_or_lt_of_le h1 with heq | hlt
          · subst heq
            rw [hp] at hq
            cases hq
            exact absurd ha hqa
          · exact hfirst j q hlt h2 hq hqa
    · by_cases hd : pixelDistance in_r in_g in_b p < bd
      · -- a new strict minimum
        have hstep : FindClosestColor.loop image in_r in_g in_b (n + 1) i bd bc =
            FindClosestColor.loop image in_r in_g in_b n (i + 1)
              (pixelDistance in_r in_g in_b p) (SkColorSetRGB p.r p.g p.b) := by
          have hd2 : distanceSquared in_b in_g in_r p.b p.g p.r < bd := hd
          simp [FindClosestColor.loop, hp, ha, hd2, pixelDistance]
        rw [hstep]
        rcases ih (i + 1) (pixelDistance in_r in_g in_b p) (SkColorSetRGB p.r p.g p.b) hread2 with
          ⟨hres, hall⟩ | ⟨k, pk, hk1, hk2, hpk, hak, hlt, hres, hmin, hfirst⟩
        · right
          refine ⟨i, p, Nat.le_refl i, by omega, hp, ha, hd, hres, ?_, ?_⟩
          · intro j q h1 h2 hq hqa
            rcases Nat.eq_or_lt_of_le h1 with heq | hlt
            · subst heq
              rw [hp] at hq
              cases hq
              exact le_refl _
            · exact hall j q hlt (by omega) hq hqa
          · intro j q h1 h2
            omega
        · right
          refine ⟨k, pk, by omega, by omega, hpk, hak, lt_trans hlt hd, hres, ?_, ?_⟩
          · intro j q h1 h2 hq hqa
            rcases Nat.eq_or_lt_of_le h1 with heq | hlt2
            · subst heq
              rw [hp] at hq
              cases hq
              exact le_of_lt hlt
            · exact hmin j q hlt2 (by omega) hq hqa
          · intro j q h1 h2 hq hqa
            rcases Nat.eq_or_lt_of_le h1 with heq | hlt2
            · subst heq
              rw [hp] at hq
              cases hq
              exact hlt
            · exact hfirst j q hlt2 h2 hq hqa
      · -- not closer than the best so far
        have hstep : FindClosestColor.loop image in_r in_g in_b (n + 1) i bd bc =
            FindClosestColor.loop image in_r in_g in_b n (i + 1) bd bc := by
          have hd2 : ¬ distanceSquared in_b in_g in_r p.b p.g p.r < bd := hd
          simp [FindClosestColor.loop, hp, ha, hd2]
        rw [hstep]
        rcases ih (i + 1) bd bc hread2 with ⟨hres, hall⟩ | ⟨k, pk, hk1, hk2, hpk, hak, hlt, hres, hmin, hfirst⟩
        · left
          refine ⟨hres, ?_⟩
          intro j q h1 h2 hq hqa
          rcases Nat.eq_or_lt_of_le h1 with heq | hlt
          · subst heq
            rw [hp] at hq
            cases hq
            exact not_lt.mp hd
          · exact hall j q hlt (by omega) hq hqa
        · right
          refine ⟨k, pk, by omega, by omega, hpk, hak, hlt, hres, ?_, ?_⟩
          · intro j q h1 h2 hq hqa
            rcases Nat.eq_or_lt_of_le h1 with heq | hlt2
            · subst heq
              rw [hp] at hq
              cases hq
              exact le_of_lt (lt_of_lt_of_le hlt (not_lt.mp hd))
            · exact hmin j q hlt2 (by omega) hq hqa
          · intro j q h1 h2 hq hqa
            rcases Nat.eq_or_lt_of_le h1 with heq | hlt2
            · subst heq
              rw [hp] at hq
              cases hq
              exact lt_of_lt_of_le hlt (not_lt.mp hd)
            · exact hfirst j q hlt2 h2 hq hqa

theorem pixelDistance_eq_rgbDistance (color : SkColor) (p : Pixel) :
    pixelDistance (SkColorGetR color) (SkColorGetG color) (SkColorGetB color) p =
      rgbDistance color p := by
  unfold pixelDistance rgbDistance distanceSquared
  ring

theorem kint32max_gt_distance (color : SkColor) (p : Pixel) : rgbDistance color p < kint32max := by
  have := distanceSquared_le (SkColorGetB color) (SkColorGetG color) (SkColorGetR color) p.b p.g p.r
  rw [← pixelDistance_eq_rgbDistance]
  unfold pixelDistance kint32max
  omega

theorem rgbDistance_nonneg (color : SkColor) (p : Pixel) : 0 ≤ rgbDistance color p := by
  rw [← pixelDistance_eq_rgbDistance]
  exact distanceSquared_nonneg _ _ _ _ _ _

theorem rgbDistance_SetRGB_self (p : Pixel) : rgbDistance (SkColorSetRGB p.r p.g p.b) p = 0 := by
  simp [rgbDistance, SkColorSetRGB, SkColorSetARGB, SkColorGetR, SkColorGetG, SkColorGetB]

theorem rgbDistance_eq_zero {color : SkColor} {p : Pixel} (h : rgbDistance color p = 0) :
    SkColorGetR color = p.r ∧ SkColorGetG color = p.g ∧ SkColorGetB color = p.b := by
  rw [← pixelDistance_eq_rgbDistance] at h
  obtain ⟨hb, hg, hr⟩ := distanceSquared_eq_zero h
  exact ⟨hr, hg, hb⟩

/-- A loop that returns has read every pixel of its range. -/
theorem FindClosestColor.loop_reads (image : List Byte) (in_r in_g in_b : Byte) :
    ∀ (n i : Nat) (bd : Int) (bc c : SkColor),
      FindClosestColor.loop image in_r in_g in_b n i bd bc = some c →
      ∀ j, i ≤ j → j < i + n → ∃ p, readPixel image j = some p := by
  intro n
  induction n with
  | zero =>
    intro i bd bc c _ j h1 h2
    omega
  | succ n ih =>
    intro i bd bc c h j h1 h2
    simp only [FindClosestColor.loop, Option.bind_eq_bind, Option.bind_eq_some] at h
    obtain ⟨p, hp, h⟩ := h
    rcases Nat.eq_or_lt_of_le h1 with heq | hlt
    · subst heq
      exact ⟨p, hp⟩
    · split at h
      · exact ih _ _ _ _ h j hlt (by omega)
      · split at h
        · exact ih _ _ _ _ h j hlt (by omega)
        · exact ih _ _ _ _ h j hlt (by omega)

/-- When the pixel count fits an `int` and the `width * height` pixels can be
read, `FindClosestColor` returns either the candidate (no pixel of non-zero
alpha) or the colour of the first pixel of non-zero alpha of minimal distance. -/
theorem FindClosestColor_cases (image : List Byte) (width height : Int) (color : SkColor)
    (hmin : INT_MIN ≤ width * height) (hmax : width * height ≤ INT_MAX)
    (hread : ∀ j, j < (width * height).toNat → ∃ p, readPixel image j = some p) :
    (FindClosestColor image width height color = some color ∧
      ∀ j q, j < (width * height).toNat → readPixel image j = some q → q.a = 0) ∨
    (∃ k p, k < (width * height).toNat ∧ readPixel image k = some p ∧ p.a ≠ 0 ∧
      FindClosestColor image width height color = some (SkColorSetRGB p.r p.g p.b) ∧
      (∀ j q, j < (width * height).toNat → readPixel image j = some q → q.a ≠ 0 →
        rgbDistance color p ≤ rgbDistance color q) ∧
      (∀ j q, j < k → readPixel image j = some q → q.a ≠ 0 →
        rgbDistance color p < rgbDistance color q)) := by
  have hF : FindClosestColor image width height color =
      FindClosestColor.loop image (SkColorGetR color) (SkColorGetG color) (SkColorGetB color)
        (width * height).toNat 0 kint32max color := by
    simp [FindClosestColor, int32_eq_some hmin hmax]
  have hread2 : ∀ j, 0 ≤ j → j < 0 + (width * height).toNat →
      ∃ p, readPixel image j = some p := by
    intro j _ h2
    exact hread j (by omega)
  rcases FindClosestColor.loop_spec image (SkColorGetR color) (SkColorGetG color)
      (SkColorGetB color) (width * height).toNat 0 kint32max color hread2 with
    ⟨hres, hall⟩ | ⟨k, p, _, hk2, hp, ha, _, hres, hmin2, hfirst⟩
  · left
    refine ⟨hF.trans hres, ?_⟩
    intro j q hj hq
    by_contra hqa
    have h1 := hall j q (Nat.zero_le j) (by omega) hq hqa
    have h2 := kint32max_gt_distance color q
    rw [pixelDistance_eq_rgbDistance] at h1
    omega
  · right
    simp only [pixelDistance_eq_rgbDistance] at hmin2 hfirst
    refine ⟨k, p, by omega, hp, ha, hF.trans hres, ?_, ?_⟩
    · intro j q hj hq hqa
      exact hmin2 j q (Nat.zero_le j) (by omega) hq hqa
    · intro j q hj hq hqa
      exact hfirst j q (Nat.zero_le j) hj hq hqa

theorem readPixel_of_length (image : List Byte) (n : Nat) (hlen : 4 * n ≤ image.length) :
    ∀ j, j < n → ∃ p, readPixel image j = some p := by
  intro j hj
  exact readPixel_of_lt (by omega)

/-- A call of `FindClosestColor` that returns fixes its own result. -/
theorem FindClosestColor_fixes_result (image : List Byte) (width height : Int)
    (color c : SkColor) (h : FindClosestColor image width height color = some c) :
    FindClosestColor image width height c = some c := by
  have h2 := h
  simp only [FindClosestColor, Option.bind_eq_bind, Option.bind_eq_some] at h2
  obtain ⟨area, harea, hloop⟩ := h2
  obtain ⟨⟨hmin, hmax⟩, harea2⟩ := int32_eq_some_iff.mp harea
  subst harea2
  have hread : ∀ j, j < (width * height).toNat → ∃ p, readPixel image j = some p := by
    intro j hj
    exact FindClosestColor.loop_reads image _ _ _ _ _ _ _ _ hloop j (Nat.zero_le j) (by omega)
  rcases FindClosestColor_cases image width height color hmin hmax hread with
    ⟨hres, hnone⟩ | ⟨k, p, hk, hp, ha, hres, _, _⟩
  · rw [hres] at h
    cases h
    exact hres
  · rw [hres] at h
    cases h
    rcases FindClosestColor_cases image width height (SkColorSetRGB p.r p.g p.b) hmin hmax hread
      with ⟨_, hnone⟩ | ⟨k2, p2, hk2, hp2, ha2, hres2, hmin2, _⟩
    · exact absurd (hnone k p hk hp) ha
    · rw [hres2]
      have hle := hmin2 k p hk hp ha
      rw [rgbDistance_SetRGB_self] at hle
      have hnn := rgbDistance_nonneg (SkColorSetRGB p.r p.g p.b) p2
      have hz2 : rgbDistance (SkColorSetRGB p.r p.g p.b) p2 = 0 := by omega
      obtain ⟨hr, hg, hb⟩ := rgbDistance_eq_zero hz2
      simp only [SkColorSetRGB, SkColorSetARGB, SkColorGetR, SkColorGetG, SkColorGetB] at hr hg hb
      rw [← hb, ← hg, ← hr]
/-! ## The grid sampler on images of at least 2 x 2 pixels -/

theorem toUInt32_natCast (n : Nat) (h : n < 4294967296) : toUInt32 (n : Int) = n := by
  unfold toUInt32
  omega

theorem toInt32_of_lt (n : Nat) (h : n < 2147483648) : toInt32 n = (n : Int) := by
  unfold toInt32
  have h1 : n % 4294967296 = n := Nat.mod_eq_of_lt (by omega)
  rw [h1]
  simp [h]

theorem imod_of_nonneg_lt {i area : Int} (h0 : 0 ≤ i) (h1 : i < area) : imod i area = some i := by
  have hne : ¬ (area = 0 ∨ (i = INT_MIN ∧ area = -1)) := by
    unfold INT_MIN
    omega
  simp only [imod, hne, if_false]
  rw [Int.tmod_eq_of_lt h0 h1]

/-- For `width, height >= 2`, a buffer size `4 * width * height` that fits an
`int`, and a counter in `0..39`, the sample is the grid point
`x + y * width` reduced modulo `width * height`, where
`x = 1 + (calls_ / 4) * ((width - 2) / 4)` and
`y = 1 + (calls_ % 4) * ((height - 2) / 4)`, and the counter is incremented. -/
theorem GridSampler.GetSample_eq (calls_ width height : Nat)
    (hw : 2 ≤ width) (hh : 2 ≤ height) (hsize : 4 * (width * height) ≤ 2147483647)
    (hc : calls_ < 40) :
    GridSampler.GetSample (calls_ : Int) (width : Int) (height : Int) =
      some ((((1 + (calls_ / 4) * ((width - 2) / 4) +
        (1 + (calls_ % 4) * ((height - 2) / 4)) * width) % (width * height) : Nat) : Int),
        (calls_ : Int) + 1) := by
  have hP1 : width * 2 ≤ width * height := Nat.mul_le_mul_left width hh
  have hP2 : 2 * height ≤ width * height := Nat.mul_le_mul_right height hw
  have hA : (calls_ / 4) * ((width - 2) / 4) ≤ 9 * ((width - 2) / 4) :=
    Nat.mul_le_mul_right _ (by omega)
  have hB : (calls_ % 4) * ((height - 2) / 4) ≤ 3 * ((height - 2) / 4) :=
    Nat.mul_le_mul_right _ (by omega)
  have hy : 1 + (calls_ % 4) * ((height - 2) / 4) ≤ height - 1 := by omega
  have hR : (1 + (calls_ % 4) * ((height - 2) / 4)) * width ≤ (height - 1) * width :=
    Nat.mul_le_mul_right _ hy
  have hR2 : (height - 1) * width + width = width * height := by
    have : height - 1 + 1 = height := by omega
    calc (height - 1) * width + width = (height - 1 + 1) * width := by ring
      _ = width * height := by rw [this, Nat.mul_comm]
  generalize hAdef : (calls_ / 4) * ((width - 2) / 4) = A at *
  generalize hBdef : (calls_ % 4) * ((height - 2) / 4) = B at *
  generalize hRdef : (1 + B) * width = R at *
  generalize hPdef : width * height = P at *
  have e1 : int32 ((width : Int) - 2 * 1) = some ((width : Int) - 2 * 1) :=
    int32_eq_some (by unfold INT_MIN; omega) (by unfold INT_MAX; omega)
  have e2 : int32 ((height : Int) - 2 * 1) = some ((height : Int) - 2 * 1) :=
    int32_eq_some (by unfold INT_MIN; omega) (by unfold INT_MAX; omega)
  have cw : toUInt32 ((width : Int) - 2 * 1) = width - 2 := by
    have : (width : Int) - 2 * 1 = ((width - 2 : Nat) : Int) := by omega
    rw [this]
    exact toUInt32_natCast _ (by omega)
  have ch : toUInt32 ((height : Int) - 2 * 1) = height - 2 := by
    have : (height : Int) - 2 * 1 = ((height - 2 : Nat) : Int) := by omega
    rw [this]
    exact toUInt32_natCast _ (by omega)
  have cc : toUInt32 (calls_ : Int) = calls_ := toUInt32_natCast _ (by omega)
  have c1 : toUInt32 (1 : Int) = 1 := by decide
  have ex : uadd 1 (umul (calls_ / 4) ((width - 2) / 4)) = 1 + A := by
    unfold uadd umul
    rw [hAdef]
    omega
  have ey : uadd 1 (umul (calls_ % 4) ((height - 2) / 4)) = 1 + B := by
    unfold uadd umul
    rw [hBdef]
    omega
  have tx : toInt32 (1 + A) = ((1 + A : Nat) : Int) := toInt32_of_lt _ (by omega)
  have ty : toInt32 (1 + B) = ((1 + B : Nat) : Int) := toInt32_of_lt _ (by omega)
  have erow : ((1 + B : Nat) : Int) * (width : Int) = ((R : Nat) : Int) := by
    rw [← hRdef]
    push_cast
    ring
  have e3 : int32 ((R : Nat) : Int) = some ((R : Nat) : Int) :=
    int32_eq_some (by unfold INT_MIN; omega) (by unfold INT_MAX; omega)
  have e4 : int32 (((1 + A : Nat) : Int) + ((R : Nat) : Int)) = some (((1 + A + R : Nat) : Int)) := by
    have : ((1 + A : Nat) : Int) + ((R : Nat) : Int) = ((1 + A + R : Nat) : Int) := by
      push_cast
      ring
    rw [this]
    exact int32_eq_some (by unfold INT_MIN; omega) (by unfold INT_MAX; omega)
  have e5 : int32 ((calls_ : Int) + 1) = some ((calls_ : Int) + 1) :=
    int32_eq_some (by unfold INT_MIN; omega) (by unfold INT_MAX; omega)
  have earea : (width : Int) * (height : Int) = ((P : Nat) : Int) := by
    rw [← hPdef]
    push_cast
    ring
  have e6 : int32 ((P : Nat) : Int) = some ((P : Nat) : Int) :=
    int32_eq_some (by unfold INT_MIN; omega) (by unfold INT_MAX; omega)
  have e7 : imod ((1 + A + R : Nat) : Int) ((P : Nat) : Int) =
      some (((1 + A + R) % P : Nat) : Int) := by
    have hne : ¬ (((P : Nat) : Int) = 0 ∨ (((1 + A + R : Nat) : Int) = INT_MIN ∧ ((P : Nat) : Int) = -1)) := by
      unfold INT_MIN
      omega
    simp only [imod, hne, if_false]
    congr 1
  simp only [GridSampler.GetSample, kNumberOfClusters, Option.bind_eq_bind, Option.pure_def,
    e1, e2, Option.some_bind, cw, ch, cc, c1, ex, ey, tx, ty, erow, e3, e4, e5, earea, e6, e7]

/-! ## Samplers that honour the contract of `GetSample` -/

theorem samplesInRange_succ_iff {σ : Type} (GetSample : σ → Int → Int → Option (Int × σ))
    (width height : Int) (n : Nat) (s : σ) :
    samplesInRange GetSample width height (n + 1) s = true ↔
      ∃ i next, GetSample s width height = some (i, next) ∧ 0 ≤ i ∧ i < width * height ∧
        samplesInRange GetSample width height n next = true := by
  cases hg : GetSample s width height with
  | none => simp [samplesInRange, hg]
  | some r =>
    obtain ⟨i, next⟩ := r
    simp [samplesInRange, hg, and_assoc]

theorem samplesInRange_pred {σ : Type} (GetSample : σ → Int → Int → Option (Int × σ))
    (width height : Int) :
    ∀ (n : Nat) (s : σ), samplesInRange GetSample width height (n + 1) s = true →
      samplesInRange GetSample width height n s = true := by
  intro n
  induction n with
  | zero => intro s _; rfl
  | succ n ih =>
    intro s h
    rw [samplesInRange_succ_iff] at h ⊢
    obtain ⟨i, next, hg, h0, h1, hrest⟩ := h
    exact ⟨i, next, hg, h0, h1, ih next hrest⟩

theorem samplesInRange_le {σ : Type} (GetSample : σ → Int → Int → Option (Int × σ))
    (width height : Int) (s : σ) :
    ∀ (k n : Nat), samplesInRange GetSample width height (n + k) s = true →
      samplesInRange GetSample width height n s = true := by
  intro k
  induction k with
  | zero => intro n h; exact h
  | succ k ih =>
    intro n h
    exact ih n (samplesInRange_pred GetSample width height (n + k) s h)

theorem samplesHit_succ {σ : Type} (GetSample : σ → Int → Int → Option (Int × σ)) (image : List Byte)
    (width height : Int) (n : Nat) (s next : σ) (i : Int)
    (hg : GetSample s width height = some (i, next)) :
    samplesHit GetSample image width height (n + 1) s =
      (alphaNonzeroAt image i || samplesHit GetSample image width height n next) := by
  simp [samplesHit, hg]


/-! ## The seed loops -/

theorem seedLoop_step {σ : Type} (GetSample : σ → Int → Int → Option (Int × σ)) (image : List Byte)
    (width height : Int) (clusters : List KMeanCluster) (cluster tries : Nat) (s next : σ)
    (i area pos : Int) (p : Pixel)
    (hg : GetSample s width height = some (i, next))
    (harea : int32 (width * height) = some area) (hpos : imod i area = some pos)
    (hp : readPixelAt image pos = some p) :
    seedLoop GetSample image width height clusters cluster (tries + 1) s =
      if p.a = 0 then seedLoop GetSample image width height clusters cluster tries next
      else if (clusters.take cluster).any (fun c => c.IsAtCentroid p.r p.g p.b) then
        seedLoop GetSample image width height clusters cluster tries next
      else some (true, clusters.modify (fun c => c.SetCentroid p.r p.g p.b) cluster, next) := by
  simp [seedLoop, hg, harea, hpos, hp]

theorem int32_area (width height : Int) (hw : 0 < width) (hh : 0 < height) (hsize : 4 * (width * height) ≤ INT_MAX) :
    int32 (width * height) = some (width * height) := by
  have := Int.mul_pos hw hh
  apply int32_eq_some
  · unfold INT_MIN
    omega
  · omega

theorem readPixelAt_of_in_range (image : List Byte) (width height : Int)
    (hsize : 4 * (width * height) ≤ INT_MAX)
    (hlen : (image.length : Int) = 4 * (width * height))
    {i : Int} (h0 : 0 ≤ i) (h1 : i < width * height) :
    ∃ p, readPixelAt image i = some p ∧ readPixel image i.toNat = some p := by
  have hlt : 4 * i.toNat + 3 < image.length := by omega
  obtain ⟨p, hp⟩ := readPixel_of_lt hlt
  refine ⟨p, ?_, hp⟩
  have e : int32 (i * 4) = some (i * 4) := by
    apply int32_eq_some
    · unfold INT_MIN
      omega
    · omega
  have hn : ¬ (i * 4 < 0) := by omega
  simp [readPixelAt, e, hn, hp]

/-- One run of the ten-tries loop with a sampler that stays in range: the loop
returns, keeps the number of clusters, leaves the clusters alone when it finds
no seed, and finds none only if, for the first cluster, every pixel it drew was
transparent. -/
theorem seedLoop_spec {σ : Type} (GetSample : σ → Int → Int → Option (Int × σ)) (image : List Byte)
    (width height : Int) (hw : 0 < width) (hh : 0 < height)
    (hsize : 4 * (width * height) ≤ INT_MAX)
    (hlen : (image.length : Int) = 4 * (width * height))
    (clusters : List KMeanCluster) (cluster : Nat) :
    ∀ (tries m : Nat) (s : σ), samplesInRange GetSample width height (tries + m) s = true →
      ∃ u cl next, seedLoop GetSample image width height clusters cluster tries s =
          some (u, cl, next) ∧
        samplesInRange GetSample width height m next = true ∧
        cl.length = clusters.length ∧
        (u = false → cl = clusters) ∧
        (u = false → cluster = 0 →
          samplesHit GetSample image width height (tries + m) s = true →
          samplesHit GetSample image width height m next = true) ∧
        ((∀ j q, readPixel image j = some q → q.a = 0) → u = false) := by
  intro tries
  induction tries with
  | zero =>
    intro m s hs
    refine ⟨false, clusters, s, rfl, ?_, rfl, fun _ => rfl, ?_, fun _ => rfl⟩
    · simpa using hs
    · intro _ _ hhit
      simpa using hhit
  | succ tries ih =>
    intro m s hs
    have hrw : tries + 1 + m = (tries + m) + 1 := by omega
    rw [hrw] at hs ⊢
    obtain ⟨i, next, hg, h0, h1, hrest⟩ :=
      (samplesInRange_succ_iff GetSample width height (tries + m) s).mp hs
    obtain ⟨p, hp, hp2⟩ := readPixelAt_of_in_range image width height hsize hlen h0 h1
    have hstep := seedLoop_step GetSample image width height clusters cluster tries s next i
      (width * height) i p hg (int32_area width height hw hh hsize)
      (imod_of_nonneg_lt h0 h1) hp
    obtain ⟨u, cl, next2, hres, hin, hlen2, hkeep, hhit, htr⟩ := ih m next hrest
    by_cases ha : p.a = 0
    · -- transparent sample
      rw [if_pos ha] at hstep
      refine ⟨u, cl, next2, hstep.trans hres, hin, hlen2, hkeep, ?_, htr⟩
      intro hu hc hh2
      rw [samplesHit_succ GetSample image width height (tries + m) s next i hg] at hh2
      have hnz : alphaNonzeroAt image i = false := by
        simp [alphaNonzeroAt, hp2, ha]
      rw [hnz, Bool.false_or] at hh2
      exact hhit hu hc hh2
    · rw [if_neg ha] at hstep
      by_cases hdup : (clusters.take cluster).any (fun c => c.IsAtCentroid p.r p.g p.b) = true
      · -- the colour is the centroid of an earlier cluster
        rw [if_pos hdup] at hstep
        refine ⟨u, cl, next2, hstep.trans hres, hin, hlen2, hkeep, ?_, ?_⟩
        · intro _ hc _
          exfalso
          subst hc
          simp at hdup
        · intro hall
          exact absurd (hall _ _ hp2) ha
      · rw [if_neg hdup] at hstep
        refine ⟨true, _, next, hstep, ?_, ?_, ?_, ?_, ?_⟩
        · exact samplesInRange_le GetSample width height next tries m (by
            rw [Nat.add_comm m tries]; exact hrest)
        · simp [List.length_modify]
        · intro hcontra
          exact absurd hcontra (by decide)
        · intro hcontra
          exact absurd hcontra (by decide)
        · intro hall
          exact absurd (hall _ _ hp2) ha

theorem initLoop_step {σ : Type} (GetSample : σ → Int → Int → Option (Int × σ)) (image : List Byte)
    (width height : Int) (clusters cl : List KMeanCluster) (cluster slots : Nat) (s next : σ)
    (u : Bool)
    (hseed : seedLoop GetSample image width height clusters cluster 10 s = some (u, cl, next)) :
    initLoop GetSample image width height (slots + 1) clusters cluster s =
      if (!u) = true then
        initLoop GetSample image width height slots (cl.eraseIdx cluster) cluster next
      else initLoop GetSample image width height slots cl (cluster + 1) next := by
  simp [initLoop, hseed]

/-- The initialization loop with a sampler that stays in range for ten calls
per slot: it returns; the clusters before `cluster` are kept; starting from the
first slot, a sampled pixel of non-zero alpha leaves at least one cluster, and a
buffer without such a pixel leaves none. -/
theorem initLoop_spec {σ : Type} (GetSample : σ → Int → Int → Option (Int × σ)) (image : List Byte)
    (width height : Int) (hw : 0 < width) (hh : 0 < height)
    (hsize : 4 * (width * height) ≤ INT_MAX)
    (hlen : (image.length : Int) = 4 * (width * height)) :
    ∀ (slots : Nat) (clusters : List KMeanCluster) (cluster : Nat) (s : σ),
      clusters.length = cluster + slots →
      samplesInRange GetSample width height (10 * slots) s = true →
      ∃ cl next, initLoop GetSample image width height slots clusters cluster s =
          some (cl, next) ∧
        cluster ≤ cl.length ∧
        (cluster = 0 → samplesHit GetSample image width height (10 * slots) s = true →
          cl ≠ []) ∧
        ((∀ j q, readPixel image j = some q → q.a = 0) → cluster = 0 → cl = []) := by
  intro slots
  induction slots with
  | zero =>
    intro clusters cluster s hinv _
    refine ⟨clusters, s, rfl, by omega, ?_, ?_⟩
    · intro _ hhit
      simp [samplesHit] at hhit
    · intro _ hc
      apply List.eq_nil_of_length_eq_zero
      omega
  | succ slots ih =>
    intro clusters cluster s hinv hs
    have hrw : 10 * (slots + 1) = 10 + 10 * slots := by omega
    rw [hrw] at hs ⊢
    obtain ⟨u, cl1, s1, hseed, hin, hlen1, hkeep, hhit, htr⟩ :=
      seedLoop_spec GetSample image width height hw hh hsize hlen clusters cluster 10
        (10 * slots) s hs
    have hstep := initLoop_step GetSample image width height clusters cl1 cluster slots s s1 u
      hseed
    cases u with
    | false =>
      have hcl1 : cl1 = clusters := hkeep rfl
      subst hcl1
      simp only [Bool.not_false, if_true] at hstep
      have hinv2 : (cl1.eraseIdx cluster).length = cluster + slots := by
        rw [List.length_eraseIdx]
        have : cluster < cl1.length := by omega
        simp only [this, if_true]
        omega
      obtain ⟨cl, next, hres, hle, hne, hnil⟩ := ih (cl1.eraseIdx cluster) cluster s1 hinv2 hin
      refine ⟨cl, next, hstep.trans hres, hle, ?_, hnil⟩
      intro hc hh2
      exact hne hc (hhit rfl hc hh2)
    | true =>
      simp only [Bool.not_true, Bool.false_eq_true, if_false] at hstep
      have hinv2 : cl1.length = (cluster + 1) + slots := by omega
      obtain ⟨cl, next, hres, hle, _, _⟩ := ih cl1 (cluster + 1) s1 hinv2 hin
      refine ⟨cl, next, hstep.trans hres, by omega, ?_, ?_⟩
      · intro _ _ hnil
        rw [hnil] at hle
        simp at hle
      · intro hall
        exact absurd (htr hall) (by decide)


/-! ## The refinement loop returns -/

theorem assignLoop_total (image : List Byte) :
    ∀ (n i : Nat) (clusters : List KMeanCluster), 4 * (i + n) ≤ image.length →
      ∃ cl, assignLoop image n i clusters = some cl := by
  intro n
  induction n with
  | zero =>
    intro i clusters _
    exact ⟨clusters, rfl⟩
  | succ n ih =>
    intro i clusters hlen
    obtain ⟨p, hp⟩ := @readPixel_of_lt image i (by omega)
    by_cases ha : p.a = 0
    · obtain ⟨cl, hcl⟩ := ih (i + 1) clusters (by omega)
      exact ⟨cl, by simp [assignLoop, hp, ha, hcl]⟩
    · obtain ⟨cl, hcl⟩ := ih (i + 1)
        (clusters.modify (fun c => c.AddPoint p.r p.g p.b)
          (closestLoop p.r p.g p.b clusters 0 UINT_MAX 0)) (by omega)
      exact ⟨cl, by simp [assignLoop, hp, ha, hcl]⟩

theorem iterateLoop_total (image : List Byte) (width height : Int)
    (hw : 0 < width) (hh : 0 < height) (hsize : 4 * (width * height) ≤ INT_MAX)
    (hlen : (image.length : Int) = 4 * (width * height)) :
    ∀ (left : Nat) (convergence : Bool) (clusters : List KMeanCluster),
      ∃ cl, iterateLoop image width height left convergence clusters = some cl := by
  intro left
  induction left with
  | zero =>
    intro convergence clusters
    exact ⟨clusters, rfl⟩
  | succ left ih =>
    intro convergence clusters
    cases convergence with
    | true => exact ⟨clusters, by simp [iterateLoop]⟩
    | false =>
      have hpos := Int.mul_pos hw hh
      have e1 := int32_area width height hw hh hsize
      have e2 : int32 (width * height * 4) = some (width * height * 4) :=
        int32_eq_some (by unfold INT_MIN; omega) (by omega)
      obtain ⟨cl1, hcl1⟩ := assignLoop_total image ((width * height * 4).toNat / 4) 0 clusters
        (by omega)
      obtain ⟨cl, hcl⟩ := ih (recomputeLoop cl1 true).1 (recomputeLoop cl1 true).2
      exact ⟨cl, by simp [iterateLoop, e1, e2, hcl1, hcl]⟩

/-! ## The alpha of the result -/

theorem FindClosestColor.loop_alpha (image : List Byte) (in_r in_g in_b : Byte) :
    ∀ (n i : Nat) (bd : Int) (bc c : SkColor),
      FindClosestColor.loop image in_r in_g in_b n i bd bc = some c → bc.a = 0xFF →
      c.a = 0xFF := by
  intro n
  induction n with
  | zero =>
    intro i bd bc c h hbc
    simp only [FindClosestColor.loop, Option.some.injEq] at h
    rw [← h]
    exact hbc
  | succ n ih =>
    intro i bd bc c h hbc
    simp only [FindClosestColor.loop, Option.bind_eq_bind, Option.bind_eq_some] at h
    obtain ⟨p, _, h⟩ := h
    split at h
    · exact ih _ _ _ _ h hbc
    · split at h
      · exact ih _ _ _ _ h rfl
      · exact ih _ _ _ _ h hbc

theorem FindClosestColor_alpha (image : List Byte) (width height : Int) (color c : SkColor)
    (h : FindClosestColor image width height color = some c) (ha : color.a = 0xFF) :
    c.a = 0xFF := by
  simp only [FindClosestColor, Option.bind_eq_bind, Option.bind_eq_some] at h
  obtain ⟨area, _, h⟩ := h
  exact FindClosestColor.loop_alpha image _ _ _ _ _ _ _ _ h ha

theorem selectLoop_alpha (darkness_limit brightness_limit : Nat) :
    ∀ (clusters : List KMeanCluster) (first : Bool) (color : SkColor), color.a = 0xFF →
      (selectLoop darkness_limit brightness_limit clusters first color).a = 0xFF := by
  intro clusters
  induction clusters with
  | nil =>
    intro first color h
    exact h
  | cons c rest ih =>
    intro first color h
    simp only [selectLoop]
    split
    · rfl
    · split
      · exact ih _ _ rfl
      · exact ih _ _ h

/-! ## The structure of a run of `CalculateKMeanColorOfBuffer` -/

theorem CalculateKMeanColorOfBuffer_of_init {σ : Type}
    (sort : List KMeanCluster → List KMeanCluster)
    (GetSample : σ → Int → Int → Option (Int × σ)) (image : List Byte)
    (width height : Int) (darkness_limit brightness_limit : Nat) (s next : σ)
    (cl : List KMeanCluster) (hw : 0 < width) (hh : 0 < height)
    (hinit : initLoop GetSample image width height kNumberOfClusters
      (List.replicate kNumberOfClusters KMeanCluster.Reset) 0 s = some (cl, next)) :
    CalculateKMeanColorOfBuffer sort GetSample image width height darkness_limit
        brightness_limit s =
      if cl.isEmpty = true then some kDefaultBgColor
      else (iterateLoop image width height kNumberOfIterations false cl).bind (fun cl2 =>
        FindClosestColor image width height
          (selectLoop darkness_limit brightness_limit (sort cl2) true kDefaultBgColor)) := by
  have hpos : width > 0 ∧ height > 0 := ⟨hw, hh⟩
  simp only [CalculateKMeanColorOfBuffer, hpos, and_self, if_true, hinit, Option.bind_eq_bind,
    Option.some_bind]

/-- A run on a buffer of `width * height` pixels whose byte size fits an `int`,
with a sampler that stays in range for its 40 calls: the run returns; it returns
the default colour when no pixel has non-zero alpha, and the colour
`FindClosestColor` finds for a candidate of alpha 0xFF when a sampled pixel has
non-zero alpha. -/
theorem CalculateKMeanColorOfBuffer_cases {σ : Type}
    (sort : List KMeanCluster → List KMeanCluster)
    (GetSample : σ → Int → Int → Option (Int × σ)) (image : List Byte)
    (width height : Int) (darkness_limit brightness_limit : Nat) (s : σ)
    (hw : 0 < width) (hh : 0 < height) (hsize : 4 * (width * height) ≤ INT_MAX)
    (hlen : (image.length : Int) = 4 * (width * height))
    (hs : samplesInRange GetSample width height 40 s = true) :
    (∃ c, CalculateKMeanColorOfBuffer sort GetSample image width height darkness_limit
        brightness_limit s = some c) ∧
    ((∀ j q, readPixel image j = some q → q.a = 0) →
      CalculateKMeanColorOfBuffer sort GetSample image width height darkness_limit
        brightness_limit s = some kDefaultBgColor) ∧
    (samplesHit GetSample image width height 40 s = true →
      (¬ ∀ j q, readPixel image j = some q → q.a = 0) ∧
      ∃ candidate, candidate.a = 0xFF ∧
        CalculateKMeanColorOfBuffer sort GetSample image width height darkness_limit
          brightness_limit s = FindClosestColor image width height candidate) := by
  obtain ⟨cl, next, hinit, _, hne, hnil⟩ :=
    initLoop_spec GetSample image width height hw hh hsize hlen 4
      (List.replicate kNumberOfClusters KMeanCluster.Reset) 0 s
      (by simp [kNumberOfClusters]) hs
  have hK := CalculateKMeanColorOfBuffer_of_init sort GetSample image width height
    darkness_limit brightness_limit s next cl hw hh hinit
  obtain ⟨cl2, hcl2⟩ := iterateLoop_total image width height hw hh hsize hlen
    kNumberOfIterations false cl
  have hmin : INT_MIN ≤ width * height := by
    have := Int.mul_pos hw hh
    unfold INT_MIN
    omega
  have hmax : width * height ≤ INT_MAX := by
    have := Int.mul_pos hw hh
    omega
  have hlen2 : ∀ j, j < (width * height).toNat → ∃ p, readPixel image j = some p :=
    readPixel_of_length image _ (by omega)
  refine ⟨?_, ?_, ?_⟩
  · by_cases he : cl.isEmpty = true
    · exact ⟨kDefaultBgColor, by rw [hK, if_pos he]⟩
    · rw [hK, if_neg he, hcl2, Option.some_bind]
      rcases FindClosestColor_cases image width height
          (selectLoop darkness_limit brightness_limit (sort cl2) true kDefaultBgColor)
          hmin hmax hlen2 with ⟨hres, _⟩ | ⟨k, p, _, _, _, hres, _, _⟩
      · exact ⟨_, hres⟩
      · exact ⟨_, hres⟩
  · intro hall
    have : cl = [] := hnil hall rfl
    subst this
    rw [hK]
    rfl
  · intro hhit
    have hcl : cl ≠ [] := hne rfl hhit
    have he : ¬ cl.isEmpty = true := by
      simpa [List.isEmpty_iff] using hcl
    refine ⟨fun hall => hcl (hnil hall rfl),
      selectLoop darkness_limit brightness_limit (sort cl2) true kDefaultBgColor,
      selectLoop_alpha darkness_limit brightness_limit (sort cl2) true kDefaultBgColor rfl, ?_⟩
    rw [hK, if_neg he, hcl2, Option.some_bind]

/-- Whatever the run does, a colour it returns has alpha 0xFF. -/
theorem CalculateKMeanColorOfBuffer_alpha {σ : Type}
    (sort : List KMeanCluster → List KMeanCluster)
    (GetSample : σ → Int → Int → Option (Int × σ)) (image : List Byte)
    (width height : Int) (darkness_limit brightness_limit : Nat) (s : σ) (c : SkColor)
    (h : CalculateKMeanColorOfBuffer sort GetSample image width height darkness_limit
      brightness_limit s = some c) : c.a = 0xFF := by
  unfold CalculateKMeanColorOfBuffer at h
  simp only [] at h
  split at h
  · simp only [Option.bind_eq_bind, Option.bind_eq_some] at h
    obtain ⟨⟨cl, next⟩, _, h⟩ := h
    simp only [] at h
    split at h
    · simp only [Option.some.injEq] at h
      rw [← h]
      rfl
    · simp only [Option.bind_eq_some] at h
      obtain ⟨cl2, _, h⟩ := h
      exact FindClosestColor_alpha image width height _ c h
        (selectLoop_alpha darkness_limit brightness_limit (sort cl2) true kDefaultBgColor rfl)
  · exact FindClosestColor_alpha image width height _ c h rfl

/-! ## The grid sampler stays in range on images of at least 2 x 2 pixels -/

theorem GridSampler.GetSample_samplesInRange (width height : Nat) (hw : 2 ≤ width) (hh : 2 ≤ height)
    (hsize : 4 * (width * height) ≤ 2147483647) :
    ∀ (k n : Nat), n + k ≤ 40 →
      color_utils.samplesInRange GridSampler.GetSample (width : Int) (height : Int) k (n : Int)
        = true := by
  intro k
  induction k with
  | zero => intro n _; rfl
  | succ k ih =>
    intro n hn
    rw [samplesInRange_succ_iff]
    have hpos : 0 < width * height := Nat.mul_pos (by omega) (by omega)
    refine ⟨_, _, GridSampler.GetSample_eq n width height hw hh hsize (by omega), ?_, ?_, ?_⟩
    · exact Int.natCast_nonneg _
    · have := Nat.mod_lt (1 + n / 4 * ((width - 2) / 4) + (1 + n % 4 * ((height - 2) / 4)) * width)
        hpos
      exact_mod_cast this
    · have := ih (n + 1) (by omega)
      exact_mod_cast this

theorem GridSampler.GetSample_samplesHit (image : List Byte) (width height : Nat) (hw : 2 ≤ width)
    (hh : 2 ≤ height) (hsize : 4 * (width * height) ≤ 2147483647) :
    ∀ (k n m : Nat), n ≤ m → m < n + k → n + k ≤ 40 →
      (∃ i next, GridSampler.GetSample (m : Int) (width : Int) (height : Int) = some (i, next) ∧
        alphaNonzeroAt image i = true) →
      color_utils.samplesHit GridSampler.GetSample image (width : Int) (height : Int) k (n : Int)
        = true := by
  intro k
  induction k with
  | zero =>
    intro n m h1 h2
    omega
  | succ k ih =>
    intro n m h1 h2 h3 hhit
    have hg := GridSampler.GetSample_eq n width height hw hh hsize (by omega)
    rw [samplesHit_succ GridSampler.GetSample image (width : Int) (height : Int) k (n : Int) _ _ hg]
    rcases Nat.eq_or_lt_of_le h1 with heq | hlt
    · subst heq
      obtain ⟨i, next, hg2, ha⟩ := hhit
      rw [hg] at hg2
      simp only [Option.some.injEq, Prod.mk.injEq] at hg2
      rw [hg2.1, ha]
      rfl
    · have := ih (n + 1) m hlt (by omega) (by omega) hhit
      have h2 : color_utils.samplesHit GridSampler.GetSample image (width : Int) (height : Int) k
          ((n : Int) + 1) = true := by exact_mod_cast this
      rw [h2]
      simp


/-! ## From the bytes of the buffer to its pixels -/

theorem readPixel_lt_of_length {image : List Byte} {j n : Nat} {q : Pixel}
    (hlen : image.length = 4 * n) (hq : readPixel image j = some q) : j < n := by
  have h := readPixel_alpha hq
  by_contra hc
  rw [List.getElem?_eq_none (by omega)] at h
  exact Option.noConfusion h

theorem all_transparent_of_alpha (image : List Byte) (width height : Int)
    (hlen : (image.length : Int) = 4 * (width * height))
    (halpha : ∀ i, i < (width * height).toNat → image[4 * i + 3]? = some 0) :
    ∀ j q, readPixel image j = some q → q.a = 0 := by
  intro j q hq
  have hj : j < (width * height).toNat := readPixel_lt_of_length (by omega) hq
  have h := readPixel_alpha hq
  rw [halpha j hj] at h
  exact (Option.some.inj h).symm

theorem alphaNonzeroAt_of_alpha (image : List Byte) (width height : Int)
    (hlen : (image.length : Int) = 4 * (width * height))
    (halpha : ∀ i, i < (width * height).toNat → image[4 * i + 3]? ≠ some 0)
    {i : Int} (h0 : 0 ≤ i) (h1 : i < width * height) : alphaNonzeroAt image i = true := by
  obtain ⟨p, hp⟩ := @readPixel_of_lt image i.toNat (by omega)
  have ha : p.a ≠ 0 := by
    intro hc
    have h := readPixel_alpha hp
    rw [hc] at h
    exact halpha i.toNat (by omega) h
  simp [alphaNonzeroAt, hp, ha]

theorem samplesHit_of_alpha {σ : Type} (GetSample : σ → Int → Int → Option (Int × σ))
    (image : List Byte) (width height : Int)
    (hlen : (image.length : Int) = 4 * (width * height))
    (halpha : ∀ i, i < (width * height).toNat → image[4 * i + 3]? ≠ some 0)
    (n : Nat) (s : σ) (hs : samplesInRange GetSample width height (n + 1) s = true) :
    samplesHit GetSample image width height (n + 1) s = true := by
  obtain ⟨i, next, hg, h0, h1, _⟩ := (samplesInRange_succ_iff GetSample width height n s).mp hs
  rw [samplesHit_succ GetSample image width height n s next i hg,
    alphaNonzeroAt_of_alpha image width height hlen halpha h0 h1]
  rfl

/-- A run on a well-formed buffer with a sampler that stays in range and draws a
pixel of non-zero alpha returns the colour, with alpha 0xFF, of a pixel of
non-zero alpha. -/
theorem CalculateKMeanColorOfBuffer_member {σ : Type}
    (sort : List KMeanCluster → List KMeanCluster)
    (GetSample : σ → Int → Int → Option (Int × σ)) (image : List Byte)
    (width height : Int) (darkness_limit brightness_limit : Nat) (s : σ)
    (hw : 0 < width) (hh : 0 < height) (hsize : 4 * (width * height) ≤ INT_MAX)
    (hlen : (image.length : Int) = 4 * (width * height))
    (hs : samplesInRange GetSample width height 40 s = true)
    (hhit : samplesHit GetSample image width height 40 s = true) :
    ∃ k p, k < (width * height).toNat ∧ readPixel image k = some p ∧ p.a ≠ 0 ∧
      CalculateKMeanColorOfBuffer sort GetSample image width height darkness_limit
        brightness_limit s = some (SkColorSetRGB p.r p.g p.b) := by
  obtain ⟨_, _, h3⟩ := CalculateKMeanColorOfBuffer_cases sort GetSample image width height
    darkness_limit brightness_limit s hw hh hsize hlen hs
  obtain ⟨hnot, candidate, _, hK⟩ := h3 hhit
  have hpos := Int.mul_pos hw hh
  have hmin : INT_MIN ≤ width * height := by
    unfold INT_MIN
    omega
  have hmax : width * height ≤ INT_MAX := by omega
  have hread : ∀ j, j < (width * height).toNat → ∃ p, readPixel image j = some p :=
    readPixel_of_length image _ (by omega)
  rcases FindClosestColor_cases image width height candidate hmin hmax hread with
    ⟨_, hnone⟩ | ⟨k, p, hk, hp, ha, hres, _, _⟩
  · exfalso
    apply hnot
    intro j q hq
    exact hnone j q (readPixel_lt_of_length (by omega) hq) hq
  · exact ⟨k, p, hk, hp, ha, hK.trans hres⟩

/-- When the guard `img_width > 0 && img_height > 0` fails and the product
`img_width * img_height` is not positive, the run returns the default colour
without reading the buffer (any buffer will do, the empty one included). -/
theorem CalculateKMeanColorOfBuffer_zero_area {σ : Type}
    (sort : List KMeanCluster → List KMeanCluster)
    (GetSample : σ → Int → Int → Option (Int × σ)) (image : List Byte)
    (width height : Int) (darkness_limit brightness_limit : Nat) (sampler : σ)
    (hguard : width ≤ 0 ∨ height ≤ 0) (hmin : INT_MIN ≤ width * height)
    (harea : width * height ≤ 0) :
    CalculateKMeanColorOfBuffer sort GetSample image width height darkness_limit
      brightness_limit sampler = some kDefaultBgColor := by
  have hg : ¬ (width > 0 ∧ height > 0) := by omega
  have hmax : width * height ≤ INT_MAX := by
    unfold INT_MAX
    omega
  have hF : FindClosestColor image width height kDefaultBgColor = some kDefaultBgColor := by
    have hz : (width * height).toNat = 0 := by omega
    simp [FindClosestColor, int32_eq_some hmin hmax, hz, FindClosestColor.loop]
  simp only [CalculateKMeanColorOfBuffer, hg, if_false]
  exact hF

/-! ## Claims -/

/-- C1, as stated, fails. In the 2 x 2 buffer `cornerRed2x2` pixel 0 is pure red
with alpha 255 and the other pixels are transparent; the grid sampler only ever
draws pixel 3, no cluster is seeded, and the result is the default colour white,
whose RGB is the RGB of no pixel of non-zero alpha. -/
theorem membership_fails_for_unsampled_pixel :
    (∃ i p, i < 4 ∧ readPixel cornerRed2x2 i = some p ∧ p.a ≠ 0) ∧
    ∃ c, CalculateKMeanColorOfBuffer sortByWeight GridSampler.GetSample cornerRed2x2 2 2
        kMinDarkness kMaxBrightness (0 : Int) = some c ∧
      ¬ ∃ i p, readPixel cornerRed2x2 i = some p ∧ p.a ≠ 0 ∧
        SkColorGetR c = p.r ∧ SkColorGetG c = p.g ∧ SkColorGetB c = p.b := by
  refine ⟨⟨0, ⟨0, 0, 255, 255⟩, by decide, by decide, by decide⟩, kDefaultBgColor, by decide, ?_⟩
  rintro ⟨i, p, hp, ha, _, hg, _⟩
  have hi : i < 4 := @readPixel_lt_of_length cornerRed2x2 i 4 p (by decide) hp
  interval_cases i
  · have h0 : readPixel cornerRed2x2 0 = some ⟨0, 0, 255, 255⟩ := by decide
    rw [h0] at hp
    cases hp
    exact absurd hg (by decide)
  · have h1 : readPixel cornerRed2x2 1 = some ⟨0, 0, 0, 0⟩ := by decide
    rw [h1] at hp
    cases hp
    exact ha rfl
  · have h2 : readPixel cornerRed2x2 2 = some ⟨0, 0, 0, 0⟩ := by decide
    rw [h2] at hp
    cases hp
    exact ha rfl
  · have h3 : readPixel cornerRed2x2 3 = some ⟨0, 0, 0, 0⟩ := by decide
    rw [h3] at hp
    cases hp
    exact ha rfl

/-- C1, amended. Membership for sampled images: for a buffer of
`width * height` pixels with `width, height >= 2` whose byte size fits an `int`,
any limits and a fresh `GridSampler`, if one of the first 40 samples of the
sampler is a pixel of non-zero alpha, then the run returns a colour whose RGB is
the RGB of a pixel of non-zero alpha. -/
theorem CalculateKMeanColorOfBuffer_membership_when_sampled
    (sort : List KMeanCluster → List KMeanCluster) (image : List Byte)
    (width height : Int) (darkness_limit brightness_limit : Nat)
    (hw : 2 ≤ width) (hh : 2 ≤ height) (hsize : 4 * (width * height) ≤ INT_MAX)
    (hlen : (image.length : Int) = 4 * (width * height))
    (hhit : ∃ n : Nat, n < 40 ∧ ∃ i next p,
      GridSampler.GetSample (n : Int) width height = some (i, next) ∧
      readPixel image i.toNat = some p ∧ p.a ≠ 0) :
    ∃ c k p, CalculateKMeanColorOfBuffer sort GridSampler.GetSample image width height
        darkness_limit brightness_limit (0 : Int) = some c ∧
      k < (width * height).toNat ∧ readPixel image k = some p ∧ p.a ≠ 0 ∧
      SkColorGetR c = p.r ∧ SkColorGetG c = p.g ∧ SkColorGetB c = p.b := by
  lift width to Nat using (by omega)
  lift height to Nat using (by omega)
  have hw2 : 2 ≤ width := by exact_mod_cast hw
  have hh2 : 2 ≤ height := by exact_mod_cast hh
  have hsize2 : 4 * (width * height) ≤ 2147483647 := by
    unfold INT_MAX at hsize
    exact_mod_cast hsize
  have hs : samplesInRange GridSampler.GetSample (width : Int) (height : Int) 40 (0 : Int)
      = true := by
    have := GridSampler.GetSample_samplesInRange width height hw2 hh2 hsize2 40 0 (by omega)
    exact_mod_cast this
  obtain ⟨n, hn, i, next, p, hg, hp, ha⟩ := hhit
  have hh3 : samplesHit GridSampler.GetSample image (width : Int) (height : Int) 40 (0 : Int)
      = true := by
    have := GridSampler.GetSample_samplesHit image width height hw2 hh2 hsize2 40 0 n
      (Nat.zero_le n) (by omega) (by omega) ⟨i, next, hg, by simp [alphaNonzeroAt, hp, ha]⟩
    exact_mod_cast this
  obtain ⟨k, q, hk, hq, hqa, hK⟩ := CalculateKMeanColorOfBuffer_member sort GridSampler.GetSample
    image (width : Int) (height : Int) darkness_limit brightness_limit (0 : Int) (by omega)
    (by omega) hsize hlen hs hh3
  exact ⟨_, k, q, hK, hk, hq, hqa, rfl, rfl, rfl⟩

/-- The amended C1 on the 2 x 2 buffer `lastRed2x2`, whose pixel 3 is drawn by call 0. -/
theorem CalculateKMeanColorOfBuffer_membership_when_sampled_witness :
    ∃ c k p, CalculateKMeanColorOfBuffer sortByWeight GridSampler.GetSample lastRed2x2 2 2
        kMinDarkness kMaxBrightness (0 : Int) = some c ∧
      k < ((2 : Int) * 2).toNat ∧ readPixel lastRed2x2 k = some p ∧ p.a ≠ 0 ∧
      SkColorGetR c = p.r ∧ SkColorGetG c = p.g ∧ SkColorGetB c = p.b :=
  CalculateKMeanColorOfBuffer_membership_when_sampled sortByWeight lastRed2x2 2 2
    kMinDarkness kMaxBrightness (by decide) (by decide) (by decide) (by decide)
    ⟨0, by decide, 3, 1, ⟨0, 0, 255, 255⟩, by decide, by decide, by decide⟩

/-- C2. Never a blended or out-of-set colour on images without transparency:
for a buffer of `width * height > 0` pixels (byte size fitting an `int`) in
which every pixel has non-zero alpha, and a sampler whose samples are pixel
indices in `[0, width * height)`, the run returns a colour whose RGB is the RGB
of a pixel of the buffer; and for every 4 x 4 buffer whose pixels are pure red or
pure blue with alpha 255, limits 100 and 665 and a fresh `GridSampler`, the
result is `(255, 0, 0)` or `(0, 0, 255)` with alpha 0xFF. -/
theorem CalculateKMeanColorOfBuffer_never_out_of_set :
    (∀ (σ : Type) (sort : List KMeanCluster → List KMeanCluster)
      (GetSample : σ → Int → Int → Option (Int × σ)) (image : List Byte)
      (width height : Int) (darkness_limit brightness_limit : Nat) (sampler : σ),
      0 < width → 0 < height → 4 * (width * height) ≤ INT_MAX →
      (image.length : Int) = 4 * (width * height) →
      (∀ i, i < (width * height).toNat → image[4 * i + 3]? ≠ some 0) →
      samplesInRange GetSample width height 40 sampler = true →
      ∃ c k p, CalculateKMeanColorOfBuffer sort GetSample image width height darkness_limit
          brightness_limit sampler = some c ∧
        k < (width * height).toNat ∧ readPixel image k = some p ∧
        SkColorGetR c = p.r ∧ SkColorGetG c = p.g ∧ SkColorGetB c = p.b) ∧
    (∀ (sort : List KMeanCluster → List KMeanCluster) (image : List Byte),
      image.length = 64 →
      (∀ i, i < 16 → readPixel image i = some ⟨0, 0, 255, 255⟩ ∨
        readPixel image i = some ⟨255, 0, 0, 255⟩) →
      CalculateKMeanColorOfBuffer sort GridSampler.GetSample image 4 4 100 665 (0 : Int)
        = some (SkColorSetARGB 0xFF 255 0 0) ∨
      CalculateKMeanColorOfBuffer sort GridSampler.GetSample image 4 4 100 665 (0 : Int)
        = some (SkColorSetARGB 0xFF 0 0 255)) := by
  constructor
  · intro σ sort GetSample image width height darkness_limit brightness_limit sampler hw hh
      hsize hlen halpha hs
    have hhit := samplesHit_of_alpha GetSample image width height hlen halpha 39 sampler hs
    obtain ⟨k, p, hk, hp, _, hK⟩ := CalculateKMeanColorOfBuffer_member sort GetSample image
      width height darkness_limit brightness_limit sampler hw hh hsize hlen hs hhit
    exact ⟨_, k, p, hK, hk, hp, rfl, rfl, rfl⟩
  · intro sort image hlen hpix
    have hlen2 : (image.length : Int) = 4 * (4 * 4) := by omega
    have halpha : ∀ i, i < ((4 : Int) * 4).toNat → image[4 * i + 3]? ≠ some 0 := by
      intro i hi
      have hi2 : i < 16 := hi
      rcases hpix i hi2 with h | h
      · rw [readPixel_alpha h]
        decide
      · rw [readPixel_alpha h]
        decide
    have hs : samplesInRange GridSampler.GetSample 4 4 40 (0 : Int) = true := by
      have := GridSampler.GetSample_samplesInRange 4 4 (by decide) (by decide) (by decide) 40 0
        (by decide)
      exact_mod_cast this
    have hhit := samplesHit_of_alpha GridSampler.GetSample image 4 4 hlen2 halpha 39 0 hs
    obtain ⟨k, p, hk, hp, _, hK⟩ := CalculateKMeanColorOfBuffer_member sort
      GridSampler.GetSample image 4 4 100 665 (0 : Int) (by decide) (by decide) (by decide)
      hlen2 hs hhit
    have hk2 : k < 16 := hk
    rcases hpix k hk2 with h | h
    · left
      rw [hp] at h
      cases h
      exact hK
    · right
      rw [hp] at h
      cases h
      exact hK

/-- The scenario of C2: the 4 x 4 buffer with a pure red and a pure blue half. -/
theorem CalculateKMeanColorOfBuffer_never_out_of_set_witness :
    CalculateKMeanColorOfBuffer sortByWeight GridSampler.GetSample redBlue4x4 4 4 100 665
        (0 : Int) = some (SkColorSetARGB 0xFF 255 0 0) ∨
    CalculateKMeanColorOfBuffer sortByWeight GridSampler.GetSample redBlue4x4 4 4 100 665
        (0 : Int) = some (SkColorSetARGB 0xFF 0 0 255) :=
  CalculateKMeanColorOfBuffer_never_out_of_set.2 sortByWeight redBlue4x4 (by decide) (by decide)

/-- Why the statement on monochrome buffers asks for `width, height >= 2`: on
the 1 x 3 buffer `uniform1x3`, all of whose pixels are
`(b, g, r, a) = (10, 20, 30, 255)`, the first slot is seeded by call 0, the
second slot repeats the draw, and in call 8 of `GetSample` (x = 2147483647,
y = 1) the sum `x + y * width` leaves the range of `int`, a signed overflow, for
which the language defines no result. -/
theorem monochrome_width_one_undefined :
    (∀ i, i < 3 → readPixel uniform1x3 i = some ⟨10, 20, 30, 255⟩) ∧
    GridSampler.GetSample 8 1 3 = none ∧
    CalculateKMeanColorOfBuffer sortByWeight GridSampler.GetSample uniform1x3 1 3
      kMinDarkness kMaxBrightness (0 : Int) = none := by
  refine ⟨by decide, by decide, by decide⟩

/-- C4, as stated, fails. With the sampler `minusOneSampler`, whose samples are
-1, the seed read of the 2 x 2 transparent buffer is at `pixel_pos = -1`, outside
the buffer, and the run has no defined result (so not the default colour). -/
theorem transparent_default_fails_for_invalid_sampler :
    (∀ i, i < 4 → transparent2x2[4 * i + 3]? = some 0) ∧
    CalculateKMeanColorOfBuffer sortByWeight minusOneSampler transparent2x2 2 2
      kMinDarkness kMaxBrightness () ≠ some kDefaultBgColor := by
  refine ⟨by decide, by decide⟩

/-- C4, amended. Transparency immunity: for a buffer of `width * height > 0`
pixels (byte size fitting an `int`) in which every pixel has alpha 0, any limits
and any sampler whose 40 samples are pixel indices in `[0, width * height)`, the
run returns exactly `kDefaultBgColor`, whatever the RGB bytes are. -/
theorem CalculateKMeanColorOfBuffer_transparent_default {σ : Type}
    (sort : List KMeanCluster → List KMeanCluster)
    (GetSample : σ → Int → Int → Option (Int × σ)) (image : List Byte)
    (width height : Int) (darkness_limit brightness_limit : Nat) (sampler : σ)
    (hw : 0 < width) (hh : 0 < height) (hsize : 4 * (width * height) ≤ INT_MAX)
    (hlen : (image.length : Int) = 4 * (width * height))
    (hs : samplesInRange GetSample width height 40 sampler = true)
    (halpha : ∀ i, i < (width * height).toNat → image[4 * i + 3]? = some 0) :
    CalculateKMeanColorOfBuffer sort GetSample image width height darkness_limit
      brightness_limit sampler = some kDefaultBgColor ∧
    kDefaultBgColor = SkColorSetARGB 0xFF 0xFF 0xFF 0xFF := by
  obtain ⟨_, h2, _⟩ := CalculateKMeanColorOfBuffer_cases sort GetSample image width height
    darkness_limit brightness_limit sampler hw hh hsize hlen hs
  exact ⟨h2 (all_transparent_of_alpha image width height hlen halpha), rfl⟩

/-- The amended C4 on a transparent 2 x 2 buffer with a fresh `GridSampler`. -/
theorem CalculateKMeanColorOfBuffer_transparent_default_witness :
    samplesInRange GridSampler.GetSample 2 2 40 (0 : Int) = true ∧
    (∀ i, i < ((2 : Int) * 2).toNat → transparent2x2[4 * i + 3]? = some 0) ∧
    CalculateKMeanColorOfBuffer sortByWeight GridSampler.GetSample transparent2x2 2 2
      kMinDarkness kMaxBrightness (0 : Int) = some kDefaultBgColor :=
  ⟨by decide, by decide,
    (CalculateKMeanColorOfBuffer_transparent_default sortByWeight GridSampler.GetSample
      transparent2x2 2 2 kMinDarkness kMaxBrightness (0 : Int) (by decide) (by decide)
      (by decide) (by decide) (by decide) (by decide)).1⟩

/-- C5 at a failing input. With `img_width = img_height = -1` the guard
`img_width > 0 && img_height > 0` is false, but the final `FindClosestColor`
loops over `(-1) * (-1) = 1` pixel: on the buffer `singleRed` it reads pixel 0 and
the run returns pure red, not the default colour. -/
theorem negative_dimensions_read_a_pixel :
    CalculateKMeanColorOfBuffer sortByWeight GridSampler.GetSample singleRed (-1) (-1)
      kMinDarkness kMaxBrightness (0 : Int) = some (SkColorSetRGB 255 0 0) ∧
    SkColorSetRGB 255 0 0 ≠ kDefaultBgColor := by
  refine ⟨by decide, by decide⟩

/-- C6. Result alpha: whatever the buffer, the dimensions, the limits, the
sorting function and the sampler, a colour the run returns has alpha 0xFF; and on
a buffer of `width * height > 0` pixels (byte size fitting an `int`) with a
sampler whose 40 samples are in range the run does return a colour. -/
theorem CalculateKMeanColorOfBuffer_result_alpha {σ : Type}
    (sort : List KMeanCluster → List KMeanCluster)
    (GetSample : σ → Int → Int → Option (Int × σ)) (image : List Byte)
    (width height : Int) (darkness_limit brightness_limit : Nat) (sampler : σ) :
    (∀ c, CalculateKMeanColorOfBuffer sort GetSample image width height darkness_limit
        brightness_limit sampler = some c → SkColorGetA c = 0xFF) ∧
    (0 < width → 0 < height → 4 * (width * height) ≤ INT_MAX →
      (image.length : Int) = 4 * (width * height) →
      samplesInRange GetSample width height 40 sampler = true →
      ∃ c, CalculateKMeanColorOfBuffer sort GetSample image width height darkness_limit
        brightness_limit sampler = some c ∧ SkColorGetA c = 0xFF) := by
  constructor
  · intro c h
    exact CalculateKMeanColorOfBuffer_alpha sort GetSample image width height darkness_limit
      brightness_limit sampler c h
  · intro hw hh hsize hlen hs
    obtain ⟨⟨c, hc⟩, _, _⟩ := CalculateKMeanColorOfBuffer_cases sort GetSample image width
      height darkness_limit brightness_limit sampler hw hh hsize hlen hs
    exact ⟨c, hc, CalculateKMeanColorOfBuffer_alpha sort GetSample image width height
      darkness_limit brightness_limit sampler c hc⟩

/-- The run of C6 on the red and blue 4 x 4 buffer returns a colour of alpha 0xFF. -/
theorem CalculateKMeanColorOfBuffer_result_alpha_witness :
    ∃ c, CalculateKMeanColorOfBuffer sortByWeight GridSampler.GetSample redBlue4x4 4 4
      kMinDarkness kMaxBrightness (0 : Int) = some c ∧ SkColorGetA c = 0xFF :=
  (CalculateKMeanColorOfBuffer_result_alpha sortByWeight GridSampler.GetSample redBlue4x4 4 4
    kMinDarkness kMaxBrightness (0 : Int)).2 (by decide) (by decide) (by decide) (by decide)
    (by decide)

/-- C7. Nearest colour with first-wins ties: on a buffer of `width * height`
pixels (a count that fits an `int`) with at least one pixel of non-zero alpha,
`FindClosestColor` returns `SkColorSetRGB` of the RGB of a pixel `k` of non-zero
alpha whose squared RGB distance to the candidate is at most that of every pixel
of non-zero alpha and strictly less than that of every such pixel of smaller
index. -/
theorem FindClosestColor_nearest_first_wins (image : List Byte) (width height : Int)
    (color : SkColor)
    (hlen : (image.length : Int) = 4 * (width * height))
    (hmax : width * height ≤ INT_MAX)
    (hvis : ∃ i p, i < (width * height).toNat ∧ readPixel image i = some p ∧ p.a ≠ 0) :
    ∃ k p, k < (width * height).toNat ∧ readPixel image k = some p ∧ p.a ≠ 0 ∧
      FindClosestColor image width height color = some (SkColorSetRGB p.r p.g p.b) ∧
      (∀ j q, j < (width * height).toNat → readPixel image j = some q → q.a ≠ 0 →
        rgbDistance color p ≤ rgbDistance color q) ∧
      (∀ j q, j < k → readPixel image j = some q → q.a ≠ 0 →
        rgbDistance color p < rgbDistance color q) := by
  have hmin : INT_MIN ≤ width * height := by
    unfold INT_MIN
    omega
  have hread : ∀ j, j < (width * height).toNat → ∃ p, readPixel image j = some p :=
    readPixel_of_length image _ (by omega)
  rcases FindClosestColor_cases image width height color hmin hmax hread with
    ⟨_, hnone⟩ | hsome
  · obtain ⟨i, p, hi, hp, ha⟩ := hvis
    exact absurd (hnone i p hi hp) ha
  · exact hsome

/-- The statement of C7 on the red and blue 4 x 4 buffer with a purple candidate. -/
theorem FindClosestColor_nearest_first_wins_witness :
    ∃ k p, k < ((4 : Int) * 4).toNat ∧ readPixel redBlue4x4 k = some p ∧ p.a ≠ 0 ∧
      FindClosestColor redBlue4x4 4 4 (SkColorSetARGB 0xFF 120 0 135)
        = some (SkColorSetRGB p.r p.g p.b) ∧
      (∀ j q, j < ((4 : Int) * 4).toNat → readPixel redBlue4x4 j = some q → q.a ≠ 0 →
        rgbDistance (SkColorSetARGB 0xFF 120 0 135) p ≤
          rgbDistance (SkColorSetARGB 0xFF 120 0 135) q) ∧
      (∀ j q, j < k → readPixel redBlue4x4 j = some q → q.a ≠ 0 →
        rgbDistance (SkColorSetARGB 0xFF 120 0 135) p <
          rgbDistance (SkColorSetARGB 0xFF 120 0 135) q) :=
  FindClosestColor_nearest_first_wins redBlue4x4 4 4 (SkColorSetARGB 0xFF 120 0 135)
    (by decide) (by decide) ⟨0, ⟨0, 0, 255, 255⟩, by decide, by decide, by decide⟩

/-- C8. Snap without a pixel of non-zero alpha: when the pixel count
`width * height` (a value that fits an `int`) is not positive, or every one of
the `width * height` pixels has alpha 0, `FindClosestColor` returns the candidate
colour itself, alpha included. -/
theorem FindClosestColor_all_transparent (image : List Byte) (width height : Int)
    (color : SkColor)
    (hmin : INT_MIN ≤ width * height) (hmax : width * height ≤ INT_MAX)
    (halpha : width * height ≤ 0 ∨
      ∀ i, i < (width * height).toNat → image[4 * i + 3]? = some 0) :
    FindClosestColor image width height color = some color := by
  have halpha2 : ∀ i, i < (width * height).toNat → image[4 * i + 3]? = some 0 := by
    rcases halpha with h0 | h
    · intro i hi
      omega
    · exact h
  have hread : ∀ j, j < (width * height).toNat → ∃ p, readPixel image j = some p := by
    intro j hj
    obtain ⟨p, hp, _⟩ := readPixel_of_alpha (halpha2 j hj)
    exact ⟨p, hp⟩
  rcases FindClosestColor_cases image width height color hmin hmax hread with
    ⟨hres, _⟩ | ⟨k, p, hk, hp, ha, _, _, _⟩
  · exact hres
  · exfalso
    have h1 := readPixel_alpha hp
    rw [halpha2 k hk] at h1
    exact ha (Option.some.inj h1).symm

/-- The statement of C8 on a transparent 2 x 2 buffer and on a 0 x 5 image. -/
theorem FindClosestColor_all_transparent_witness :
    FindClosestColor transparent2x2 2 2 (SkColorSetARGB 7 1 2 3) = some (SkColorSetARGB 7 1 2 3) ∧
    FindClosestColor singleRed 0 5 (SkColorSetARGB 7 1 2 3) = some (SkColorSetARGB 7 1 2 3) :=
  ⟨FindClosestColor_all_transparent transparent2x2 2 2 (SkColorSetARGB 7 1 2 3)
      (by decide) (by decide) (Or.inr (by decide)),
    FindClosestColor_all_transparent singleRed 0 5 (SkColorSetARGB 7 1 2 3)
      (by decide) (by decide) (Or.inl (by decide))⟩

/-- C9. Snapping idempotence: for every buffer, width, height and candidate
colour, `FindClosestColor` applied to its own result returns that result (both
sides are undefined together); and on a buffer that holds the
`width * height` pixels, a count that fits an `int`, the result is defined. -/
theorem FindClosestColor_idempotent (image : List Byte) (width height : Int) (color : SkColor) :
    (FindClosestColor image width height color).bind (FindClosestColor image width height)
      = FindClosestColor image width height color ∧
    (INT_MIN ≤ width * height → width * height ≤ INT_MAX →
      4 * (width * height).toNat ≤ image.length →
      ∃ c, FindClosestColor image width height color = some c ∧
        FindClosestColor image width height c = some c) := by
  constructor
  · cases h : FindClosestColor image width height color with
    | none => rfl
    | some c =>
      rw [Option.some_bind]
      exact FindClosestColor_fixes_result image width height color c h
  · intro hmin hmax hlen
    have hread : ∀ j, j < (width * height).toNat → ∃ p, readPixel image j = some p :=
      readPixel_of_length image _ hlen
    rcases FindClosestColor_cases image width height color hmin hmax hread with
      ⟨hres, _⟩ | ⟨k, p, _, _, _, hres, _, _⟩
    · exact ⟨_, hres, FindClosestColor_fixes_result image width height color _ hres⟩
    · exact ⟨_, hres, FindClosestColor_fixes_result image width height color _ hres⟩

/-- The statement of C9 on the red and blue 4 x 4 buffer with a purple candidate. -/
theorem FindClosestColor_idempotent_witness :
    ∃ c, FindClosestColor redBlue4x4 4 4 (SkColorSetARGB 0 120 0 135) = some c ∧
      FindClosestColor redBlue4x4 4 4 c = some c :=
  (FindClosestColor_idempotent redBlue4x4 4 4 (SkColorSetARGB 0 120 0 135)).2
    (by decide) (by decide) (by decide)

/-- C10 at a failing input. With the counter at 12, `GetSample(1, 3)` computes
`(width - 2) / kNumberOfClusters` in `uint32_t`, that is `4294967295 / 4`, gets
x = 1 + 3 * 1073741823 = 3221225470, which is -1073741826 as an `int`, and
returns the index -2, outside `[0, 3)`; with the counter at 8 the sum
`x + y * width` overflows `int`. -/
theorem GetSample_width_one_out_of_range :
    GridSampler.GetSample 12 1 3 = some (-2, 13) ∧ GridSampler.GetSample 8 1 3 = none := by
  refine ⟨by decide, by decide⟩

/-! ## The grid points of the sampler -/

/-- Whenever the grid point `x + y * width`, the counter and the pixel count fit
an `int`, the sample is the grid point reduced modulo `width * height` and the
counter is incremented. -/
theorem GridSampler.GetSample_grid_point (calls_ width height : Nat)
    (hw : 2 ≤ width) (hh : 2 ≤ height) (harea : width * height ≤ 2147483647)
    (hcalls : calls_ < 2147483647)
    (hfit : gridX width calls_ + gridY height calls_ * width ≤ 2147483647) :
    GridSampler.GetSample (calls_ : Int) (width : Int) (height : Int) =
      some ((((gridX width calls_ + gridY height calls_ * width) % (width * height) : Nat) : Int),
        (calls_ : Int) + 1) := by
  unfold gridX gridY at hfit ⊢
  have hP1 : width * 2 ≤ width * height := Nat.mul_le_mul_left width hh
  have hP2 : 2 * height ≤ width * height := Nat.mul_le_mul_right height hw
  have hRge : 1 + (calls_ % 4) * ((height - 2) / 4) ≤
      (1 + (calls_ % 4) * ((height - 2) / 4)) * width :=
    Nat.le_mul_of_pos_right _ (by omega)
  generalize hAdef : (calls_ / 4) * ((width - 2) / 4) = A at *
  generalize hBdef : (calls_ % 4) * ((height - 2) / 4) = B at *
  generalize hRdef : (1 + B) * width = R at *
  generalize hPdef : width * height = P at *
  have e1 : int32 ((width : Int) - 2 * 1) = some ((width : Int) - 2 * 1) :=
    int32_eq_some (by unfold INT_MIN; omega) (by unfold INT_MAX; omega)
  have e2 : int32 ((height : Int) - 2 * 1) = some ((height : Int) - 2 * 1) :=
    int32_eq_some (by unfold INT_MIN; omega) (by unfold INT_MAX; omega)
  have cw : toUInt32 ((width : Int) - 2 * 1) = width - 2 := by
    have : (width : Int) - 2 * 1 = ((width - 2 : Nat) : Int) := by omega
    rw [this]
    exact toUInt32_natCast _ (by omega)
  have ch : toUInt32 ((height : Int) - 2 * 1) = height - 2 := by
    have : (height : Int) - 2 * 1 = ((height - 2 : Nat) : Int) := by omega
    rw [this]
    exact toUInt32_natCast _ (by omega)
  have cc : toUInt32 (calls_ : Int) = calls_ := toUInt32_natCast _ (by omega)
  have c1 : toUInt32 (1 : Int) = 1 := by decide
  have ex : uadd 1 (umul (calls_ / 4) ((width - 2) / 4)) = 1 + A := by
    unfold uadd umul
    rw [hAdef]
    omega
  have ey : uadd 1 (umul (calls_ % 4) ((height - 2) / 4)) = 1 + B := by
    unfold uadd umul
    rw [hBdef]
    omega
  have tx : toInt32 (1 + A) = ((1 + A : Nat) : Int) := toInt32_of_lt _ (by omega)
  have ty : toInt32 (1 + B) = ((1 + B : Nat) : Int) := toInt32_of_lt _ (by omega)
  have erow : ((1 + B : Nat) : Int) * (width : Int) = ((R : Nat) : Int) := by
    rw [← hRdef]
    push_cast
    ring
  have e3 : int32 ((R : Nat) : Int) = some ((R : Nat) : Int) :=
    int32_eq_some (by unfold INT_MIN; omega) (by unfold INT_MAX; omega)
  have e4 : int32 (((1 + A : Nat) : Int) + ((R : Nat) : Int)) = some (((1 + A + R : Nat) : Int)) := by
    have : ((1 + A : Nat) : Int) + ((R : Nat) : Int) = ((1 + A + R : Nat) : Int) := by
      push_cast
      ring
    rw [this]
    exact int32_eq_some (by unfold INT_MIN; omega) (by unfold INT_MAX; omega)
  have e5 : int32 ((calls_ : Int) + 1) = some ((calls_ : Int) + 1) :=
    int32_eq_some (by unfold INT_MIN; omega) (by unfold INT_MAX; omega)
  have earea : (width : Int) * (height : Int) = ((P : Nat) : Int) := by
    rw [← hPdef]
    push_cast
    ring
  have e6 : int32 ((P : Nat) : Int) = some ((P : Nat) : Int) :=
    int32_eq_some (by unfold INT_MIN; omega) (by unfold INT_MAX; omega)
  have e7 : imod ((1 + A + R : Nat) : Int) ((P : Nat) : Int) =
      some (((1 + A + R) % P : Nat) : Int) := by
    have hne : ¬ (((P : Nat) : Int) = 0 ∨
        (((1 + A + R : Nat) : Int) = INT_MIN ∧ ((P : Nat) : Int) = -1)) := by
      unfold INT_MIN
      omega
    simp only [imod, hne, if_false]
    congr 1
  simp only [GridSampler.GetSample, kNumberOfClusters, Option.bind_eq_bind, Option.pure_def,
    e1, e2, Option.some_bind, cw, ch, cc, c1, ex, ey, tx, ty, erow, e3, e4, e5, earea, e6, e7]

/-- The calls `n0, n0 + 1, ...` of a sampler whose counter is `n0`. -/
theorem GridSampler.sampleRun_eq (width height : Nat) (hw : 2 ≤ width) (hh : 2 ≤ height)
    (harea : width * height ≤ 2147483647) :
    ∀ (k n0 : Nat), n0 + k ≤ 2147483647 →
      (∀ n, n0 ≤ n → n < n0 + k → gridX width n + gridY height n * width ≤ 2147483647) →
      sampleRun GridSampler.GetSample (width : Int) (height : Int) k (n0 : Int) =
        some ((List.range' n0 k).map (fun n =>
          (((gridX width n + gridY height n * width) % (width * height) : Nat) : Int)),
          ((n0 + k : Nat) : Int)) := by
  intro k
  induction k with
  | zero =>
    intro n0 _ _
    simp [sampleRun]
  | succ k ih =>
    intro n0 hn hfit
    have hg := GridSampler.GetSample_grid_point n0 width height hw hh harea (by omega)
      (hfit n0 (Nat.le_refl n0) (by omega))
    have hrest := ih (n0 + 1) (by omega) (fun n h1 h2 => hfit n (by omega) (by omega))
    have hcast : ((n0 : Int) + 1) = ((n0 + 1 : Nat) : Int) := by push_cast; rfl
    rw [hcast] at hg
    simp only [sampleRun, hg, hrest, List.range'_succ, List.map_cons]
    congr 2
    omega

/-! ## The selection scan -/

theorem summed_color_eq (c : KMeanCluster) :
    toUInt32 ((c.centroid0.val : Int) + c.centroid1.val + c.centroid2.val) = centroidSum c := by
  unfold toUInt32 centroidSum
  have h0 := c.centroid0.isLt
  have h1 := c.centroid1.isLt
  have h2 := c.centroid2.isLt
  omega

theorem selectLoop_cons_within (darkness_limit brightness_limit : Nat) (c : KMeanCluster)
    (rest : List KMeanCluster) (first : Bool) (color : SkColor)
    (h : withinLimits darkness_limit brightness_limit c) :
    selectLoop darkness_limit brightness_limit (c :: rest) first color = centroidColor c := by
  have h2 : centroidSum c < brightness_limit ∧ centroidSum c > darkness_limit := ⟨h.2, h.1⟩
  simp only [selectLoop, summed_color_eq, h2, and_self, if_true, centroidColor]

theorem selectLoop_cons_outside (darkness_limit brightness_limit : Nat) (c : KMeanCluster)
    (rest : List KMeanCluster) (first : Bool) (color : SkColor)
    (h : ¬ withinLimits darkness_limit brightness_limit c) :
    selectLoop darkness_limit brightness_limit (c :: rest) first color =
      selectLoop darkness_limit brightness_limit rest false
        (if first = true then centroidColor c else color) := by
  have h2 : ¬ (centroidSum c < brightness_limit ∧ centroidSum c > darkness_limit) :=
    fun hc => h ⟨hc.2, hc.1⟩
  simp only [selectLoop, summed_color_eq, h2, if_false, centroidColor]
  cases first <;> simp

theorem selectLoop_all_outside (darkness_limit brightness_limit : Nat) :
    ∀ (l : List KMeanCluster) (color : SkColor),
      (∀ c ∈ l, ¬ withinLimits darkness_limit brightness_limit c) →
      selectLoop darkness_limit brightness_limit l false color = color := by
  intro l
  induction l with
  | nil =>
    intro color _
    rfl
  | cons c rest ih =>
    intro color h
    rw [selectLoop_cons_outside _ _ c rest false color (h c (List.mem_cons_self c rest))]
    exact ih color (fun x hx => h x (List.mem_cons_of_mem c hx))

theorem selectLoop_first_within (darkness_limit brightness_limit : Nat) (c : KMeanCluster)
    (post : List KMeanCluster) (hc : withinLimits darkness_limit brightness_limit c) :
    ∀ (pre : List KMeanCluster) (first : Bool) (color : SkColor),
      (∀ x ∈ pre, ¬ withinLimits darkness_limit brightness_limit x) →
      selectLoop darkness_limit brightness_limit (pre ++ c :: post) first color =
        centroidColor c := by
  intro pre
  induction pre with
  | nil =>
    intro first color _
    exact selectLoop_cons_within _ _ c post first color hc
  | cons x pre ih =>
    intro first color h
    rw [List.cons_append, selectLoop_cons_outside _ _ x _ first color
      (h x (List.mem_cons_self x pre))]
    exact ih false _ (fun y hy => h y (List.mem_cons_of_mem x hy))

theorem exists_first_within (darkness_limit brightness_limit : Nat) :
    ∀ (l : List KMeanCluster), (∃ c ∈ l, withinLimits darkness_limit brightness_limit c) →
      ∃ pre c post, l = pre ++ c :: post ∧
        (∀ x ∈ pre, ¬ withinLimits darkness_limit brightness_limit x) ∧
        withinLimits darkness_limit brightness_limit c := by
  intro l
  induction l with
  | nil =>
    rintro ⟨c, hc, _⟩
    exact absurd hc (List.not_mem_nil c)
  | cons a rest ih =>
    rintro ⟨c, hc, hw⟩
    by_cases ha : withinLimits darkness_limit brightness_limit a
    · exact ⟨[], a, rest, rfl, fun x hx => absurd hx (List.not_mem_nil x), ha⟩
    · have hrest : ∃ c ∈ rest, withinLimits darkness_limit brightness_limit c := by
        rcases List.mem_cons.mp hc with heq | hmem
        · subst heq
          exact absurd hw ha
        · exact ⟨c, hmem, hw⟩
      obtain ⟨pre, c2, post, hl, hpre, hc2⟩ := ih hrest
      refine ⟨a :: pre, c2, post, by rw [hl]; rfl, ?_, hc2⟩
      intro x hx
      rcases List.mem_cons.mp hx with heq | hmem
      · subst heq
        exact ha
      · exact hpre x hmem

/-- A cluster that `SortKMeanClusterByWeight` does not put before another one
has at most the weight of the other one, `weight` being the field that
`GetWeight` returns. -/
theorem weight_le_of_not_before {a b : KMeanCluster}
    (h : KMeanCluster.SortKMeanClusterByWeight b a = false) : b.weight ≤ a.weight := by
  simp only [KMeanCluster.SortKMeanClusterByWeight, KMeanCluster.GetWeight,
    decide_eq_false_iff_not, gt_iff_lt, not_lt] at h
  exact h

/-- The insertion sort by weight meets the guarantee of `std::sort`. -/
theorem sortByWeight_sorts : SortsByWeight sortByWeight := by
  intro clusters
  refine ⟨List.perm_insertionSort _ clusters, ?_⟩
  have hs : (sortByWeight clusters).Pairwise (fun a b => a.GetWeight ≥ b.GetWeight) := by
    have : IsTotal KMeanCluster (fun a b => a.GetWeight ≥ b.GetWeight) :=
      ⟨fun a b => Nat.le_total b.GetWeight a.GetWeight⟩
    have : IsTrans KMeanCluster (fun a b => a.GetWeight ≥ b.GetWeight) :=
      ⟨fun a b c hab hbc => Nat.le_trans hbc hab⟩
    exact List.sorted_insertionSort (fun a b => a.GetWeight ≥ b.GetWeight) clusters
  refine hs.imp ?_
  intro a b hab
  simp only [KMeanCluster.SortKMeanClusterByWeight, decide_eq_false_iff_not, gt_iff_lt, not_lt]
  exact hab

/-! ## The convergence flag -/

theorem CompareCentroidWithAggregate_iff (c : KMeanCluster) :
    c.CompareCentroidWithAggregate = true ↔ c.counter ≠ 0 ∧ meanIsCentroid c := by
  unfold KMeanCluster.CompareCentroidWithAggregate meanIsCentroid
  by_cases h : c.counter = 0
  · simp [h]
  · simp [h, and_assoc]

theorem recomputeLoop_flag :
    ∀ (l : List KMeanCluster) (convergence : Bool),
      (recomputeLoop l convergence).1 =
        (convergence && l.all (fun c => c.CompareCentroidWithAggregate)) := by
  intro l
  induction l with
  | nil =>
    intro convergence
    simp [recomputeLoop]
  | cons c rest ih =>
    intro convergence
    simp only [recomputeLoop, ih, List.all_cons, Bool.and_assoc]

theorem recomputeLoop_clusters :
    ∀ (l : List KMeanCluster) (convergence : Bool),
      (recomputeLoop l convergence).2 = l.map (fun c => c.RecomputeCentroid) := by
  intro l
  induction l with
  | nil =>
    intro convergence
    simp [recomputeLoop]
  | cons c rest ih =>
    intro convergence
    simp only [recomputeLoop, ih, List.map_cons]

/-! ## Reachable cluster states -/

/-- After `k` calls of `AddPoint` the counter is `k` and every aggregate is a sum
of `k` bytes, both reduced modulo `2^32`. -/
theorem KMeanCluster.Reachable_sums {k : Nat} {c : KMeanCluster}
    (h : KMeanCluster.Reachable k c) :
    c.counter = k % 4294967296 ∧
    ∃ s0 s1 s2 : Nat, s0 ≤ 255 * k ∧ s1 ≤ 255 * k ∧ s2 ≤ 255 * k ∧
      c.aggregate0 = s0 % 4294967296 ∧ c.aggregate1 = s1 % 4294967296 ∧
      c.aggregate2 = s2 % 4294967296 := by
  induction h with
  | reset => exact ⟨rfl, 0, 0, 0, by omega, by omega, by omega, rfl, rfl, rfl⟩
  | setCentroid r g b _ ih => exact ih
  | @addPoint k c r g b _ ih =>
    obtain ⟨hc, s0, s1, s2, h0, h1, h2, e0, e1, e2⟩ := ih
    have hr := r.isLt
    have hg := g.isLt
    have hb := b.isLt
    refine ⟨?_, s0 + r.val, s1 + g.val, s2 + b.val, by omega, by omega, by omega, ?_, ?_, ?_⟩
    · simp only [KMeanCluster.AddPoint, uadd, hc]
      omega
    · simp only [KMeanCluster.AddPoint, uadd, e0]
      omega
    · simp only [KMeanCluster.AddPoint, uadd, e1]
      omega
    · simp only [KMeanCluster.AddPoint, uadd, e2]
      omega

theorem iterateLoop_succ_false (image : List Byte) (width height : Int) (left : Nat)
    (clusters : List KMeanCluster) :
    iterateLoop image width height (left + 1) false clusters =
      (refineStep image width height clusters).bind
        (fun r => iterateLoop image width height left r.1 r.2) := by
  simp only [iterateLoop, refineStep, Bool.false_eq_true, if_false, Option.bind_eq_bind,
    Option.pure_def, Option.bind_assoc, Option.some_bind]

theorem toByte_val_of_le (n : Nat) (h : n ≤ 255) : (toByte n).val = n := by
  simp only [toByte]
  omega

/-- C12. Selection within limits: for a sorting function with the guarantee of
`std::sort` for the comparison `SortKMeanClusterByWeight`, every non-empty
cluster sequence and every pair of limits, if some cluster has
`darkness_limit < r + g + b < brightness_limit`, the colour the scan chooses is
the centroid, with alpha 0xFF, of a cluster within these strict bounds whose
field `weight` is at least the `weight` of every cluster within them; its sum
equals neither limit. -/
theorem selection_within_limits (sort : List KMeanCluster → List KMeanCluster)
    (hsort : SortsByWeight sort) (clusters : List KMeanCluster)
    (darkness_limit brightness_limit : Nat) (hne : clusters ≠ [])
    (hex : ∃ c ∈ clusters, withinLimits darkness_limit brightness_limit c) :
    ∃ c ∈ clusters, withinLimits darkness_limit brightness_limit c ∧
      (∀ c2 ∈ clusters, withinLimits darkness_limit brightness_limit c2 →
        c2.weight ≤ c.weight) ∧
      centroidSum c ≠ darkness_limit ∧ centroidSum c ≠ brightness_limit ∧
      selectLoop darkness_limit brightness_limit (sort clusters) true kDefaultBgColor =
        SkColorSetARGB 0xFF c.centroid0 c.centroid1 c.centroid2 := by
  have _ := hne
  obtain ⟨hperm, hpair⟩ := hsort clusters
  have hex2 : ∃ c ∈ sort clusters, withinLimits darkness_limit brightness_limit c := by
    obtain ⟨c, hc, hw⟩ := hex
    exact ⟨c, hperm.mem_iff.mpr hc, hw⟩
  obtain ⟨pre, c, post, hl, hpre, hc⟩ := exists_first_within darkness_limit brightness_limit
    (sort clusters) hex2
  have hmem : c ∈ sort clusters := by
    rw [hl]
    exact List.mem_append_right pre (List.mem_cons_self c post)
  refine ⟨c, hperm.mem_iff.mp hmem, hc, ?_, ?_, ?_, ?_⟩
  · intro c2 hc2 hw2
    have hc2s : c2 ∈ pre ++ c :: post := by
      rw [← hl]
      exact hperm.mem_iff.mpr hc2
    rw [hl, List.pairwise_append] at hpair
    obtain ⟨_, hcp, _⟩ := hpair
    rw [List.pairwise_cons] at hcp
    rcases List.mem_append.mp hc2s with h1 | h2
    · exact absurd hw2 (hpre c2 h1)
    · rcases List.mem_cons.mp h2 with heq | hpost
      · rw [heq]
      · exact weight_le_of_not_before (hcp.1 c2 hpost)
  · exact Nat.ne_of_gt hc.1
  · exact Nat.ne_of_lt hc.2
  · rw [hl]
    exact selectLoop_first_within darkness_limit brightness_limit c post hc pre true
      kDefaultBgColor hpre

/-- C12 (witness).  For `weightedClusters` and the limits 100 and 665 the
heaviest cluster (weight 5, sum 60) is outside the limits; the scan chooses
`(200, 100, 50)`, the centroid of the cluster of weight 3, and not
`(120, 130, 140)`, the centroid of the cluster of weight 1, which is within the
limits too and comes first in the unsorted sequence. -/
theorem selection_within_limits_witness :
    (∃ c ∈ weightedClusters, withinLimits 100 665 c ∧
      (∀ c2 ∈ weightedClusters, withinLimits 100 665 c2 → c2.weight ≤ c.weight) ∧
      centroidSum c ≠ 100 ∧ centroidSum c ≠ 665 ∧
      selectLoop 100 665 (sortByWeight weightedClusters) true kDefaultBgColor =
        SkColorSetARGB 0xFF c.centroid0 c.centroid1 c.centroid2) ∧
    selectLoop 100 665 (sortByWeight weightedClusters) true kDefaultBgColor =
      SkColorSetARGB 0xFF 200 100 50 :=
  ⟨selection_within_limits sortByWeight sortByWeight_sorts weightedClusters 100 665
    (by decide) ⟨⟨120, 130, 140, 0, 0, 0, 0, 1⟩, by decide, by decide⟩, by decide⟩

/-- C13. Selection fallback: for a sorting function with the guarantee of
`std::sort` for the comparison `SortKMeanClusterByWeight`, every non-empty
cluster sequence and every pair of limits, if no cluster has its centroid sum
strictly between the limits, the colour the scan chooses is the centroid, with
alpha 0xFF, of the first cluster after the sort, a cluster whose field `weight`
is at least the `weight` of every cluster; and it is this centroid whatever
colour the variable `color` holds before the scan, so the default colour it is
initialised with is never what the scan leaves. -/
theorem selection_fallback (sort : List KMeanCluster → List KMeanCluster)
    (hsort : SortsByWeight sort) (clusters : List KMeanCluster)
    (darkness_limit brightness_limit : Nat) (hne : clusters ≠ [])
    (hnone : ∀ c ∈ clusters, ¬ withinLimits darkness_limit brightness_limit c) :
    ∃ c rest, sort clusters = c :: rest ∧ c ∈ clusters ∧
      (∀ c2 ∈ clusters, c2.weight ≤ c.weight) ∧
      ∀ color : SkColor,
        selectLoop darkness_limit brightness_limit (sort clusters) true color =
          SkColorSetARGB 0xFF c.centroid0 c.centroid1 c.centroid2 := by
  obtain ⟨hperm, hpair⟩ := hsort clusters
  cases hs : sort clusters with
  | nil =>
    rw [hs] at hperm
    exact absurd hperm.symm.eq_nil hne
  | cons c rest =>
    rw [hs] at hperm hpair
    have hc : c ∈ clusters := hperm.mem_iff.mp (List.mem_cons_self c rest)
    have hrest : ∀ x ∈ rest, ¬ withinLimits darkness_limit brightness_limit x :=
      fun x hx => hnone x (hperm.mem_iff.mp (List.mem_cons_of_mem c hx))
    refine ⟨c, rest, rfl, hc, ?_, ?_⟩
    · intro c2 hc2
      rw [List.pairwise_cons] at hpair
      rcases List.mem_cons.mp (hperm.mem_iff.mpr hc2) with heq | hmem
      · rw [heq]
      · exact weight_le_of_not_before (hpair.1 c2 hmem)
    · intro color
      rw [selectLoop_cons_outside _ _ c rest true color (hnone c hc)]
      simp only [if_true]
      exact selectLoop_all_outside _ _ rest _ hrest

/-- C13 (witness).  For `weightedClusters` and the limits 400 and 665 no centroid
sum (390, 60, 350) is within the limits; the scan, started with the default
colour, chooses `(10, 20, 30)`, the centroid of the cluster of weight 5, which
the sort puts first. -/
theorem selection_fallback_witness :
    (∃ c rest, sortByWeight weightedClusters = c :: rest ∧ c ∈ weightedClusters ∧
      (∀ c2 ∈ weightedClusters, c2.weight ≤ c.weight) ∧
      ∀ color : SkColor,
        selectLoop 400 665 (sortByWeight weightedClusters) true color =
          SkColorSetARGB 0xFF c.centroid0 c.centroid1 c.centroid2) ∧
    selectLoop 400 665 (sortByWeight weightedClusters) true kDefaultBgColor =
      SkColorSetARGB 0xFF 10 20 30 :=
  ⟨selection_fallback sortByWeight sortByWeight_sorts weightedClusters 400 665 (by decide)
    (by decide), by decide⟩

/-- C14, as stated, fails. In `emptyAndStable` the first cluster received no
point and the second has a truncated mean equal to its centroid, yet the
convergence flag of the sweep is false. -/
theorem empty_cluster_blocks_convergence :
    (∀ c ∈ emptyAndStable, c.counter = 0 ∨ meanIsCentroid c) ∧
    (recomputeLoop emptyAndStable true).1 = false := by
  refine ⟨by decide, by decide⟩

/-- C14, amended. Convergence check: a cluster with `counter == 0` contributes
false to the conjunction; the sweep is flagged as converged exactly when every
cluster received at least one point and has a truncated mean
`aggregate / counter` equal to its centroid in all three channels; after a sweep
that leaves some cluster without a point the refinement loop goes on with the
flag false. -/
theorem convergence_flag_iff (clusters : List KMeanCluster) :
    (∀ c : KMeanCluster, c.counter = 0 → c.CompareCentroidWithAggregate = false) ∧
    ((recomputeLoop clusters true).1 = true ↔
      ∀ c ∈ clusters, c.counter ≠ 0 ∧ meanIsCentroid c) ∧
    ((∃ c ∈ clusters, c.counter = 0) → (recomputeLoop clusters true).1 = false) ∧
    (∀ (image : List Byte) (width height : Int) (left : Nat) (before : List KMeanCluster),
      refineStep image width height before = some (recomputeLoop clusters true) →
      (∃ c ∈ clusters, c.counter = 0) →
      iterateLoop image width height (left + 1) false before =
        iterateLoop image width height left false
          (clusters.map (fun c => c.RecomputeCentroid))) := by
  have hiff : (recomputeLoop clusters true).1 = true ↔
      ∀ c ∈ clusters, c.counter ≠ 0 ∧ meanIsCentroid c := by
    rw [recomputeLoop_flag, Bool.true_and, List.all_eq_true]
    constructor
    · intro h c hc
      exact (CompareCentroidWithAggregate_iff c).mp (h c hc)
    · intro h c hc
      exact (CompareCentroidWithAggregate_iff c).mpr (h c hc)
  have hfalse : (∃ c ∈ clusters, c.counter = 0) → (recomputeLoop clusters true).1 = false := by
    rintro ⟨c, hc, h0⟩
    cases hflag : (recomputeLoop clusters true).1 with
    | false => rfl
    | true => exact absurd h0 (hiff.mp hflag c hc).1
  refine ⟨?_, hiff, hfalse, ?_⟩
  · intro c h0
    simp [KMeanCluster.CompareCentroidWithAggregate, h0]
  · intro image width height left before hstep hex
    rw [iterateLoop_succ_false, hstep, Option.some_bind, hfalse hex, recomputeLoop_clusters]

/-- The amended C14 on `emptyAndStable`: the flag is false. -/
theorem convergence_flag_iff_witness :
    (∃ c ∈ emptyAndStable, c.counter = 0) ∧ (recomputeLoop emptyAndStable true).1 = false :=
  ⟨⟨⟨9, 9, 9, 0, 0, 0, 0, 0⟩, by decide, by decide⟩,
    (convergence_flag_iff emptyAndStable).2.2.1 ⟨⟨9, 9, 9, 0, 0, 0, 0, 0⟩, by decide, by decide⟩⟩

/-- C16. Recompute: for every cluster state reached from `Reset` by `SetCentroid`
and fewer than `2^32` calls of `AddPoint`, `RecomputeCentroid` with
`counter > 0` sets each centroid channel to `aggregate / counter` (truncated),
sets the weight to the counter it found and clears the aggregates and the
counter; with `counter == 0` it leaves centroid and weight as they are; in both
cases the aggregates and the counter are zero afterwards. -/
theorem RecomputeCentroid_of_reachable (k : Nat) (c : KMeanCluster)
    (hreach : KMeanCluster.Reachable k c) (hk : k < 4294967296) :
    (c.counter > 0 →
      (c.RecomputeCentroid).centroid0.val = c.aggregate0 / c.counter ∧
      (c.RecomputeCentroid).centroid1.val = c.aggregate1 / c.counter ∧
      (c.RecomputeCentroid).centroid2.val = c.aggregate2 / c.counter ∧
      (c.RecomputeCentroid).weight = c.counter) ∧
    (c.counter = 0 →
      (c.RecomputeCentroid).centroid0 = c.centroid0 ∧
      (c.RecomputeCentroid).centroid1 = c.centroid1 ∧
      (c.RecomputeCentroid).centroid2 = c.centroid2 ∧
      (c.RecomputeCentroid).weight = c.weight) ∧
    (c.RecomputeCentroid).aggregate0 = 0 ∧ (c.RecomputeCentroid).aggregate1 = 0 ∧
    (c.RecomputeCentroid).aggregate2 = 0 ∧ (c.RecomputeCentroid).counter = 0 := by
  obtain ⟨hc, s0, s1, s2, h0, h1, h2, e0, e1, e2⟩ := KMeanCluster.Reachable_sums hreach
  have hck : c.counter = k := by omega
  have a0 : c.aggregate0 ≤ 255 * c.counter := by omega
  have a1 : c.aggregate1 ≤ 255 * c.counter := by omega
  have a2 : c.aggregate2 ≤ 255 * c.counter := by omega
  by_cases hpos : c.counter > 0
  · have d0 : c.aggregate0 / c.counter ≤ 255 :=
      Nat.div_le_of_le_mul (by rw [Nat.mul_comm]; exact a0)
    have d1 : c.aggregate1 / c.counter ≤ 255 :=
      Nat.div_le_of_le_mul (by rw [Nat.mul_comm]; exact a1)
    have d2 : c.aggregate2 / c.counter ≤ 255 :=
      Nat.div_le_of_le_mul (by rw [Nat.mul_comm]; exact a2)
    have hR : c.RecomputeCentroid =
        { centroid0 := toByte (c.aggregate0 / c.counter)
          centroid1 := toByte (c.aggregate1 / c.counter)
          centroid2 := toByte (c.aggregate2 / c.counter)
          aggregate0 := 0
          aggregate1 := 0
          aggregate2 := 0
          weight := c.counter
          counter := 0 } := by
      simp only [KMeanCluster.RecomputeCentroid, hpos, if_true]
    rw [hR]
    refine ⟨fun _ => ⟨toByte_val_of_le _ d0, toByte_val_of_le _ d1, toByte_val_of_le _ d2, rfl⟩,
      fun hz => ?_, rfl, rfl, rfl, rfl⟩
    omega
  · have hz : c.counter = 0 := by omega
    have z0 : c.aggregate0 = 0 := by omega
    have z1 : c.aggregate1 = 0 := by omega
    have z2 : c.aggregate2 = 0 := by omega
    have hR : c.RecomputeCentroid = c := by
      simp only [KMeanCluster.RecomputeCentroid, hpos, if_false]
    rw [hR]
    exact ⟨fun h => absurd h hpos, fun _ => ⟨rfl, rfl, rfl, rfl⟩, z0, z1, z2, hz⟩

/-- The statement of C16 for `twoPointCluster`, whose aggregates are
`(31, 50, 71)` and whose counter is 2. -/
theorem RecomputeCentroid_of_reachable_witness :
    (twoPointCluster.RecomputeCentroid).centroid0.val = 31 / 2 ∧
    (twoPointCluster.RecomputeCentroid).weight = 2 ∧
    (twoPointCluster.RecomputeCentroid).aggregate0 = 0 ∧
    (twoPointCluster.RecomputeCentroid).counter = 0 :=
  have h := RecomputeCentroid_of_reachable 2 twoPointCluster
    (KMeanCluster.Reachable.addPoint 21 30 41
      (KMeanCluster.Reachable.addPoint 10 20 30
        (KMeanCluster.Reachable.setCentroid 30 20 10 KMeanCluster.Reachable.reset)))
    (by decide)
  ⟨(h.1 (by decide)).1, (h.1 (by decide)).2.2.2, h.2.2.1, h.2.2.2.2.2⟩

/-- C17 (counterexample).  The formula fails where a value leaves the range of
its 32-bit type, without undefined behaviour.  In call 36 on a 1000000000 x 2
image `x = 1 + 9 * 249999999 = 2249999992` is computed in `uint32_t` and stored
in an `int` as -2044967304, so the call returns -1044967304, where the formula
gives `(2249999992 + 1 * 1000000000) mod 2000000000 = 1249999992`.  In call
1718160 on a 40000 x 40000 image the product `429540 * 9999` wraps in
`uint32_t`, `x` is 3165 and the call returns 43165, where the formula gives
1095010461. -/
theorem grid_point_wraps :
    GridSampler.GetSample 36 1000000000 2 = some (-1044967304, 37) ∧
    (gridX 1000000000 36 + gridY 2 36 * 1000000000) % (1000000000 * 2) = 1249999992 ∧
    GridSampler.GetSample 1718160 40000 40000 = some (43165, 1718161) ∧
    (gridX 40000 1718160 + gridY 40000 1718160 * 40000) % (40000 * 40000) = 1095010461 := by
  refine ⟨by decide, by decide, by decide, by decide⟩

/-- C17 (amended).  Grid sampling pattern: for `width, height >= 2` and a counter
`n`, as long as the pixel count, the counter and the grid point `x + y * width`
fit an `int`, `GetSample` returns `(x + y * width) mod (width * height)` with
`x = 1 + (n div 4) * ((width - 2) div 4)` and
`y = 1 + (n mod 4) * ((height - 2) div 4)` and increments the counter; so the
first `k` calls of a fresh sampler return these values for `n = 0, ..., k - 1`;
on a 10 x 10 image the calls 0..9 return the pixels
`(1,1), (1,3), (1,5), (1,7), (3,1), (3,3), (3,5), (3,7), (5,1), (5,3)`. -/
theorem GridSampler_sampling_pattern :
    (∀ (n width height : Nat), 2 ≤ width → 2 ≤ height → width * height ≤ 2147483647 →
      n < 2147483647 → gridX width n + gridY height n * width ≤ 2147483647 →
      GridSampler.GetSample (n : Int) (width : Int) (height : Int) =
        some ((((gridX width n + gridY height n * width) % (width * height) : Nat) : Int),
          (n : Int) + 1)) ∧
    (∀ (k width height : Nat), 2 ≤ width → 2 ≤ height → width * height ≤ 2147483647 →
      k ≤ 2147483647 →
      (∀ n, n < k → gridX width n + gridY height n * width ≤ 2147483647) →
      sampleRun GridSampler.GetSample (width : Int) (height : Int) k (0 : Int) =
        some ((List.range k).map (fun n =>
          (((gridX width n + gridY height n * width) % (width * height) : Nat) : Int)),
          (k : Int))) ∧
    sampleRun GridSampler.GetSample 10 10 10 (0 : Int) =
      some ([1 + 1 * 10, 1 + 3 * 10, 1 + 5 * 10, 1 + 7 * 10, 3 + 1 * 10, 3 + 3 * 10,
        3 + 5 * 10, 3 + 7 * 10, 5 + 1 * 10, 5 + 3 * 10], 10) := by
  refine ⟨?_, ?_, by decide⟩
  · intro n width height hw hh harea hn hfit
    exact GridSampler.GetSample_grid_point n width height hw hh harea hn hfit
  · intro k width height hw hh harea hk hfit
    have h := GridSampler.sampleRun_eq width height hw hh harea k 0 (by omega)
      (fun n _ h2 => hfit n (by omega))
    rw [List.range_eq_range']
    simpa using h

/-- C17 (witness).  Call 5 on a 16 x 16 image returns the grid point `(4, 4)`. -/
theorem GridSampler_sampling_pattern_witness :
    GridSampler.GetSample 5 16 16 = some (4 + 4 * 16, 6) :=
  GridSampler_sampling_pattern.1 5 16 16 (by decide) (by decide) (by decide) (by decide)
    (by decide)

/-! ## The closest cluster -/

theorem GetDistanceSqr_eq (c : KMeanCluster) (p : Pixel) :
    ((c.GetDistanceSqr p.r p.g p.b : Nat) : Int) = centroidDistance c p := by
  have h0 := distanceSquared_nonneg p.r p.g p.b c.centroid0 c.centroid1 c.centroid2
  have h1 := distanceSquared_le p.r p.g p.b c.centroid0 c.centroid1 c.centroid2
  have h2 : distanceSquared p.r p.g p.b c.centroid0 c.centroid1 c.centroid2 =
      centroidDistance c p := by
    unfold distanceSquared centroidDistance
    ring
  rw [← h2]
  unfold KMeanCluster.GetDistanceSqr toUInt32
  omega

theorem GetDistanceSqr_lt (c : KMeanCluster) (r g b : Byte) :
    c.GetDistanceSqr r g b < UINT_MAX := by
  have h0 := distanceSquared_nonneg r g b c.centroid0 c.centroid1 c.centroid2
  have h1 := distanceSquared_le r g b c.centroid0 c.centroid1 c.centroid2
  unfold KMeanCluster.GetDistanceSqr toUInt32 UINT_MAX
  omega

/-- The loop over the clusters either keeps its state, when no cluster of the
list is strictly closer than the best distance so far, or ends on the first
cluster of minimal distance. -/
theorem closestLoop_spec (r g b : Byte) :
    ∀ (l : List KMeanCluster) (idx best closest : Nat),
      (closestLoop r g b l idx best closest = closest ∧
        ∀ (j : Nat) (c : KMeanCluster), l[j]? = some c → best ≤ c.GetDistanceSqr r g b) ∨
      (∃ (j : Nat) (c : KMeanCluster), l[j]? = some c ∧
        closestLoop r g b l idx best closest = idx + j ∧
        c.GetDistanceSqr r g b < best ∧
        (∀ (j2 : Nat) (c2 : KMeanCluster), l[j2]? = some c2 →
          c.GetDistanceSqr r g b ≤ c2.GetDistanceSqr r g b) ∧
        (∀ (j2 : Nat) (c2 : KMeanCluster), j2 < j → l[j2]? = some c2 →
          c.GetDistanceSqr r g b < c2.GetDistanceSqr r g b)) := by
  intro l
  induction l with
  | nil =>
    intro idx best closest
    left
    refine ⟨rfl, ?_⟩
    intro j c h
    simp at h
  | cons a rest ih =>
    intro idx best closest
    by_cases hd : a.GetDistanceSqr r g b < best
    · have hstep : closestLoop r g b (a :: rest) idx best closest =
          closestLoop r g b rest (idx + 1) (a.GetDistanceSqr r g b) idx := by
        simp only [closestLoop, hd, if_true]
      rw [hstep]
      rcases ih (idx + 1) (a.GetDistanceSqr r g b) idx with
        ⟨hres, hall⟩ | ⟨j, c, hj, hres, hlt, hmin, hfirst⟩
      · right
        refine ⟨0, a, List.getElem?_cons_zero, by rw [hres]; rfl, hd, ?_, ?_⟩
        · intro j2 c2 h2
          cases j2 with
          | zero =>
            simp only [List.getElem?_cons_zero, Option.some.injEq] at h2
            rw [h2]
          | succ j2 =>
            rw [List.getElem?_cons_succ] at h2
            exact hall j2 c2 h2
        · intro j2 c2 hlt2
          omega
      · right
        refine ⟨j + 1, c, by rw [List.getElem?_cons_succ]; exact hj, by rw [hres]; omega,
          Nat.lt_trans hlt hd, ?_, ?_⟩
        · intro j2 c2 h2
          cases j2 with
          | zero =>
            simp only [List.getElem?_cons_zero, Option.some.injEq] at h2
            rw [← h2]
            exact Nat.le_of_lt hlt
          | succ j2 =>
            rw [List.getElem?_cons_succ] at h2
            exact hmin j2 c2 h2
        · intro j2 c2 hlt2 h2
          cases j2 with
          | zero =>
            simp only [List.getElem?_cons_zero, Option.some.injEq] at h2
            rw [← h2]
            exact hlt
          | succ j2 =>
            rw [List.getElem?_cons_succ] at h2
            exact hfirst j2 c2 (by omega) h2
    · have hstep : closestLoop r g b (a :: rest) idx best closest =
          closestLoop r g b rest (idx + 1) best closest := by
        simp only [closestLoop, hd, if_false]
      rw [hstep]
      rcases ih (idx + 1) best closest with
        ⟨hres, hall⟩ | ⟨j, c, hj, hres, hlt, hmin, hfirst⟩
      · left
        refine ⟨hres, ?_⟩
        intro j2 c2 h2
        cases j2 with
        | zero =>
          simp only [List.getElem?_cons_zero, Option.some.injEq] at h2
          rw [← h2]
          exact Nat.le_of_not_lt hd
        | succ j2 =>
          rw [List.getElem?_cons_succ] at h2
          exact hall j2 c2 h2
      · right
        refine ⟨j + 1, c, by rw [List.getElem?_cons_succ]; exact hj, by rw [hres]; omega,
          hlt, ?_, ?_⟩
        · intro j2 c2 h2
          cases j2 with
          | zero =>
            simp only [List.getElem?_cons_zero, Option.some.injEq] at h2
            rw [← h2]
            exact Nat.le_of_lt (Nat.lt_of_lt_of_le hlt (Nat.le_of_not_lt hd))
          | succ j2 =>
            rw [List.getElem?_cons_succ] at h2
            exact hmin j2 c2 h2
        · intro j2 c2 hlt2 h2
          cases j2 with
          | zero =>
            simp only [List.getElem?_cons_zero, Option.some.injEq] at h2
            rw [← h2]
            exact Nat.lt_of_lt_of_le hlt (Nat.le_of_not_lt hd)
          | succ j2 =>
            rw [List.getElem?_cons_succ] at h2
            exact hfirst j2 c2 (by omega) h2

/-- On a non-empty cluster sequence the closest cluster is the first one of
minimal squared distance. -/
theorem closestCluster_spec (clusters : List KMeanCluster) (hne : clusters ≠ []) (p : Pixel) :
    ∃ c, clusters[closestCluster clusters p]? = some c ∧
      (∀ (j2 : Nat) (c2 : KMeanCluster), clusters[j2]? = some c2 →
        centroidDistance c p ≤ centroidDistance c2 p) ∧
      (∀ (j2 : Nat) (c2 : KMeanCluster), j2 < closestCluster clusters p →
        clusters[j2]? = some c2 →
        centroidDistance c p < centroidDistance c2 p) := by
  unfold closestCluster
  rcases closestLoop_spec p.r p.g p.b clusters 0 UINT_MAX 0 with
    ⟨_, hall⟩ | ⟨j, c, hj, hres, _, hmin, hfirst⟩
  · exfalso
    cases clusters with
    | nil => exact hne rfl
    | cons a rest =>
      have h1 := hall 0 a List.getElem?_cons_zero
      have h2 := GetDistanceSqr_lt a p.r p.g p.b
      omega
  · rw [hres, Nat.zero_add]
    refine ⟨c, hj, ?_, ?_⟩
    · intro j2 c2 h2
      have := hmin j2 c2 h2
      rw [← GetDistanceSqr_eq, ← GetDistanceSqr_eq]
      exact_mod_cast this
    · intro j2 c2 hlt h2
      have := hfirst j2 c2 hlt h2
      rw [← GetDistanceSqr_eq, ← GetDistanceSqr_eq]
      exact_mod_cast this

theorem closestLoop_modify_AddPoint (r g b r2 g2 b2 : Byte) :
    ∀ (l : List KMeanCluster) (k idx best closest : Nat),
      closestLoop r g b (l.modify (fun c => c.AddPoint r2 g2 b2) k) idx best closest =
        closestLoop r g b l idx best closest := by
  intro l
  induction l with
  | nil =>
    intro k idx best closest
    cases k <;> rfl
  | cons a rest ih =>
    intro k idx best closest
    cases k with
    | zero => rfl
    | succ k =>
      have hm : List.modify (fun c : KMeanCluster => c.AddPoint r2 g2 b2) (k + 1) (a :: rest) =
          a :: List.modify (fun c : KMeanCluster => c.AddPoint r2 g2 b2) k rest := rfl
      rw [hm]
      simp only [closestLoop, ih]

theorem assignedPixels_modify_AddPoint (image : List Byte) (clusters : List KMeanCluster)
    (r2 g2 b2 : Byte) (k0 i n k : Nat) :
    assignedPixels image (clusters.modify (fun c => c.AddPoint r2 g2 b2) k0) i n k =
      assignedPixels image clusters i n k := by
  simp only [assignedPixels, closestCluster, closestLoop_modify_AddPoint]

/-! ## What an assignment sweep computes -/

theorem assignedPixels_zero (image : List Byte) (clusters : List KMeanCluster) (i k : Nat) :
    assignedPixels image clusters i 0 k = [] := rfl

theorem assignedPixels_succ (image : List Byte) (clusters : List KMeanCluster) (i n k : Nat)
    (p : Pixel) (hp : readPixel image i = some p) :
    assignedPixels image clusters i (n + 1) k =
      if p.a ≠ 0 ∧ closestCluster clusters p = k then
        p :: assignedPixels image clusters (i + 1) n k
      else assignedPixels image clusters (i + 1) n k := by
  simp only [assignedPixels, List.range'_succ, List.filterMap_cons, hp]
  by_cases h : p.a ≠ 0 ∧ closestCluster clusters p = k
  · rw [if_pos h, if_pos h]
  · rw [if_neg h, if_neg h]

/-- An assignment sweep over the pixels `[i, i + n)` returns, and the cluster at
each position `k` has accumulated exactly the pixels of non-zero alpha whose
closest cluster is at position `k`. -/
theorem assignLoop_spec (image : List Byte) :
    ∀ (n i : Nat) (clusters : List KMeanCluster), 4 * (i + n) ≤ image.length →
      ∃ cl, assignLoop image n i clusters = some cl ∧
        ∀ k, cl[k]? = (clusters[k]?).map
          (fun c => addPoints c (assignedPixels image clusters i n k)) := by
  intro n
  induction n with
  | zero =>
    intro i clusters _
    refine ⟨clusters, rfl, ?_⟩
    intro k
    simp [assignedPixels_zero, addPoints]
  | succ n ih =>
    intro i clusters hlen
    obtain ⟨p, hp⟩ := @readPixel_of_lt image i (by omega)
    by_cases ha : p.a = 0
    · obtain ⟨cl, hcl, hk⟩ := ih (i + 1) clusters (by omega)
      refine ⟨cl, by simp [assignLoop, hp, ha, hcl], ?_⟩
      intro k
      rw [hk k, assignedPixels_succ image clusters i n k p hp]
      simp [ha]
    · obtain ⟨cl, hcl, hk⟩ := ih (i + 1)
        (clusters.modify (fun c => c.AddPoint p.r p.g p.b)
          (closestLoop p.r p.g p.b clusters 0 UINT_MAX 0)) (by omega)
      refine ⟨cl, by simp [assignLoop, hp, ha, hcl], ?_⟩
      intro k
      rw [hk k, assignedPixels_modify_AddPoint, List.getElem?_modify,
        assignedPixels_succ image clusters i n k p hp]
      by_cases hkk : closestCluster clusters p = k
      · have hkk2 : closestLoop p.r p.g p.b clusters 0 UINT_MAX 0 = k := hkk
        simp only [hkk2, if_true, ha, ne_eq, not_false_eq_true, hkk, and_self]
        cases clusters[k]? with
        | none => rfl
        | some c => simp [addPoints]
      · have hkk2 : ¬ closestLoop p.r p.g p.b clusters 0 UINT_MAX 0 = k := hkk
        simp only [hkk2, if_false, hkk, and_false]
        cases clusters[k]? with
        | none => rfl
        | some c => simp

/-! ## The accumulators after a sweep -/

theorem addPoints_nil (c : KMeanCluster) : addPoints c [] = c := rfl

theorem addPoints_cons (c : KMeanCluster) (p : Pixel) (ps : List Pixel) :
    addPoints c (p :: ps) = addPoints (c.AddPoint p.r p.g p.b) ps := rfl

theorem addPoints_centroid (ps : List Pixel) :
    ∀ (c : KMeanCluster), (addPoints c ps).centroid0 = c.centroid0 ∧
      (addPoints c ps).centroid1 = c.centroid1 ∧ (addPoints c ps).centroid2 = c.centroid2 ∧
      (addPoints c ps).weight = c.weight := by
  induction ps with
  | nil =>
    intro c
    exact ⟨rfl, rfl, rfl, rfl⟩
  | cons p ps ih =>
    intro c
    rw [addPoints_cons]
    exact ih (c.AddPoint p.r p.g p.b)

/-- As long as nothing exceeds `2^32 - 1`, the counter grows by the number of
pixels and every aggregate by the sum of the channel. -/
theorem addPoints_exact (ps : List Pixel) :
    ∀ (c : KMeanCluster),
      (c.counter + ps.length < 4294967296 →
        (addPoints c ps).counter = c.counter + ps.length) ∧
      (c.aggregate0 + (ps.map (fun p => p.r.val)).sum < 4294967296 →
        (addPoints c ps).aggregate0 = c.aggregate0 + (ps.map (fun p => p.r.val)).sum) ∧
      (c.aggregate1 + (ps.map (fun p => p.g.val)).sum < 4294967296 →
        (addPoints c ps).aggregate1 = c.aggregate1 + (ps.map (fun p => p.g.val)).sum) ∧
      (c.aggregate2 + (ps.map (fun p => p.b.val)).sum < 4294967296 →
        (addPoints c ps).aggregate2 = c.aggregate2 + (ps.map (fun p => p.b.val)).sum) := by
  induction ps with
  | nil =>
    intro c
    simp [addPoints_nil]
  | cons p ps ih =>
    intro c
    obtain ⟨h0, h1, h2, h3⟩ := ih (c.AddPoint p.r p.g p.b)
    simp only [addPoints_cons, List.length_cons, List.map_cons, List.sum_cons]
    refine ⟨?_, ?_, ?_, ?_⟩
    · intro hb
      have e : (c.AddPoint p.r p.g p.b).counter = c.counter + 1 := by
        simp only [KMeanCluster.AddPoint, uadd]
        exact Nat.mod_eq_of_lt (by omega)
      rw [h0 (by rw [e]; omega), e]
      omega
    · intro hb
      have e : (c.AddPoint p.r p.g p.b).aggregate0 = c.aggregate0 + p.r.val := by
        simp only [KMeanCluster.AddPoint, uadd]
        exact Nat.mod_eq_of_lt (by omega)
      rw [h1 (by rw [e]; omega), e]
      omega
    · intro hb
      have e : (c.AddPoint p.r p.g p.b).aggregate1 = c.aggregate1 + p.g.val := by
        simp only [KMeanCluster.AddPoint, uadd]
        exact Nat.mod_eq_of_lt (by omega)
      rw [h2 (by rw [e]; omega), e]
      omega
    · intro hb
      have e : (c.AddPoint p.r p.g p.b).aggregate2 = c.aggregate2 + p.b.val := by
        simp only [KMeanCluster.AddPoint, uadd]
        exact Nat.mod_eq_of_lt (by omega)
      rw [h3 (by rw [e]; omega), e]
      omega

theorem sum_le_mul_length (f : Pixel → Nat) (hi : Nat) :
    ∀ (ps : List Pixel), (∀ p ∈ ps, f p ≤ hi) → (ps.map f).sum ≤ hi * ps.length := by
  intro ps
  induction ps with
  | nil =>
    intro _
    simp
  | cons p ps ih =>
    intro h
    have h1 := h p (List.mem_cons_self p ps)
    have h2 := ih (fun q hq => h q (List.mem_cons_of_mem p hq))
    simp only [List.map_cons, List.sum_cons, List.length_cons, Nat.mul_add, Nat.mul_one]
    omega

theorem mul_length_le_sum (f : Pixel → Nat) (lo : Nat) :
    ∀ (ps : List Pixel), (∀ p ∈ ps, lo ≤ f p) → lo * ps.length ≤ (ps.map f).sum := by
  intro ps
  induction ps with
  | nil =>
    intro _
    simp
  | cons p ps ih =>
    intro h
    have h1 := h p (List.mem_cons_self p ps)
    have h2 := ih (fun q hq => h q (List.mem_cons_of_mem p hq))
    simp only [List.map_cons, List.sum_cons, List.length_cons, Nat.mul_add, Nat.mul_one]
    omega

/-- The truncated mean of a channel over a non-empty list of pixels lies between
any lower and upper bound of the channel. -/
theorem mean_between (f : Pixel → Nat) (lo hi : Nat) (ps : List Pixel) (hne : ps ≠ [])
    (h : ∀ p ∈ ps, lo ≤ f p ∧ f p ≤ hi) :
    lo ≤ (ps.map f).sum / ps.length ∧ (ps.map f).sum / ps.length ≤ hi := by
  have hpos : 0 < ps.length := List.length_pos.mpr hne
  have h1 := mul_length_le_sum f lo ps (fun p hp => (h p hp).1)
  have h2 := sum_le_mul_length f hi ps (fun p hp => (h p hp).2)
  constructor
  · exact (Nat.le_div_iff_mul_le hpos).mpr h1
  · exact Nat.div_le_of_le_mul (by rw [Nat.mul_comm]; exact h2)

theorem assignedPixels_length_le (image : List Byte) (clusters : List KMeanCluster)
    (i n k : Nat) : (assignedPixels image clusters i n k).length ≤ n := by
  unfold assignedPixels
  have := List.length_filterMap_le (fun j =>
    match readPixel image j with
    | some p => if p.a ≠ 0 ∧ closestCluster clusters p = k then some p else none
    | none => none) (List.range' i n)
  simpa using this

theorem byte_sum_le (f : Pixel → Byte) (ps : List Pixel) :
    (ps.map (fun p => (f p).val)).sum ≤ 255 * ps.length :=
  sum_le_mul_length (fun p => (f p).val) 255 ps (fun p _ => Nat.le_of_lt_succ (f p).isLt)

/-! ## The counters after a sweep -/

theorem sum_map_modify (g : KMeanCluster → Nat) (f : KMeanCluster → KMeanCluster) :
    ∀ (l : List KMeanCluster) (k : Nat) (c : KMeanCluster), l[k]? = some c →
      g c ≤ (l.map g).sum ∧
      ((l.modify f k).map g).sum + g c = (l.map g).sum + g (f c) := by
  intro l
  induction l with
  | nil =>
    intro k c h
    simp at h
  | cons a rest ih =>
    intro k c h
    cases k with
    | zero =>
      simp only [List.getElem?_cons_zero, Option.some.injEq] at h
      subst h
      have hm : List.modify f 0 (a :: rest) = f a :: rest := rfl
      rw [hm]
      simp only [List.map_cons, List.sum_cons]
      omega
    | succ k =>
      rw [List.getElem?_cons_succ] at h
      obtain ⟨h1, h2⟩ := ih k c h
      have hm : List.modify f (k + 1) (a :: rest) = a :: List.modify f k rest := rfl
      rw [hm]
      simp only [List.map_cons, List.sum_cons]
      omega

theorem alphaNonzeroCount_zero (image : List Byte) (i : Nat) :
    alphaNonzeroCount image i 0 = 0 := rfl

theorem alphaNonzeroCount_succ (image : List Byte) (i n : Nat) (p : Pixel)
    (hp : readPixel image i = some p) :
    alphaNonzeroCount image i (n + 1) =
      alphaNonzeroCount image (i + 1) n + if p.a ≠ 0 then 1 else 0 := by
  simp only [alphaNonzeroCount, List.range'_succ, List.countP_cons, hp, decide_eq_true_eq]

/-- The counters of the clusters grow, in total, by the number of pixels of
non-zero alpha. -/
theorem assignLoop_counter_sum (image : List Byte) :
    ∀ (n i : Nat) (clusters : List KMeanCluster), 4 * (i + n) ≤ image.length →
      clusters ≠ [] →
      (clusters.map (fun c => c.counter)).sum + n < 4294967296 →
      ∃ cl, assignLoop image n i clusters = some cl ∧
        (cl.map (fun c => c.counter)).sum =
          (clusters.map (fun c => c.counter)).sum + alphaNonzeroCount image i n := by
  intro n
  induction n with
  | zero =>
    intro i clusters _ _ _
    exact ⟨clusters, rfl, by simp [alphaNonzeroCount_zero]⟩
  | succ n ih =>
    intro i clusters hlen hne hsum
    obtain ⟨p, hp⟩ := @readPixel_of_lt image i (by omega)
    by_cases ha : p.a = 0
    · obtain ⟨cl, hcl, hk⟩ := ih (i + 1) clusters (by omega) hne (by omega)
      refine ⟨cl, by simp [assignLoop, hp, ha, hcl], ?_⟩
      rw [hk, alphaNonzeroCount_succ image i n p hp]
      simp [ha]
    · obtain ⟨c, hc, _, _⟩ := closestCluster_spec clusters hne p
      obtain ⟨hle, hmod⟩ := sum_map_modify (fun c => c.counter)
        (fun c => c.AddPoint p.r p.g p.b) clusters (closestCluster clusters p) c hc
      have hadd : (c.AddPoint p.r p.g p.b).counter = c.counter + 1 := by
        simp only [KMeanCluster.AddPoint, uadd]
        exact Nat.mod_eq_of_lt (by omega)
      simp only [hadd] at hmod
      have hne2 : clusters.modify (fun c => c.AddPoint p.r p.g p.b)
          (closestCluster clusters p) ≠ [] := by
        intro hnil
        have := congrArg List.length hnil
        rw [List.length_modify] at this
        exact hne (List.eq_nil_of_length_eq_zero this)
      obtain ⟨cl, hcl, hk⟩ := ih (i + 1)
        (clusters.modify (fun c => c.AddPoint p.r p.g p.b) (closestCluster clusters p))
        (by omega) hne2 (by omega)
      have hcl2 : assignLoop image n (i + 1)
          (clusters.modify (fun c => c.AddPoint p.r p.g p.b)
            (closestLoop p.r p.g p.b clusters 0 UINT_MAX 0)) = some cl := hcl
      refine ⟨cl, by simp [assignLoop, hp, ha, hcl2], ?_⟩
      rw [hk, alphaNonzeroCount_succ image i n p hp]
      simp only [ha, ne_eq, not_false_eq_true, if_true]
      omega

/-! ## The seeds of the clusters -/

theorem take_length_append (done rest : List KMeanCluster) :
    (done ++ rest).take done.length = done := by
  induction done with
  | nil => simp
  | cons a done ih => simp [ih]

theorem modify_length_append (f : KMeanCluster → KMeanCluster) (done : List KMeanCluster)
    (c : KMeanCluster) (rest : List KMeanCluster) :
    (done ++ c :: rest).modify f done.length = done ++ f c :: rest := by
  induction done with
  | nil => rfl
  | cons a done ih =>
    have hm : List.modify f (done.length + 1) (a :: (done ++ c :: rest)) =
        a :: List.modify f done.length (done ++ c :: rest) := rfl
    simp only [List.cons_append, List.length_cons, hm, ih]

theorem eraseIdx_length_append (done : List KMeanCluster) (c : KMeanCluster)
    (rest : List KMeanCluster) :
    (done ++ c :: rest).eraseIdx done.length = done ++ rest := by
  induction done with
  | nil => rfl
  | cons a done ih => simp [ih]

/-- When the ten-tries loop finds a seed, the seed is a pixel of non-zero alpha
whose colour is the centroid of no earlier cluster, and the loop has stored it in
the cluster at position `cluster`. -/
theorem seedLoop_seed {σ : Type} (GetSample : σ → Int → Int → Option (Int × σ))
    (image : List Byte) (width height : Int) (hw : 0 < width) (hh : 0 < height)
    (hsize : 4 * (width * height) ≤ INT_MAX)
    (hlen : (image.length : Int) = 4 * (width * height))
    (clusters : List KMeanCluster) (cluster : Nat) :
    ∀ (tries : Nat) (s : σ) (cl : List KMeanCluster) (next : σ),
      samplesInRange GetSample width height tries s = true →
      seedLoop GetSample image width height clusters cluster tries s = some (true, cl, next) →
      ∃ j p, j < (width * height).toNat ∧ readPixel image j = some p ∧ p.a ≠ 0 ∧
        (clusters.take cluster).any (fun c => c.IsAtCentroid p.r p.g p.b) = false ∧
        cl = clusters.modify (fun c => c.SetCentroid p.r p.g p.b) cluster := by
  intro tries
  induction tries with
  | zero =>
    intro s cl next _ h
    simp [seedLoop] at h
  | succ tries ih =>
    intro s cl next hs h
    obtain ⟨i, s1, hg, h0, h1, hrest⟩ :=
      (samplesInRange_succ_iff GetSample width height tries s).mp hs
    obtain ⟨p, hp, hp2⟩ := readPixelAt_of_in_range image width height hsize hlen h0 h1
    have hstep := seedLoop_step GetSample image width height clusters cluster tries s s1 i
      (width * height) i p hg (int32_area width height hw hh hsize)
      (imod_of_nonneg_lt h0 h1) hp
    rw [hstep] at h
    by_cases ha : p.a = 0
    · rw [if_pos ha] at h
      exact ih s1 cl next hrest h
    · rw [if_neg ha] at h
      by_cases hdup : (clusters.take cluster).any (fun c => c.IsAtCentroid p.r p.g p.b) = true
      · rw [if_pos hdup] at h
        exact ih s1 cl next hrest h
      · rw [if_neg hdup] at h
        simp only [Option.some.injEq, Prod.mk.injEq, true_and] at h
        refine ⟨i.toNat, p, by omega, hp2, ha, ?_, h.1.symm⟩
        simpa using hdup

theorem distinct_of_not_IsAtCentroid (a : KMeanCluster) (r g b : Byte)
    (h : a.IsAtCentroid r g b = false) (c : KMeanCluster) :
    distinctCentroids a (c.SetCentroid r g b) := by
  intro hc
  simp only [KMeanCluster.SetCentroid] at hc
  simp only [KMeanCluster.IsAtCentroid, Bool.and_eq_false_imp, Bool.and_eq_true,
    decide_eq_true_eq, decide_eq_false_iff_not, and_imp] at h
  exact h hc.1.symm hc.2.1.symm hc.2.2.symm

/-- The invariant of the initialization loop: the clusters before `cluster` have
pairwise different centroids, each the colour of a pixel of non-zero alpha, and
clear accumulators. -/
theorem initLoop_seeds {σ : Type} (GetSample : σ → Int → Int → Option (Int × σ))
    (image : List Byte) (width height : Int) (hw : 0 < width) (hh : 0 < height)
    (hsize : 4 * (width * height) ≤ INT_MAX)
    (hlen : (image.length : Int) = 4 * (width * height)) :
    ∀ (slots : Nat) (done rest : List KMeanCluster) (s : σ) (cl : List KMeanCluster) (next : σ),
      rest.length = slots →
      samplesInRange GetSample width height (10 * slots) s = true →
      initLoop GetSample image width height slots (done ++ rest) done.length s =
        some (cl, next) →
      done.Pairwise distinctCentroids →
      (∀ c ∈ done, seededFromPixel image (width * height).toNat c ∧ accumulatorsClear c) →
      (∀ c ∈ rest, accumulatorsClear c) →
      cl.length ≤ done.length + slots ∧ cl.Pairwise distinctCentroids ∧
        ∀ c ∈ cl, seededFromPixel image (width * height).toNat c ∧ accumulatorsClear c := by
  intro slots
  induction slots with
  | zero =>
    intro done rest s cl next hrl _ hinit hpair hdone _
    have hr : rest = [] := List.eq_nil_of_length_eq_zero hrl
    subst hr
    simp only [initLoop, List.append_nil, Option.some.injEq, Prod.mk.injEq] at hinit
    rw [← hinit.1]
    exact ⟨by omega, hpair, hdone⟩
  | succ slots ih =>
    intro done rest s cl next hrl hs hinit hpair hdone hrest
    cases rest with
    | nil => simp at hrl
    | cons r0 rest =>
      have hrl2 : rest.length = slots := by simpa using hrl
      have hrw : 10 * (slots + 1) = 10 + 10 * slots := by omega
      rw [hrw] at hs
      obtain ⟨u, cl1, s1, hseed, hin, _, hkeep, _, _⟩ :=
        seedLoop_spec GetSample image width height hw hh hsize hlen (done ++ r0 :: rest)
          done.length 10 (10 * slots) s hs
      have hstep := initLoop_step GetSample image width height (done ++ r0 :: rest) cl1
        done.length slots s s1 u hseed
      rw [hstep] at hinit
      cases u with
      | false =>
        have hcl1 : cl1 = done ++ r0 :: rest := hkeep rfl
        subst hcl1
        simp only [Bool.not_false, if_true, eraseIdx_length_append] at hinit
        obtain ⟨h1, h2, h3⟩ := ih done rest s1 cl next hrl2 hin hinit hpair hdone
          (fun c hc => hrest c (List.mem_cons_of_mem r0 hc))
        exact ⟨by omega, h2, h3⟩
      | true =>
        simp only [Bool.not_true, Bool.false_eq_true, if_false] at hinit
        obtain ⟨j, p, hj, hp, ha, hany, hcl1⟩ := seedLoop_seed GetSample image width height
          hw hh hsize hlen (done ++ r0 :: rest) done.length 10 s cl1 s1
          (samplesInRange_le GetSample width height s (10 * slots) 10 hs) hseed
        rw [take_length_append] at hany
        rw [modify_length_append] at hcl1
        have hcl2 : cl1 = (done ++ [r0.SetCentroid p.r p.g p.b]) ++ rest := by
          rw [hcl1]
          simp
        have hidx : done.length + 1 = (done ++ [r0.SetCentroid p.r p.g p.b]).length := by
          simp
        rw [hcl2, hidx] at hinit
        have hpair2 : (done ++ [r0.SetCentroid p.r p.g p.b]).Pairwise distinctCentroids := by
          rw [List.pairwise_append]
          refine ⟨hpair, List.pairwise_singleton _ _, ?_⟩
          intro a ha2 b hb
          rw [List.mem_singleton] at hb
          subst hb
          have hany2 := List.any_eq_false.mp hany a ha2
          exact distinct_of_not_IsAtCentroid a p.r p.g p.b (by simpa using hany2) r0
        have hdone2 : ∀ c ∈ done ++ [r0.SetCentroid p.r p.g p.b],
            seededFromPixel image (width * height).toNat c ∧ accumulatorsClear c := by
          intro c hc
          rcases List.mem_append.mp hc with h1 | h1
          · exact hdone c h1
          · rw [List.mem_singleton] at h1
            subst h1
            exact ⟨⟨j, p, hj, hp, ha, rfl, rfl, rfl⟩, hrest r0 (List.mem_cons_self r0 rest)⟩
        obtain ⟨h1, h2, h3⟩ := ih (done ++ [r0.SetCentroid p.r p.g p.b]) rest s1 cl next hrl2
          hin hinit hpair2 hdone2 (fun c hc => hrest c (List.mem_cons_of_mem r0 hc))
        refine ⟨?_, h2, h3⟩
        simp only [List.length_append, List.length_singleton] at h1
        omega

theorem samplesHit_mono {σ : Type} (GetSample : σ → Int → Int → Option (Int × σ))
    (image : List Byte) (width height : Int) (k : Nat) :
    ∀ (n : Nat) (s : σ), samplesHit GetSample image width height n s = true →
      samplesHit GetSample image width height (n + k) s = true := by
  intro n
  induction n with
  | zero =>
    intro s h
    simp [samplesHit] at h
  | succ n ih =>
    intro s h
    have hrw : n + 1 + k = (n + k) + 1 := by omega
    rw [hrw]
    cases hg : GetSample s width height with
    | none => simp [samplesHit, hg] at h
    | some r =>
      obtain ⟨i, next⟩ := r
      rw [samplesHit_succ GetSample image width height n s next i hg] at h
      rw [samplesHit_succ GetSample image width height (n + k) s next i hg]
      rcases Bool.or_eq_true_iff.mp h with h1 | h1
      · rw [h1]
        rfl
      · rw [ih next h1]
        simp

/-! ## Sweeps depend on the clusters through their centroids only -/

theorem iterateLoop_eq_flag (image : List Byte) (width height : Int) :
    ∀ (left : Nat) (convergence : Bool) (clusters : List KMeanCluster),
      iterateLoop image width height left convergence clusters =
        (iterateLoopFlag image width height left convergence clusters).map (fun r => r.2) := by
  intro left
  induction left with
  | zero =>
    intro convergence clusters
    rfl
  | succ left ih =>
    intro convergence clusters
    cases convergence with
    | true => simp [iterateLoop, iterateLoopFlag]
    | false =>
      rw [iterateLoop_succ_false]
      simp only [iterateLoopFlag, Bool.false_eq_true, if_false]
      cases refineStep image width height clusters with
      | none => rfl
      | some r => exact ih r.1 r.2

theorem refineStep_eq (image : List Byte) (width height : Int)
    (hw : 0 < width) (hh : 0 < height) (hsize : 4 * (width * height) ≤ INT_MAX)
    (clusters : List KMeanCluster) :
    refineStep image width height clusters =
      (assignLoop image (width * height).toNat 0 clusters).map
        (fun swept => recomputeLoop swept true) := by
  have hpos := Int.mul_pos hw hh
  have e1 := int32_area width height hw hh hsize
  have e2 : int32 (width * height * 4) = some (width * height * 4) :=
    int32_eq_some (by unfold INT_MIN; omega) (by omega)
  have e3 : (width * height * 4).toNat / 4 = (width * height).toNat := by omega
  simp only [refineStep, e1, e2, e3, Option.bind_eq_bind, Option.some_bind, Option.pure_def]
  cases assignLoop image (width * height).toNat 0 clusters <;> rfl

theorem closestLoop_congr (r g b : Byte) :
    ∀ (l l2 : List KMeanCluster) (idx best closest : Nat),
      l.map (fun c => (c.centroid0, c.centroid1, c.centroid2)) =
        l2.map (fun c => (c.centroid0, c.centroid1, c.centroid2)) →
      closestLoop r g b l idx best closest = closestLoop r g b l2 idx best closest := by
  intro l
  induction l with
  | nil =>
    intro l2 idx best closest h
    cases l2 with
    | nil => rfl
    | cons a2 rest2 => simp at h
  | cons a rest ih =>
    intro l2 idx best closest h
    cases l2 with
    | nil => simp at h
    | cons a2 rest2 =>
      simp only [List.map_cons, List.cons.injEq, Prod.mk.injEq] at h
      obtain ⟨⟨h0, h1, h2⟩, hrest⟩ := h
      have hd : a.GetDistanceSqr r g b = a2.GetDistanceSqr r g b := by
        simp only [KMeanCluster.GetDistanceSqr, h0, h1, h2]
      simp only [closestLoop, hd, ih rest2 _ _ _ hrest]

theorem assignedPixels_congr (image : List Byte) (l l2 : List KMeanCluster) (i n k : Nat)
    (h : l.map (fun c => (c.centroid0, c.centroid1, c.centroid2)) =
      l2.map (fun c => (c.centroid0, c.centroid1, c.centroid2))) :
    assignedPixels image l i n k = assignedPixels image l2 i n k := by
  have hc : ∀ p, closestCluster l p = closestCluster l2 p :=
    fun p => closestLoop_congr p.r p.g p.b l l2 0 UINT_MAX 0 h
  simp only [assignedPixels, hc]

theorem addPoints_accumulators (ps : List Pixel) :
    ∀ (c c2 : KMeanCluster), c.aggregate0 = c2.aggregate0 → c.aggregate1 = c2.aggregate1 →
      c.aggregate2 = c2.aggregate2 → c.counter = c2.counter →
      (addPoints c ps).aggregate0 = (addPoints c2 ps).aggregate0 ∧
      (addPoints c ps).aggregate1 = (addPoints c2 ps).aggregate1 ∧
      (addPoints c ps).aggregate2 = (addPoints c2 ps).aggregate2 ∧
      (addPoints c ps).counter = (addPoints c2 ps).counter := by
  induction ps with
  | nil =>
    intro c c2 h0 h1 h2 h3
    exact ⟨h0, h1, h2, h3⟩
  | cons p ps ih =>
    intro c c2 h0 h1 h2 h3
    rw [addPoints_cons, addPoints_cons]
    apply ih <;> simp only [KMeanCluster.AddPoint, h0, h1, h2, h3]

theorem toByte_val (b : Byte) : toByte b.val = b := by
  apply Fin.ext
  simp only [toByte]
  exact Nat.mod_eq_of_lt b.isLt

theorem KMeanCluster_eq (a b : KMeanCluster) (h0 : a.centroid0 = b.centroid0)
    (h1 : a.centroid1 = b.centroid1) (h2 : a.centroid2 = b.centroid2)
    (h3 : a.aggregate0 = b.aggregate0) (h4 : a.aggregate1 = b.aggregate1)
    (h5 : a.aggregate2 = b.aggregate2) (h6 : a.counter = b.counter)
    (h7 : a.weight = b.weight) : a = b := by
  cases a
  cases b
  simp only [KMeanCluster.mk.injEq]
  exact ⟨h0, h1, h2, h3, h4, h5, h6, h7⟩

theorem RecomputeCentroid_of_pos (c : KMeanCluster) (h : c.counter ≠ 0) :
    c.RecomputeCentroid =
      { centroid0 := toByte (c.aggregate0 / c.counter)
        centroid1 := toByte (c.aggregate1 / c.counter)
        centroid2 := toByte (c.aggregate2 / c.counter)
        aggregate0 := 0
        aggregate1 := 0
        aggregate2 := 0
        weight := c.counter
        counter := 0 } := by
  have hgt : c.counter > 0 := Nat.pos_of_ne_zero h
  simp only [KMeanCluster.RecomputeCentroid, hgt, if_true]

theorem RecomputeCentroid_of_zero (c : KMeanCluster) (h : c.counter = 0) :
    c.RecomputeCentroid = c := by
  simp [KMeanCluster.RecomputeCentroid, h]

/-- A cluster that starts a sweep with clear accumulators and ends it stable is
not changed by `RecomputeCentroid` in its centroid, and the same sweep from the
recomputed cluster is stable again and recomputes to the same cluster. -/
theorem stable_cluster_fixed (b : KMeanCluster) (ps : List Pixel) (hb : accumulatorsClear b)
    (hcnt : (addPoints b ps).counter ≠ 0) (hmean : meanIsCentroid (addPoints b ps)) :
    ((addPoints b ps).RecomputeCentroid).centroid0 = b.centroid0 ∧
    ((addPoints b ps).RecomputeCentroid).centroid1 = b.centroid1 ∧
    ((addPoints b ps).RecomputeCentroid).centroid2 = b.centroid2 ∧
    accumulatorsClear ((addPoints b ps).RecomputeCentroid) ∧
    (addPoints ((addPoints b ps).RecomputeCentroid) ps).CompareCentroidWithAggregate = true ∧
    (addPoints ((addPoints b ps).RecomputeCentroid) ps).RecomputeCentroid =
      (addPoints b ps).RecomputeCentroid := by
  obtain ⟨c0, c1, c2, cw⟩ := addPoints_centroid ps b
  obtain ⟨m0, m1, m2⟩ := hmean
  have hR := RecomputeCentroid_of_pos (addPoints b ps) hcnt
  rw [m0, m1, m2, toByte_val, toByte_val, toByte_val] at hR
  obtain ⟨z0, z1, z2, zc⟩ := hb
  have hacc := addPoints_accumulators ps ((addPoints b ps).RecomputeCentroid) b
    (by rw [hR, z0]) (by rw [hR, z1]) (by rw [hR, z2]) (by rw [hR, zc])
  obtain ⟨a0, a1, a2, ac⟩ := hacc
  obtain ⟨d0, d1, d2, dw⟩ := addPoints_centroid ps ((addPoints b ps).RecomputeCentroid)
  have hcnt2 : (addPoints ((addPoints b ps).RecomputeCentroid) ps).counter ≠ 0 := by
    rw [ac]
    exact hcnt
  have hmean2 : meanIsCentroid (addPoints ((addPoints b ps).RecomputeCentroid) ps) := by
    refine ⟨?_, ?_, ?_⟩
    · rw [a0, ac, m0, d0, hR]
    · rw [a1, ac, m1, d1, hR]
    · rw [a2, ac, m2, d2, hR]
  refine ⟨by rw [hR]; exact c0, by rw [hR]; exact c1, by rw [hR]; exact c2,
    by rw [hR]; exact ⟨rfl, rfl, rfl, rfl⟩,
    (CompareCentroidWithAggregate_iff _).mpr ⟨hcnt2, hmean2⟩, ?_⟩
  have hR2 := RecomputeCentroid_of_pos _ hcnt2
  obtain ⟨n0, n1, n2⟩ := hmean2
  rw [n0, n1, n2, toByte_val, toByte_val, toByte_val] at hR2
  rw [hR2]
  apply KMeanCluster_eq
  · rw [d0]
  · rw [d1]
  · rw [d2]
  · rw [hR]
  · rw [hR]
  · rw [hR]
  · rw [hR]
  · show (addPoints ((addPoints b ps).RecomputeCentroid) ps).counter =
      ((addPoints b ps).RecomputeCentroid).weight
    rw [ac, hR]

/-! ## One iteration of the refinement loop -/

theorem mem_of_getElem? {l : List KMeanCluster} {k : Nat} {c : KMeanCluster}
    (h : l[k]? = some c) : c ∈ l :=
  List.mem_iff_getElem?.mpr ⟨k, h⟩

/-- After a sweep that started with clear accumulators over fewer than `2^32`
pixels, the recomputed clusters have clear accumulators again. -/
theorem recomputed_clear (image : List Byte) (n : Nat) (hn : n < 4294967296)
    (hlen : 4 * n ≤ image.length) (before swept : List KMeanCluster)
    (hclear : ∀ c ∈ before, accumulatorsClear c)
    (hsweep : assignLoop image n 0 before = some swept) :
    ∀ c ∈ swept.map (fun c => c.RecomputeCentroid), accumulatorsClear c := by
  obtain ⟨cl, hcl, hk⟩ := assignLoop_spec image n 0 before (by omega)
  rw [hsweep] at hcl
  cases hcl
  intro c hc
  obtain ⟨s, hs, hsc⟩ := List.mem_map.mp hc
  obtain ⟨k, hks⟩ := List.mem_iff_getElem?.mp hs
  rw [hk k] at hks
  cases hb : before[k]? with
  | none =>
    rw [hb] at hks
    simp at hks
  | some b =>
    rw [hb] at hks
    simp only [Option.map_some', Option.some.injEq] at hks
    have hbc := hclear b (mem_of_getElem? hb)
    rw [← hsc, ← hks]
    by_cases h0 : (addPoints b (assignedPixels image before 0 n k)).counter = 0
    · rw [RecomputeCentroid_of_zero _ h0]
      have hl := assignedPixels_length_le image before 0 n k
      obtain ⟨e0, _, _, _⟩ := addPoints_exact (assignedPixels image before 0 n k) b
      obtain ⟨z0, z1, z2, zc⟩ := hbc
      have hlen0 : (assignedPixels image before 0 n k).length = 0 := by
        have := e0 (by omega)
        omega
      rw [List.eq_nil_of_length_eq_zero hlen0, addPoints_nil]
      exact ⟨z0, z1, z2, zc⟩
    · rw [RecomputeCentroid_of_pos _ h0]
      exact ⟨rfl, rfl, rfl, rfl⟩

/-- A sweep that started with clear accumulators and is flagged as converged:
every cluster received a pixel and is stable, the recomputation changes no
centroid, and one more iteration from the recomputed clusters is flagged as
converged again and returns the same clusters. -/
theorem converged_step (image : List Byte) (width height : Int)
    (hw : 0 < width) (hh : 0 < height) (hsize : 4 * (width * height) ≤ INT_MAX)
    (hlen : (image.length : Int) = 4 * (width * height))
    (before swept : List KMeanCluster)
    (hclear : ∀ c ∈ before, accumulatorsClear c)
    (hsweep : assignLoop image (width * height).toNat 0 before = some swept)
    (hflag : (recomputeLoop swept true).1 = true) :
    (∀ c ∈ swept, c.counter > 0 ∧ meanIsCentroid c) ∧
    (swept.map (fun c => c.RecomputeCentroid)).map
        (fun c => (c.centroid0, c.centroid1, c.centroid2)) =
      before.map (fun c => (c.centroid0, c.centroid1, c.centroid2)) ∧
    refineStep image width height (swept.map (fun c => c.RecomputeCentroid)) =
      some (true, swept.map (fun c => c.RecomputeCentroid)) := by
  have hlenN : 4 * ((width * height).toNat) ≤ image.length := by omega
  have hstable : ∀ c ∈ swept, c.counter ≠ 0 ∧ meanIsCentroid c := by
    rw [recomputeLoop_flag, Bool.true_and, List.all_eq_true] at hflag
    intro c hc
    exact (CompareCentroidWithAggregate_iff c).mp (hflag c hc)
  obtain ⟨cl, hcl, hk⟩ := assignLoop_spec image (width * height).toNat 0 before (by omega)
  rw [hsweep] at hcl
  cases hcl
  -- each swept cluster is its cluster before the sweep plus the assigned pixels
  have hpoint : ∀ k b, before[k]? = some b →
      swept[k]? = some (addPoints b (assignedPixels image before 0 (width * height).toNat k)) ∧
      (addPoints b (assignedPixels image before 0 (width * height).toNat k)).counter ≠ 0 ∧
      meanIsCentroid
        (addPoints b (assignedPixels image before 0 (width * height).toNat k)) := by
    intro k b hb
    have h1 : swept[k]? =
        some (addPoints b (assignedPixels image before 0 (width * height).toNat k)) := by
      rw [hk k, hb]
      rfl
    exact ⟨h1, hstable _ (mem_of_getElem? h1)⟩
  have hcen : (swept.map (fun c => c.RecomputeCentroid)).map
        (fun c => (c.centroid0, c.centroid1, c.centroid2)) =
      before.map (fun c => (c.centroid0, c.centroid1, c.centroid2)) := by
    apply List.ext_getElem?
    intro k
    rw [List.getElem?_map, List.getElem?_map, List.getElem?_map, hk k]
    cases hb : before[k]? with
    | none => rfl
    | some b =>
      obtain ⟨_, hc, hm⟩ := hpoint k b hb
      obtain ⟨c0, c1, c2, _⟩ := stable_cluster_fixed b _ (hclear b (mem_of_getElem? hb)) hc hm
      simp only [Option.map_some', c0, c1, c2]
  refine ⟨fun c hc => ⟨Nat.pos_of_ne_zero (hstable c hc).1, (hstable c hc).2⟩, hcen, ?_⟩
  -- the next sweep, from the recomputed clusters
  obtain ⟨swept2, hsweep2, hk2⟩ := assignLoop_spec image (width * height).toNat 0
    (swept.map (fun c => c.RecomputeCentroid)) (by omega)
  have hP : ∀ k, assignedPixels image (swept.map (fun c => c.RecomputeCentroid)) 0
      (width * height).toNat k = assignedPixels image before 0 (width * height).toNat k :=
    fun k => assignedPixels_congr image _ _ 0 _ k hcen
  have hpoint2 : ∀ k, swept2[k]? = (before[k]?).map (fun b =>
      addPoints ((addPoints b (assignedPixels image before 0 (width * height).toNat k)
        ).RecomputeCentroid) (assignedPixels image before 0 (width * height).toNat k)) := by
    intro k
    rw [hk2 k, List.getElem?_map, hk k, hP k]
    cases before[k]? <;> rfl
  have hflag2 : (recomputeLoop swept2 true).1 = true := by
    rw [recomputeLoop_flag, Bool.true_and, List.all_eq_true]
    intro c hc
    obtain ⟨k, hkc⟩ := List.mem_iff_getElem?.mp hc
    rw [hpoint2 k] at hkc
    cases hb : before[k]? with
    | none =>
      rw [hb] at hkc
      simp at hkc
    | some b =>
      rw [hb] at hkc
      simp only [Option.map_some', Option.some.injEq] at hkc
      obtain ⟨_, hc2, hm⟩ := hpoint k b hb
      obtain ⟨_, _, _, _, hcmp, _⟩ :=
        stable_cluster_fixed b _ (hclear b (mem_of_getElem? hb)) hc2 hm
      rw [← hkc]
      exact hcmp
  have hres2 : (recomputeLoop swept2 true).2 = swept.map (fun c => c.RecomputeCentroid) := by
    rw [recomputeLoop_clusters]
    apply List.ext_getElem?
    intro k
    rw [List.getElem?_map, List.getElem?_map, hpoint2 k, hk k]
    cases hb : before[k]? with
    | none => rfl
    | some b =>
      obtain ⟨_, hc2, hm⟩ := hpoint k b hb
      obtain ⟨_, _, _, _, _, hfix⟩ :=
        stable_cluster_fixed b _ (hclear b (mem_of_getElem? hb)) hc2 hm
      simp only [Option.map_some', hfix]
  rw [refineStep_eq image width height hw hh hsize, hsweep2, Option.map_some']
  congr 1
  exact Prod.ext hflag2 hres2

theorem iterateLoopFlag_true (image : List Byte) (width height : Int) (left : Nat)
    (clusters : List KMeanCluster) :
    iterateLoopFlag image width height left true clusters = some (true, clusters) := by
  cases left <;> simp [iterateLoopFlag]

/-- The refinement loop from clusters with clear accumulators: when it ends with
the flag set, its result comes from a sweep that was flagged as converged. -/
theorem iterateLoopFlag_stop (image : List Byte) (width height : Int)
    (hw : 0 < width) (hh : 0 < height) (hsize : 4 * (width * height) ≤ INT_MAX)
    (hlen : (image.length : Int) = 4 * (width * height)) :
    ∀ (left : Nat) (clusters final : List KMeanCluster),
      (∀ c ∈ clusters, accumulatorsClear c) →
      iterateLoopFlag image width height left false clusters = some (true, final) →
      ∃ before swept, (∀ c ∈ before, accumulatorsClear c) ∧
        assignLoop image (width * height).toNat 0 before = some swept ∧
        (recomputeLoop swept true).1 = true ∧
        final = swept.map (fun c => c.RecomputeCentroid) := by
  intro left
  induction left with
  | zero =>
    intro clusters final _ h
    simp [iterateLoopFlag] at h
  | succ left ih =>
    intro clusters final hclear h
    simp only [iterateLoopFlag, Bool.false_eq_true, if_false] at h
    rw [refineStep_eq image width height hw hh hsize] at h
    cases hsweep : assignLoop image (width * height).toNat 0 clusters with
    | none =>
      rw [hsweep] at h
      simp at h
    | some swept =>
      rw [hsweep] at h
      simp only [Option.map_some'] at h
      cases hflag : (recomputeLoop swept true).1 with
      | true =>
        rw [hflag, iterateLoopFlag_true] at h
        simp only [Option.some.injEq, Prod.mk.injEq, true_and] at h
        exact ⟨clusters, swept, hclear, hsweep, hflag, by rw [← h, recomputeLoop_clusters]⟩
      | false =>
        rw [hflag, recomputeLoop_clusters] at h
        have hpos := Int.mul_pos hw hh
        have hclear2 := recomputed_clear image (width * height).toNat
          (by unfold INT_MAX at hsize; omega) (by omega) clusters swept hclear hsweep
        exact ih _ final hclear2 h

/-- C15. Assignment: in one sweep over a non-empty cluster sequence, the closest
cluster of a pixel is the lowest-index cluster of minimal squared RGB distance;
the sweep returns, and the cluster at each position has accumulated (`AddPoint`)
exactly the pixels of non-zero alpha whose closest cluster is at that position,
so that such a pixel is added to that one cluster and a pixel of alpha 0 to
none; when the counters start at zero they sum, after the sweep, to the number
of pixels of non-zero alpha. -/
theorem assignment_sweep (image : List Byte) (clusters : List KMeanCluster) (n : Nat)
    (hne : clusters ≠ []) (hlen : 4 * n ≤ image.length) :
    (∀ p : Pixel, ∃ c, clusters[closestCluster clusters p]? = some c ∧
      (∀ (j : Nat) (c2 : KMeanCluster), clusters[j]? = some c2 →
        centroidDistance c p ≤ centroidDistance c2 p) ∧
      (∀ (j : Nat) (c2 : KMeanCluster), j < closestCluster clusters p →
        clusters[j]? = some c2 → centroidDistance c p < centroidDistance c2 p)) ∧
    ∃ cl, assignLoop image n 0 clusters = some cl ∧
      (∀ k, cl[k]? = (clusters[k]?).map
        (fun c => addPoints c (assignedPixels image clusters 0 n k))) ∧
      ((∀ c ∈ clusters, c.counter = 0) → n < 4294967296 →
        (cl.map (fun c => c.counter)).sum = alphaNonzeroCount image 0 n) := by
  refine ⟨fun p => closestCluster_spec clusters hne p, ?_⟩
  obtain ⟨cl, hcl, hk⟩ := assignLoop_spec image n 0 clusters (by omega)
  refine ⟨cl, hcl, hk, ?_⟩
  intro hzero hn
  have hsum0 : (clusters.map (fun c => c.counter)).sum = 0 := by
    apply List.sum_eq_zero
    intro x hx
    obtain ⟨c, hc, hcx⟩ := List.mem_map.mp hx
    rw [← hcx]
    exact hzero c hc
  obtain ⟨cl2, hcl2, hs⟩ := assignLoop_counter_sum image n 0 clusters (by omega) hne
    (by omega)
  rw [hcl] at hcl2
  cases hcl2
  rw [hs, hsum0, Nat.zero_add]

/-- The statement of C15 for the red and blue 4 x 4 buffer and two clusters at
pure red and pure blue. -/
theorem assignment_sweep_witness :
    ∃ cl, assignLoop redBlue4x4 16 0 redBlueClusters = some cl ∧
      (∀ k, cl[k]? = (redBlueClusters[k]?).map
        (fun c => addPoints c (assignedPixels redBlue4x4 redBlueClusters 0 16 k))) ∧
      ((∀ c ∈ redBlueClusters, c.counter = 0) → 16 < 4294967296 →
        (cl.map (fun c => c.counter)).sum = alphaNonzeroCount redBlue4x4 0 16) :=
  (assignment_sweep redBlue4x4 redBlueClusters 16 (by decide) (by decide)).2

/-- C20. No accumulator overflow and lossless narrowing: `GetDistanceSqr` is the
exact squared Euclidean distance, at most 195075 and below `UINT_MAX`; and for a
sweep over at most 16843009 pixels that starts with clear accumulators, the
counter of every cluster is the exact number of pixels assigned to it and every
aggregate the exact sum of the channel over them (nothing wraps), the truncated
mean `aggregate / counter` of a cluster with at least one pixel lies between any
lower and upper bound of the channel over its pixels, and `RecomputeCentroid`
stores this mean unchanged in the `uint8_t` centroid. -/
theorem no_accumulator_overflow (image : List Byte) (clusters : List KMeanCluster) (n : Nat)
    (hlen : 4 * n ≤ image.length) (hn : n ≤ 16843009)
    (hclear : ∀ c ∈ clusters, accumulatorsClear c) :
    (∀ (c : KMeanCluster) (p : Pixel),
      ((c.GetDistanceSqr p.r p.g p.b : Nat) : Int) = centroidDistance c p ∧
      c.GetDistanceSqr p.r p.g p.b ≤ 195075 ∧ c.GetDistanceSqr p.r p.g p.b < UINT_MAX) ∧
    ∃ cl, assignLoop image n 0 clusters = some cl ∧
      ∀ (k : Nat) (c : KMeanCluster), clusters[k]? = some c →
        ∃ c2, cl[k]? = some c2 ∧
          c2.counter = (assignedPixels image clusters 0 n k).length ∧
          c2.aggregate0 = ((assignedPixels image clusters 0 n k).map (fun p => p.r.val)).sum ∧
          c2.aggregate1 = ((assignedPixels image clusters 0 n k).map (fun p => p.g.val)).sum ∧
          c2.aggregate2 = ((assignedPixels image clusters 0 n k).map (fun p => p.b.val)).sum ∧
          (assignedPixels image clusters 0 n k ≠ [] →
            (∀ lo hi, (∀ p ∈ assignedPixels image clusters 0 n k, lo ≤ p.r.val ∧ p.r.val ≤ hi) →
              lo ≤ c2.aggregate0 / c2.counter ∧ c2.aggregate0 / c2.counter ≤ hi) ∧
            (∀ lo hi, (∀ p ∈ assignedPixels image clusters 0 n k, lo ≤ p.g.val ∧ p.g.val ≤ hi) →
              lo ≤ c2.aggregate1 / c2.counter ∧ c2.aggregate1 / c2.counter ≤ hi) ∧
            (∀ lo hi, (∀ p ∈ assignedPixels image clusters 0 n k, lo ≤ p.b.val ∧ p.b.val ≤ hi) →
              lo ≤ c2.aggregate2 / c2.counter ∧ c2.aggregate2 / c2.counter ≤ hi) ∧
            c2.aggregate0 / c2.counter ≤ 255 ∧ c2.aggregate1 / c2.counter ≤ 255 ∧
            c2.aggregate2 / c2.counter ≤ 255 ∧
            (c2.RecomputeCentroid).centroid0.val = c2.aggregate0 / c2.counter ∧
            (c2.RecomputeCentroid).centroid1.val = c2.aggregate1 / c2.counter ∧
            (c2.RecomputeCentroid).centroid2.val = c2.aggregate2 / c2.counter) := by
  constructor
  · intro c p
    have h1 := GetDistanceSqr_eq c p
    have h2 := GetDistanceSqr_lt c p.r p.g p.b
    have h3 := distanceSquared_le p.r p.g p.b c.centroid0 c.centroid1 c.centroid2
    have h4 := distanceSquared_nonneg p.r p.g p.b c.centroid0 c.centroid1 c.centroid2
    refine ⟨h1, ?_, h2⟩
    unfold KMeanCluster.GetDistanceSqr toUInt32
    omega
  · obtain ⟨cl, hcl, hk⟩ := assignLoop_spec image n 0 clusters (by omega)
    refine ⟨cl, hcl, ?_⟩
    intro k c hc
    have hmem : c ∈ clusters := List.mem_iff_getElem?.mpr ⟨k, hc⟩
    obtain ⟨z0, z1, z2, zc⟩ := hclear c hmem
    generalize hps : assignedPixels image clusters 0 n k = ps at *
    have hlen_ps : ps.length ≤ n := by
      rw [← hps]
      exact assignedPixels_length_le image clusters 0 n k
    have hr := byte_sum_le (fun p => p.r) ps
    have hg := byte_sum_le (fun p => p.g) ps
    have hb := byte_sum_le (fun p => p.b) ps
    obtain ⟨e0, e1, e2, e3⟩ := addPoints_exact ps c
    have hc2 : cl[k]? = some (addPoints c ps) := by
      rw [hk k, hc, hps]
      rfl
    have ec : (addPoints c ps).counter = ps.length := by
      rw [e0 (by omega), zc, Nat.zero_add]
    have ea0 : (addPoints c ps).aggregate0 = (ps.map (fun p => p.r.val)).sum := by
      rw [e1 (by omega), z0, Nat.zero_add]
    have ea1 : (addPoints c ps).aggregate1 = (ps.map (fun p => p.g.val)).sum := by
      rw [e2 (by omega), z1, Nat.zero_add]
    have ea2 : (addPoints c ps).aggregate2 = (ps.map (fun p => p.b.val)).sum := by
      rw [e3 (by omega), z2, Nat.zero_add]
    refine ⟨addPoints c ps, hc2, ec, ea0, ea1, ea2, ?_⟩
    intro hne
    have hpos : 0 < ps.length := List.length_pos.mpr hne
    have m0 := mean_between (fun p => p.r.val) 0 255 ps hne
      (fun p _ => ⟨Nat.zero_le _, Nat.le_of_lt_succ p.r.isLt⟩)
    have m1 := mean_between (fun p => p.g.val) 0 255 ps hne
      (fun p _ => ⟨Nat.zero_le _, Nat.le_of_lt_succ p.g.isLt⟩)
    have m2 := mean_between (fun p => p.b.val) 0 255 ps hne
      (fun p _ => ⟨Nat.zero_le _, Nat.le_of_lt_succ p.b.isLt⟩)
    have hR : (addPoints c ps).RecomputeCentroid =
        { centroid0 := toByte ((addPoints c ps).aggregate0 / (addPoints c ps).counter)
          centroid1 := toByte ((addPoints c ps).aggregate1 / (addPoints c ps).counter)
          centroid2 := toByte ((addPoints c ps).aggregate2 / (addPoints c ps).counter)
          aggregate0 := 0
          aggregate1 := 0
          aggregate2 := 0
          weight := (addPoints c ps).counter
          counter := 0 } := by
      have hgt : (addPoints c ps).counter > 0 := by
        rw [ec]
        exact hpos
      simp only [KMeanCluster.RecomputeCentroid, hgt, if_true]
    rw [hR, ec, ea0, ea1, ea2]
    refine ⟨fun lo hi h => mean_between (fun p => p.r.val) lo hi ps hne h,
      fun lo hi h => mean_between (fun p => p.g.val) lo hi ps hne h,
      fun lo hi h => mean_between (fun p => p.b.val) lo hi ps hne h,
      m0.2, m1.2, m2.2, toByte_val_of_le _ m0.2, toByte_val_of_le _ m1.2,
      toByte_val_of_le _ m2.2⟩

/-- The statement of C20 for the red and blue 4 x 4 buffer and two clusters at
pure red and pure blue. -/
theorem no_accumulator_overflow_witness :
    ∃ cl, assignLoop redBlue4x4 16 0 redBlueClusters = some cl ∧
      ∀ (k : Nat) (c : KMeanCluster), redBlueClusters[k]? = some c →
        ∃ c2, cl[k]? = some c2 ∧
          c2.counter = (assignedPixels redBlue4x4 redBlueClusters 0 16 k).length ∧
          c2.aggregate0 =
            ((assignedPixels redBlue4x4 redBlueClusters 0 16 k).map (fun p => p.r.val)).sum :=
  have h := (no_accumulator_overflow redBlue4x4 redBlueClusters 16 (by decide) (by decide)
    (by decide)).2
  h.elim fun cl hcl => ⟨cl, hcl.1, fun k c hc =>
    (hcl.2 k c hc).elim fun c2 h2 => ⟨c2, h2.1, h2.2.1, h2.2.2.1⟩⟩

/-- C19. Seed invariant: on a buffer of `width * height > 0` pixels (byte size
fitting an `int`) and for a sampler whose 40 samples are pixel indices in
`[0, width * height)`, the initialization loop returns at most 4 clusters, their
centroids are pairwise different, each centroid is the RGB of a pixel of
non-zero alpha, and there is at least one cluster whenever one of the first 10
samples is a pixel of non-zero alpha. -/
theorem seed_invariant {σ : Type} (GetSample : σ → Int → Int → Option (Int × σ))
    (image : List Byte) (width height : Int) (sampler : σ)
    (hw : 0 < width) (hh : 0 < height) (hsize : 4 * (width * height) ≤ INT_MAX)
    (hlen : (image.length : Int) = 4 * (width * height))
    (hs : samplesInRange GetSample width height 40 sampler = true) :
    ∃ cl next, initLoop GetSample image width height kNumberOfClusters
        (List.replicate kNumberOfClusters KMeanCluster.Reset) 0 sampler = some (cl, next) ∧
      cl.length ≤ 4 ∧
      cl.Pairwise (fun a b => ¬ (a.centroid0 = b.centroid0 ∧ a.centroid1 = b.centroid1 ∧
        a.centroid2 = b.centroid2)) ∧
      (∀ c ∈ cl, ∃ j p, j < (width * height).toNat ∧ readPixel image j = some p ∧ p.a ≠ 0 ∧
        c.centroid0 = p.r ∧ c.centroid1 = p.g ∧ c.centroid2 = p.b) ∧
      (samplesHit GetSample image width height 10 sampler = true → cl ≠ []) := by
  obtain ⟨cl, next, hinit, _, hne, _⟩ :=
    initLoop_spec GetSample image width height hw hh hsize hlen 4
      (List.replicate kNumberOfClusters KMeanCluster.Reset) 0 sampler
      (by simp [kNumberOfClusters]) hs
  have hinit2 : initLoop GetSample image width height 4
      (([] : List KMeanCluster) ++ List.replicate kNumberOfClusters KMeanCluster.Reset)
      ([] : List KMeanCluster).length sampler = some (cl, next) := hinit
  obtain ⟨h1, h2, h3⟩ := initLoop_seeds GetSample image width height hw hh hsize hlen 4 []
    (List.replicate kNumberOfClusters KMeanCluster.Reset) sampler cl next
    (by simp [kNumberOfClusters]) hs hinit2 List.Pairwise.nil
    (fun c hc => absurd hc (List.not_mem_nil c))
    (fun c hc => by
      rw [List.eq_of_mem_replicate hc]
      exact ⟨rfl, rfl, rfl, rfl⟩)
  refine ⟨cl, next, hinit, by simpa using h1, h2, fun c hc => (h3 c hc).1, ?_⟩
  intro hhit
  exact hne rfl (samplesHit_mono GetSample image width height 30 10 sampler hhit)

/-- The statement of C19 for the red and blue 4 x 4 buffer and a fresh
`GridSampler`. -/
theorem seed_invariant_witness :
    ∃ cl next, initLoop GridSampler.GetSample redBlue4x4 4 4 kNumberOfClusters
        (List.replicate kNumberOfClusters KMeanCluster.Reset) 0 (0 : Int) = some (cl, next) ∧
      cl.length ≤ 4 ∧
      cl.Pairwise (fun a b => ¬ (a.centroid0 = b.centroid0 ∧ a.centroid1 = b.centroid1 ∧
        a.centroid2 = b.centroid2)) ∧
      (∀ c ∈ cl, ∃ j p, j < ((4 : Int) * 4).toNat ∧ readPixel redBlue4x4 j = some p ∧
        p.a ≠ 0 ∧ c.centroid0 = p.r ∧ c.centroid1 = p.g ∧ c.centroid2 = p.b) ∧
      (samplesHit GridSampler.GetSample redBlue4x4 4 4 10 (0 : Int) = true → cl ≠ []) :=
  seed_invariant GridSampler.GetSample redBlue4x4 4 4 (0 : Int) (by decide) (by decide)
    (by decide) (by decide) (by decide)

/-- C18. Early stop is a fixed point: on a buffer of `width * height > 0` pixels
(byte size fitting an `int`), when the refinement loop, started with clear
accumulators as the initialization leaves them, ends with the convergence flag
set after at most `left` sweeps, its result comes from a last sweep in which
every cluster received at least one pixel and was stable, the last
`RecomputeCentroid` changed no centroid, and one more assignment and recompute
sweep on the final clusters is flagged as converged and returns the final
clusters unchanged, centroids and weights included. -/
theorem early_stop_is_fixed_point (image : List Byte) (width height : Int)
    (hw : 0 < width) (hh : 0 < height) (hsize : 4 * (width * height) ≤ INT_MAX)
    (hlen : (image.length : Int) = 4 * (width * height))
    (left : Nat) (clusters final : List KMeanCluster)
    (hclear : ∀ c ∈ clusters, accumulatorsClear c)
    (hstop : iterateLoopFlag image width height left false clusters = some (true, final)) :
    iterateLoop image width height left false clusters = some final ∧
    ∃ before swept, assignLoop image (width * height).toNat 0 before = some swept ∧
      (∀ c ∈ swept, c.counter > 0 ∧ meanIsCentroid c) ∧
      final = swept.map (fun c => c.RecomputeCentroid) ∧
      final.map (fun c => (c.centroid0, c.centroid1, c.centroid2)) =
        before.map (fun c => (c.centroid0, c.centroid1, c.centroid2)) ∧
      refineStep image width height final = some (true, final) := by
  constructor
  · rw [iterateLoop_eq_flag, hstop]
    rfl
  · obtain ⟨before, swept, hbc, hsweep, hflag, hfinal⟩ :=
      iterateLoopFlag_stop image width height hw hh hsize hlen left clusters final hclear hstop
    obtain ⟨h1, h2, h3⟩ := converged_step image width height hw hh hsize hlen before swept
      hbc hsweep hflag
    refine ⟨before, swept, hsweep, h1, hfinal, ?_, ?_⟩
    · rw [hfinal]
      exact h2
    · rw [hfinal]
      exact h3

/-- The statement of C18 for the red and blue 4 x 4 buffer and two clusters at
pure red and pure blue: the loop stops after one sweep with weights 8 and 8. -/
theorem early_stop_is_fixed_point_witness :
    iterateLoopFlag redBlue4x4 4 4 kNumberOfIterations false redBlueClusters =
      some (true, [⟨255, 0, 0, 0, 0, 0, 0, 8⟩, ⟨0, 0, 255, 0, 0, 0, 0, 8⟩]) ∧
    refineStep redBlue4x4 4 4 [⟨255, 0, 0, 0, 0, 0, 0, 8⟩, ⟨0, 0, 255, 0, 0, 0, 0, 8⟩] =
      some (true, [⟨255, 0, 0, 0, 0, 0, 0, 8⟩, ⟨0, 0, 255, 0, 0, 0, 0, 8⟩]) :=
  have hstop : iterateLoopFlag redBlue4x4 4 4 kNumberOfIterations false redBlueClusters =
      some (true, [⟨255, 0, 0, 0, 0, 0, 0, 8⟩, ⟨0, 0, 255, 0, 0, 0, 0, 8⟩]) := by decide
  have h := early_stop_is_fixed_point redBlue4x4 4 4 (by decide) (by decide) (by decide)
    (by decide) kNumberOfIterations redBlueClusters
    [⟨255, 0, 0, 0, 0, 0, 0, 8⟩, ⟨0, 0, 255, 0, 0, 0, 0, 8⟩] (by decide) hstop
  ⟨hstop, h.2.elim fun _ hb => hb.elim fun _ hs => hs.2.2.2.2⟩

/-! ## Seeds of a second colour -/

theorem samplesFresh_succ {σ : Type} (GetSample : σ → Int → Int → Option (Int × σ))
    (image : List Byte) (width height : Int) (earlier : List KMeanCluster) (n : Nat)
    (s next : σ) (i : Int) (hg : GetSample s width height = some (i, next)) :
    samplesFresh GetSample image width height earlier (n + 1) s =
      (freshAt image earlier i || samplesFresh GetSample image width height earlier n next) := by
  simp [samplesFresh, hg]

/-- A run of the ten-tries loop that finds no seed has drawn no pixel of non-zero
alpha with a colour that no earlier cluster has. -/
theorem seedLoop_fresh {σ : Type} (GetSample : σ → Int → Int → Option (Int × σ))
    (image : List Byte) (width height : Int) (hw : 0 < width) (hh : 0 < height)
    (hsize : 4 * (width * height) ≤ INT_MAX)
    (hlen : (image.length : Int) = 4 * (width * height))
    (clusters : List KMeanCluster) (cluster : Nat) :
    ∀ (tries m : Nat) (s : σ) (cl : List KMeanCluster) (next : σ),
      samplesInRange GetSample width height tries s = true →
      seedLoop GetSample image width height clusters cluster tries s = some (false, cl, next) →
      samplesFresh GetSample image width height (clusters.take cluster) (tries + m) s = true →
      samplesFresh GetSample image width height (clusters.take cluster) m next = true := by
  intro tries
  induction tries with
  | zero =>
    intro m s cl next _ h hf
    simp only [seedLoop, Option.some.injEq, Prod.mk.injEq, true_and] at h
    rw [← h.2]
    simpa using hf
  | succ tries ih =>
    intro m s cl next hs h hf
    obtain ⟨i, s1, hg, h0, h1, hrest⟩ :=
      (samplesInRange_succ_iff GetSample width height tries s).mp hs
    obtain ⟨p, hp, hp2⟩ := readPixelAt_of_in_range image width height hsize hlen h0 h1
    have hstep := seedLoop_step GetSample image width height clusters cluster tries s s1 i
      (width * height) i p hg (int32_area width height hw hh hsize)
      (imod_of_nonneg_lt h0 h1) hp
    rw [hstep] at h
    have e : tries + 1 + m = (tries + m) + 1 := by omega
    rw [e, samplesFresh_succ GetSample image width height _ (tries + m) s s1 i hg] at hf
    by_cases ha : p.a = 0
    · rw [if_pos ha] at h
      have hnf : freshAt image (clusters.take cluster) i = false := by
        simp [freshAt, hp2, ha]
      rw [hnf, Bool.false_or] at hf
      exact ih m s1 cl next hrest h hf
    · rw [if_neg ha] at h
      by_cases hdup : (clusters.take cluster).any (fun c => c.IsAtCentroid p.r p.g p.b) = true
      · rw [if_pos hdup] at h
        have hnf : freshAt image (clusters.take cluster) i = false := by
          simp only [freshAt, hp2, hdup, Bool.not_true, Bool.and_false]
        rw [hnf, Bool.false_or] at hf
        exact ih m s1 cl next hrest h hf
      · rw [if_neg hdup] at h
        simp at h

/-- The initialization loop from position `done.length`: when one of the calls it
may still make draws a pixel of non-zero alpha whose colour none of the clusters
`done` has, it leaves more clusters than `done`. -/
theorem initLoop_finds {σ : Type} (GetSample : σ → Int → Int → Option (Int × σ))
    (image : List Byte) (width height : Int) (hw : 0 < width) (hh : 0 < height)
    (hsize : 4 * (width * height) ≤ INT_MAX)
    (hlen : (image.length : Int) = 4 * (width * height)) (done : List KMeanCluster) :
    ∀ (slots : Nat) (rest : List KMeanCluster) (s : σ),
      rest.length = slots →
      samplesInRange GetSample width height (10 * slots) s = true →
      samplesFresh GetSample image width height done (10 * slots) s = true →
      ∃ cl next, initLoop GetSample image width height slots (done ++ rest) done.length s =
          some (cl, next) ∧ done.length + 1 ≤ cl.length := by
  intro slots
  induction slots with
  | zero =>
    intro rest s _ _ hf
    simp [samplesFresh] at hf
  | succ slots ih =>
    intro rest s hrest hs hf
    cases rest with
    | nil => simp at hrest
    | cons r0 rest =>
      have hrest2 : rest.length = slots := by simpa using hrest
      have e : 10 * (slots + 1) = 10 + 10 * slots := by omega
      rw [e] at hs hf
      obtain ⟨u, cl1, s1, hseed, hs1, hlen1, hkeep, _, _⟩ :=
        seedLoop_spec GetSample image width height hw hh hsize hlen (done ++ r0 :: rest)
          done.length 10 (10 * slots) s hs
      rw [initLoop_step GetSample image width height (done ++ r0 :: rest) cl1 done.length slots
        s s1 u hseed]
      cases u with
      | false =>
        have hcl1 := hkeep rfl
        subst hcl1
        simp only [Bool.not_false, if_true]
        rw [eraseIdx_length_append]
        have hf2 := seedLoop_fresh GetSample image width height hw hh hsize hlen
          (done ++ r0 :: rest) done.length 10 (10 * slots) s _ s1
          (samplesInRange_le GetSample width height s (10 * slots) 10 hs) hseed
          (by rw [take_length_append]; exact hf)
        rw [take_length_append] at hf2
        exact ih rest s1 hrest2 hs1 hf2
      | true =>
        simp only [Bool.not_true, Bool.false_eq_true, if_false]
        obtain ⟨cl, next, hinit, hle, _, _⟩ :=
          initLoop_spec GetSample image width height hw hh hsize hlen slots cl1
            (done.length + 1) s1 (by rw [hlen1]; simp; omega) hs1
        exact ⟨cl, next, hinit, hle⟩

theorem GridSampler.GetSample_samplesFresh (image : List Byte) (earlier : List KMeanCluster)
    (width height : Nat) (hw : 2 ≤ width)
    (hh : 2 ≤ height) (hsize : 4 * (width * height) ≤ 2147483647) :
    ∀ (k n m : Nat), n ≤ m → m < n + k → n + k ≤ 40 →
      (∃ i next, GridSampler.GetSample (m : Int) (width : Int) (height : Int) = some (i, next) ∧
        freshAt image earlier i = true) →
      color_utils.samplesFresh GridSampler.GetSample image (width : Int) (height : Int) earlier
        k (n : Int) = true := by
  intro k
  induction k with
  | zero =>
    intro n m h1 h2
    omega
  | succ k ih =>
    intro n m h1 h2 h3 hhit
    have hg := GridSampler.GetSample_eq n width height hw hh hsize (by omega)
    rw [samplesFresh_succ GridSampler.GetSample image (width : Int) (height : Int) earlier k
      (n : Int) _ _ hg]
    rcases Nat.eq_or_lt_of_le h1 with heq | hlt
    · subst heq
      obtain ⟨i, next, hg2, ha⟩ := hhit
      rw [hg] at hg2
      simp only [Option.some.injEq, Prod.mk.injEq] at hg2
      rw [hg2.1, ha]
      rfl
    · have := ih (n + 1) m hlt (by omega) (by omega) hhit
      have h2 : color_utils.samplesFresh GridSampler.GetSample image (width : Int)
          (height : Int) earlier k ((n : Int) + 1) = true := by exact_mod_cast this
      rw [h2]
      simp

/-! ## Refinement when every colour of the image has its own cluster -/

theorem centroidDistance_eq_zero {c : KMeanCluster} {p : Pixel}
    (h : centroidDistance c p = 0) :
    c.centroid0 = p.r ∧ c.centroid1 = p.g ∧ c.centroid2 = p.b := by
  unfold centroidDistance at h
  have h0 := sq_nonneg ((p.r.val : Int) - c.centroid0.val)
  have h1 := sq_nonneg ((p.g.val : Int) - c.centroid1.val)
  have h2 := sq_nonneg ((p.b.val : Int) - c.centroid2.val)
  have e0 : ((p.r.val : Int) - c.centroid0.val) ^ 2 = 0 := by omega
  have e1 : ((p.g.val : Int) - c.centroid1.val) ^ 2 = 0 := by omega
  have e2 : ((p.b.val : Int) - c.centroid2.val) ^ 2 = 0 := by omega
  have d0 := pow_eq_zero_iff (two_ne_zero) |>.mp e0
  have d1 := pow_eq_zero_iff (two_ne_zero) |>.mp e1
  have d2 := pow_eq_zero_iff (two_ne_zero) |>.mp e2
  refine ⟨Fin.ext ?_, Fin.ext ?_, Fin.ext ?_⟩ <;> omega

theorem centroidDistance_of_eq {c : KMeanCluster} {p : Pixel}
    (h : c.centroid0 = p.r ∧ c.centroid1 = p.g ∧ c.centroid2 = p.b) :
    centroidDistance c p = 0 := by
  unfold centroidDistance
  rw [h.1, h.2.1, h.2.2]
  simp

theorem centroidDistance_nonneg (c : KMeanCluster) (p : Pixel) : 0 ≤ centroidDistance c p := by
  unfold centroidDistance
  positivity

theorem assignedPixels_mem (image : List Byte) (clusters : List KMeanCluster) (i n k : Nat)
    (p : Pixel) (h : p ∈ assignedPixels image clusters i n k) :
    ∃ j, i ≤ j ∧ j < i + n ∧ readPixel image j = some p ∧ p.a ≠ 0 ∧
      closestCluster clusters p = k := by
  unfold assignedPixels at h
  obtain ⟨j, hj, hjp⟩ := List.mem_filterMap.mp h
  rw [List.mem_range'_1] at hj
  cases hq : readPixel image j with
  | none =>
    rw [hq] at hjp
    simp at hjp
  | some q =>
    rw [hq] at hjp
    have hjp : (if q.a ≠ 0 ∧ closestCluster clusters q = k then some q else none) = some p :=
      hjp
    by_cases hc : q.a ≠ 0 ∧ closestCluster clusters q = k
    · rw [if_pos hc] at hjp
      simp only [Option.some.injEq] at hjp
      subst hjp
      exact ⟨j, hj.1, hj.2, hq, hc.1, hc.2⟩
    · rw [if_neg hc] at hjp
      simp at hjp

/-- A cluster with clear accumulators that receives at most 16843009 pixels, all
of the colour of its centroid, keeps its centroid in `RecomputeCentroid`. -/
theorem uniform_cluster_fixed (b : KMeanCluster) (ps : List Pixel) (hb : accumulatorsClear b)
    (hlen : ps.length ≤ 16843009)
    (hps : ∀ p ∈ ps, b.centroid0 = p.r ∧ b.centroid1 = p.g ∧ b.centroid2 = p.b) :
    ((addPoints b ps).RecomputeCentroid).centroid0 = b.centroid0 ∧
    ((addPoints b ps).RecomputeCentroid).centroid1 = b.centroid1 ∧
    ((addPoints b ps).RecomputeCentroid).centroid2 = b.centroid2 := by
  obtain ⟨z0, z1, z2, zc⟩ := hb
  obtain ⟨ec, e0, e1, e2⟩ := addPoints_exact ps b
  obtain ⟨c0, c1, c2, _⟩ := addPoints_centroid ps b
  have s0 := byte_sum_le (fun p => p.r) ps
  have s1 := byte_sum_le (fun p => p.g) ps
  have s2 := byte_sum_le (fun p => p.b) ps
  have hc := ec (by omega)
  have h0 := e0 (by omega)
  have h1 := e1 (by omega)
  have h2 := e2 (by omega)
  rw [zc, Nat.zero_add] at hc
  rw [z0, Nat.zero_add] at h0
  rw [z1, Nat.zero_add] at h1
  rw [z2, Nat.zero_add] at h2
  by_cases hne : ps = []
  · subst hne
    rw [addPoints_nil, RecomputeCentroid_of_zero b zc]
    exact ⟨rfl, rfl, rfl⟩
  · have hpos : 0 < ps.length := List.length_pos.mpr hne
    have hcnt : (addPoints b ps).counter ≠ 0 := by omega
    have m0 := mean_between (fun p => p.r.val) b.centroid0.val b.centroid0.val ps hne
      (fun p hp => by rw [(hps p hp).1]; exact ⟨le_refl _, le_refl _⟩)
    have m1 := mean_between (fun p => p.g.val) b.centroid1.val b.centroid1.val ps hne
      (fun p hp => by rw [(hps p hp).2.1]; exact ⟨le_refl _, le_refl _⟩)
    have m2 := mean_between (fun p => p.b.val) b.centroid2.val b.centroid2.val ps hne
      (fun p hp => by rw [(hps p hp).2.2]; exact ⟨le_refl _, le_refl _⟩)
    have hmean : meanIsCentroid (addPoints b ps) := by
      refine ⟨?_, ?_, ?_⟩
      · rw [h0, hc, c0]
        omega
      · rw [h1, hc, c1]
        omega
      · rw [h2, hc, c2]
        omega
    obtain ⟨r0, r1, r2, _⟩ := stable_cluster_fixed b ps ⟨z0, z1, z2, zc⟩ hcnt hmean
    exact ⟨r0, r1, r2⟩

/-- One iteration of the refinement loop on an image of at most 16843009 pixels,
from clusters with clear accumulators among whose centroids is the colour of
every pixel of non-zero alpha: the iteration returns, changes no centroid and
leaves the accumulators clear. -/
theorem exact_step (image : List Byte) (width height : Int)
    (hw : 0 < width) (hh : 0 < height) (hn : width * height ≤ 16843009)
    (hlen : (image.length : Int) = 4 * (width * height))
    (cl : List KMeanCluster) (hclear : ∀ c ∈ cl, accumulatorsClear c)
    (hcomplete : ∀ j p, j < (width * height).toNat → readPixel image j = some p → p.a ≠ 0 →
      ∃ c ∈ cl, c.centroid0 = p.r ∧ c.centroid1 = p.g ∧ c.centroid2 = p.b) :
    ∃ flag cl2, refineStep image width height cl = some (flag, cl2) ∧
      cl2.map (fun c => (c.centroid0, c.centroid1, c.centroid2)) =
        cl.map (fun c => (c.centroid0, c.centroid1, c.centroid2)) ∧
      ∀ c ∈ cl2, accumulatorsClear c := by
  have hsize : 4 * (width * height) ≤ INT_MAX := by
    unfold INT_MAX
    omega
  have hlenN : 4 * (0 + (width * height).toNat) ≤ image.length := by omega
  obtain ⟨swept, hsw, hk⟩ := assignLoop_spec image (width * height).toNat 0 cl hlenN
  refine ⟨(recomputeLoop swept true).1, swept.map (fun c => c.RecomputeCentroid), ?_, ?_, ?_⟩
  · rw [refineStep_eq image width height hw hh hsize, hsw, Option.map_some']
    congr 1
    exact Prod.ext rfl (recomputeLoop_clusters swept true)
  · apply List.ext_getElem?
    intro k
    rw [List.map_map, List.getElem?_map, List.getElem?_map, hk k]
    cases hb : cl[k]? with
    | none => rfl
    | some b =>
      simp only [Option.map_some', Function.comp_apply, Option.some.injEq, Prod.mk.injEq]
      apply uniform_cluster_fixed b _ (hclear b (mem_of_getElem? hb))
      · have := assignedPixels_length_le image cl 0 (width * height).toNat k
        omega
      · intro p hp
        obtain ⟨j, _, hj, hpj, ha, hclosest⟩ := assignedPixels_mem image cl 0 _ k p hp
        obtain ⟨c2, hc2, hc2p⟩ := hcomplete j p (by omega) hpj ha
        have hne : cl ≠ [] := List.ne_nil_of_mem hc2
        obtain ⟨c, hc, hmin, _⟩ := closestCluster_spec cl hne p
        rw [hclosest, hb] at hc
        simp only [Option.some.injEq] at hc
        subst hc
        obtain ⟨k2, hk2⟩ := List.mem_iff_getElem?.mp hc2
        have h1 := hmin k2 c2 hk2
        rw [centroidDistance_of_eq hc2p] at h1
        have h2 := centroidDistance_nonneg b p
        exact centroidDistance_eq_zero (le_antisymm h1 h2)
  · exact recomputed_clear image (width * height).toNat (by omega) (by omega) cl swept hclear hsw

/-- The refinement loop on such an image and from such clusters returns and
changes no centroid. -/
theorem exact_iterate (image : List Byte) (width height : Int)
    (hw : 0 < width) (hh : 0 < height) (hn : width * height ≤ 16843009)
    (hlen : (image.length : Int) = 4 * (width * height))
    (colours : List (Byte × Byte × Byte))
    (hcomplete : ∀ j p, j < (width * height).toNat → readPixel image j = some p → p.a ≠ 0 →
      (p.r, p.g, p.b) ∈ colours) :
    ∀ (left : Nat) (convergence : Bool) (cl : List KMeanCluster),
      (∀ c ∈ cl, accumulatorsClear c) →
      cl.map (fun c => (c.centroid0, c.centroid1, c.centroid2)) = colours →
      ∃ cl2, iterateLoop image width height left convergence cl = some cl2 ∧
        cl2.map (fun c => (c.centroid0, c.centroid1, c.centroid2)) = colours := by
  intro left
  induction left with
  | zero =>
    intro convergence cl _ hmap
    exact ⟨cl, rfl, hmap⟩
  | succ left ih =>
    intro convergence cl hclear hmap
    cases convergence with
    | true => exact ⟨cl, by simp [iterateLoop], hmap⟩
    | false =>
      have hc2 : ∀ j p, j < (width * height).toNat → readPixel image j = some p → p.a ≠ 0 →
          ∃ c ∈ cl, c.centroid0 = p.r ∧ c.centroid1 = p.g ∧ c.centroid2 = p.b := by
        intro j p hj hp ha
        have hm := hcomplete j p hj hp ha
        rw [← hmap] at hm
        obtain ⟨c, hc, hcp⟩ := List.mem_map.mp hm
        simp only [Prod.mk.injEq] at hcp
        exact ⟨c, hc, hcp⟩
      obtain ⟨flag, cl1, hstep, hmap1, hclear1⟩ :=
        exact_step image width height hw hh hn hlen cl hclear hc2
      rw [iterateLoop_eq_flag]
      simp only [iterateLoopFlag, Bool.false_eq_true, if_false, hstep, Option.bind_eq_bind,
        Option.some_bind]
      rw [← iterateLoop_eq_flag]
      exact ih flag cl1 hclear1 (hmap1.trans hmap)

/-! ## Initialization on an image of two colours -/

theorem both_of_pairwise (xr xg xb yr yg yb : Byte) (cl : List KMeanCluster)
    (hlen : 2 ≤ cl.length) (hpw : cl.Pairwise distinctCentroids)
    (hxy : ∀ c ∈ cl, (c.centroid0 = xr ∧ c.centroid1 = xg ∧ c.centroid2 = xb) ∨
      (c.centroid0 = yr ∧ c.centroid1 = yg ∧ c.centroid2 = yb)) :
    (∃ c ∈ cl, c.centroid0 = xr ∧ c.centroid1 = xg ∧ c.centroid2 = xb) ∧
    (∃ c ∈ cl, c.centroid0 = yr ∧ c.centroid1 = yg ∧ c.centroid2 = yb) := by
  cases cl with
  | nil => simp at hlen
  | cons a rest =>
    cases rest with
    | nil => simp at hlen
    | cons b rest =>
      have hab : distinctCentroids a b :=
        (List.pairwise_cons.mp hpw).1 b (List.mem_cons_self b rest)
      have ha : a ∈ a :: b :: rest := List.mem_cons_self a _
      have hb : b ∈ a :: b :: rest := List.mem_cons_of_mem a (List.mem_cons_self b rest)
      rcases hxy a ha with hax | hay
      · rcases hxy b hb with hbx | hby
        · exfalso
          apply hab
          rw [hax.1, hax.2.1, hax.2.2, hbx.1, hbx.2.1, hbx.2.2]
          exact ⟨rfl, rfl, rfl⟩
        · exact ⟨⟨a, ha, hax⟩, ⟨b, hb, hby⟩⟩
      · rcases hxy b hb with hbx | hby
        · exact ⟨⟨b, hb, hbx⟩, ⟨a, ha, hay⟩⟩
        · exfalso
          apply hab
          rw [hay.1, hay.2.1, hay.2.2, hby.1, hby.2.1, hby.2.2]
          exact ⟨rfl, rfl, rfl⟩

/-- Initialization with a fresh `GridSampler` on an image of `width * height`
pixels of alpha 255 that have one of two colours: when the first call draws a
pixel of the one colour and one of the calls 1 to 30 a pixel of the other, the
loop returns clusters with clear accumulators whose centroids are the two
colours, both of them. -/
theorem init_two_colours (image : List Byte) (width height : Nat) (hw : 2 ≤ width)
    (hh : 2 ≤ height) (hsize : 4 * (width * height) ≤ 2147483647)
    (hlen : image.length = 4 * (width * height)) (xr xg xb yr yg yb : Byte)
    (hpix : ∀ i, i < width * height → readPixel image i = some ⟨xb, xg, xr, 255⟩ ∨
      readPixel image i = some ⟨yb, yg, yr, 255⟩)
    (hne : ¬ (xr = yr ∧ xg = yg ∧ xb = yb))
    (hx : ∃ i next, GridSampler.GetSample (0 : Int) (width : Int) (height : Int) =
      some (i, next) ∧ readPixel image i.toNat = some ⟨xb, xg, xr, 255⟩)
    (hy : ∃ m : Nat, m ≤ 30 ∧ ∃ i next,
      GridSampler.GetSample (m : Int) (width : Int) (height : Int) = some (i, next) ∧
      readPixel image i.toNat = some ⟨yb, yg, yr, 255⟩) :
    ∃ cl next, initLoop GridSampler.GetSample image (width : Int) (height : Int)
        kNumberOfClusters (List.replicate kNumberOfClusters KMeanCluster.Reset) 0 (0 : Int) =
          some (cl, next) ∧
      (∀ c ∈ cl, accumulatorsClear c) ∧
      (∀ c ∈ cl, (c.centroid0 = xr ∧ c.centroid1 = xg ∧ c.centroid2 = xb) ∨
        (c.centroid0 = yr ∧ c.centroid1 = yg ∧ c.centroid2 = yb)) ∧
      (∃ c ∈ cl, c.centroid0 = xr ∧ c.centroid1 = xg ∧ c.centroid2 = xb) ∧
      (∃ c ∈ cl, c.centroid0 = yr ∧ c.centroid1 = yg ∧ c.centroid2 = yb) := by
  have hwI : (0 : Int) < (width : Int) := by omega
  have hhI : (0 : Int) < (height : Int) := by omega
  have hsizeI : 4 * ((width : Int) * (height : Int)) ≤ INT_MAX := by
    unfold INT_MAX
    exact_mod_cast hsize
  have hlenI : (image.length : Int) = 4 * ((width : Int) * (height : Int)) := by
    exact_mod_cast hlen
  have hs40 : samplesInRange GridSampler.GetSample (width : Int) (height : Int) 40 (0 : Int)
      = true := by
    have := GridSampler.GetSample_samplesInRange width height hw hh hsize 40 0 (by omega)
    exact_mod_cast this
  have h255 : (255 : Byte) ≠ 0 := by decide
  -- the first call
  obtain ⟨i0, s1, hgx, hpx⟩ := hx
  obtain ⟨i00, s10, hg0, h0, h1, _⟩ :=
    (samplesInRange_succ_iff GridSampler.GetSample (width : Int) (height : Int) 39 0).mp hs40
  rw [hgx] at hg0
  simp only [Option.some.injEq, Prod.mk.injEq] at hg0
  obtain ⟨e1, e2⟩ := hg0
  subst e1
  subst e2
  have hs1 : s1 = ((1 : Nat) : Int) := by
    have hg := GridSampler.GetSample_eq 0 width height hw hh hsize (by omega)
    rw [Nat.cast_zero, hgx] at hg
    simp only [Option.some.injEq, Prod.mk.injEq] at hg
    rw [hg.2]
    rfl
  obtain ⟨p, hp, hp2⟩ := readPixelAt_of_in_range image (width : Int) (height : Int) hsizeI hlenI
    h0 h1
  rw [hpx] at hp2
  have hpe : p = ⟨xb, xg, xr, 255⟩ := (Option.some.inj hp2).symm
  subst hpe
  have hstep := seedLoop_step GridSampler.GetSample image (width : Int) (height : Int)
    (List.replicate kNumberOfClusters KMeanCluster.Reset) 0 9 (0 : Int) s1 i0
    ((width : Int) * (height : Int)) i0 ⟨xb, xg, xr, 255⟩ hgx
    (int32_area (width : Int) (height : Int) hwI hhI hsizeI) (imod_of_nonneg_lt h0 h1) hp
  have hseed : seedLoop GridSampler.GetSample image (width : Int) (height : Int)
      (List.replicate kNumberOfClusters KMeanCluster.Reset) 0 10 (0 : Int) =
      some (true, [KMeanCluster.Reset.SetCentroid xr xg xb] ++
        [KMeanCluster.Reset, KMeanCluster.Reset, KMeanCluster.Reset], s1) := by
    rw [hstep, if_neg h255]
    rfl
  -- the calls 1 to 30
  obtain ⟨m, hm, iy, sy, hgy, hpy⟩ := hy
  have hm0 : m ≠ 0 := by
    intro hm0
    subst hm0
    rw [Nat.cast_zero, hgx] at hgy
    simp only [Option.some.injEq, Prod.mk.injEq] at hgy
    rw [← hgy.1, hpx] at hpy
    simp only [Option.some.injEq, Pixel.mk.injEq, and_true] at hpy
    exact hne ⟨hpy.2.2, hpy.2.1, hpy.1⟩
  have hfresh : samplesFresh GridSampler.GetSample image (width : Int) (height : Int)
      [KMeanCluster.Reset.SetCentroid xr xg xb] (10 * 3) s1 = true := by
    rw [hs1]
    apply GridSampler.GetSample_samplesFresh image _ width height hw hh hsize 30 1 m
      (by omega) (by omega) (by omega)
    refine ⟨iy, sy, hgy, ?_⟩
    have hnot : (KMeanCluster.Reset.SetCentroid xr xg xb).IsAtCentroid yr yg yb = false := by
      simp only [KMeanCluster.IsAtCentroid, KMeanCluster.SetCentroid, Bool.and_eq_false_imp,
        Bool.and_eq_true, decide_eq_true_eq, decide_eq_false_iff_not, and_imp]
      intro a b c
      exact hne ⟨a.symm, b.symm, c.symm⟩
    simp only [freshAt, hpy, List.any_cons, hnot, List.any_nil, Bool.or_false, Bool.not_false,
      Bool.and_true, decide_eq_true_eq]
    exact h255
  have hs30 : samplesInRange GridSampler.GetSample (width : Int) (height : Int) (10 * 3) s1
      = true := by
    rw [hs1]
    have := GridSampler.GetSample_samplesInRange width height hw hh hsize 30 1 (by omega)
    exact_mod_cast this
  obtain ⟨cl, next, hinit3, hlen2⟩ := initLoop_finds GridSampler.GetSample image (width : Int)
    (height : Int) hwI hhI hsizeI hlenI [KMeanCluster.Reset.SetCentroid xr xg xb] 3
    [KMeanCluster.Reset, KMeanCluster.Reset, KMeanCluster.Reset] s1 rfl hs30 hfresh
  have hinit : initLoop GridSampler.GetSample image (width : Int) (height : Int)
      kNumberOfClusters (List.replicate kNumberOfClusters KMeanCluster.Reset) 0 (0 : Int) =
      some (cl, next) := by
    have hst := initLoop_step GridSampler.GetSample image (width : Int) (height : Int)
      (List.replicate kNumberOfClusters KMeanCluster.Reset) _ 0 3 (0 : Int) s1 true hseed
    rw [show kNumberOfClusters = 3 + 1 from rfl] at hst ⊢
    rw [hst]
    exact hinit3
  obtain ⟨_, hpw, hall⟩ := initLoop_seeds GridSampler.GetSample image (width : Int)
    (height : Int) hwI hhI hsizeI hlenI 4 []
    (List.replicate kNumberOfClusters KMeanCluster.Reset) (0 : Int) cl next rfl
    (by exact hs40) hinit List.Pairwise.nil
    (fun c hc => absurd hc (List.not_mem_nil c))
    (by
      intro c hc
      rw [List.eq_of_mem_replicate hc]
      exact ⟨rfl, rfl, rfl, rfl⟩)
  have hcol : ∀ c ∈ cl, (c.centroid0 = xr ∧ c.centroid1 = xg ∧ c.centroid2 = xb) ∨
      (c.centroid0 = yr ∧ c.centroid1 = yg ∧ c.centroid2 = yb) := by
    intro c hc
    obtain ⟨j, q, hj, hq, _, c0, c1, c2⟩ := (hall c hc).1
    have hj2 : j < width * height := by
      have : ((width : Int) * (height : Int)).toNat = width * height := by
        rw [← Nat.cast_mul]
        exact Int.toNat_natCast _
      omega
    rcases hpix j hj2 with h | h
    · rw [h] at hq
      cases hq
      exact Or.inl ⟨c0, c1, c2⟩
    · rw [h] at hq
      cases hq
      exact Or.inr ⟨c0, c1, c2⟩
  have hboth := both_of_pairwise xr xg xb yr yg yb cl (by simpa using hlen2) hpw hcol
  exact ⟨cl, next, hinit, fun c hc => (hall c hc).2, hcol, hboth.1, hboth.2⟩

/-! ## C11: an image of a dark and a lighter colour -/

/-- C11 (counterexample).  In the 5 x 2 buffer `darkWithLightCorner` nine of the
ten pixels (90%) have the colour `(30, 20, 10)`, whose sum 60 is below the
darkness limit 100, and one pixel (10%) has the colour `(100, 100, 100)`, whose
sum 300 lies between the limits 100 and 665; every alpha is 255.  The grid
sampler draws pixel 6 in every call, so the lighter pixel 0 never becomes a seed,
and the run returns the dark colour `(30, 20, 10)`, not the lighter one. -/
theorem light_region_missed_by_sampler :
    (∀ i, i < 10 → readPixel darkWithLightCorner i = some ⟨10, 20, 30, 255⟩ ∨
      readPixel darkWithLightCorner i = some ⟨100, 100, 100, 255⟩) ∧
    ((List.range 10).filter
      (fun i => decide (readPixel darkWithLightCorner i = some ⟨10, 20, 30, 255⟩))).length = 9 ∧
    ((List.range 10).filter
      (fun i => decide (readPixel darkWithLightCorner i = some ⟨100, 100, 100, 255⟩))).length
        = 1 ∧
    (30 + 20 + 10 < 100 ∧ 100 < 100 + 100 + 100 ∧ 100 + 100 + 100 < 665) ∧
    (∀ n : Nat, n < 40 → (GridSampler.GetSample (n : Int) 5 2).map (fun r => r.1) = some 6) ∧
    CalculateKMeanColorOfBuffer sortByWeight GridSampler.GetSample darkWithLightCorner 5 2
      100 665 (0 : Int) = some (SkColorSetRGB 30 20 10) ∧
    SkColorSetRGB 30 20 10 ≠ SkColorSetRGB 100 100 100 := by
  refine ⟨by decide, by decide, by decide, by decide, by decide, by decide, by decide⟩

/-- C11 (amended).  An image of `width * height` pixels, `width, height >= 2`, at
most 16843009 of them, all of alpha 255, each either of a dark colour whose sum
`r + g + b` is below `darkness_limit` or of a lighter colour whose sum lies
strictly between `darkness_limit` and `brightness_limit`, in any proportion and
wherever the pixels lie: when each of the two colours is the colour of a pixel
that a fresh `GridSampler` draws in one of its calls 0 to 30, the run, with any
sort that meets the guarantee of `std::sort`, returns the lighter colour with
alpha 0xFF. -/
theorem brightness_exclusion_when_sampled (sort : List KMeanCluster → List KMeanCluster)
    (hsort : SortsByWeight sort) (image : List Byte) (width height : Int)
    (darkness_limit brightness_limit : Nat) (dr dg db lr lg lb : Byte)
    (hw : 2 ≤ width) (hh : 2 ≤ height) (hn : width * height ≤ 16843009)
    (hlen : (image.length : Int) = 4 * (width * height))
    (hpix : ∀ i, i < (width * height).toNat → readPixel image i = some ⟨db, dg, dr, 255⟩ ∨
      readPixel image i = some ⟨lb, lg, lr, 255⟩)
    (hdark : dr.val + dg.val + db.val < darkness_limit)
    (hlight : darkness_limit < lr.val + lg.val + lb.val ∧
      lr.val + lg.val + lb.val < brightness_limit)
    (hsd : ∃ m : Nat, m ≤ 30 ∧ ∃ i next,
      GridSampler.GetSample (m : Int) width height = some (i, next) ∧
      readPixel image i.toNat = some ⟨db, dg, dr, 255⟩)
    (hsl : ∃ m : Nat, m ≤ 30 ∧ ∃ i next,
      GridSampler.GetSample (m : Int) width height = some (i, next) ∧
      readPixel image i.toNat = some ⟨lb, lg, lr, 255⟩) :
    CalculateKMeanColorOfBuffer sort GridSampler.GetSample image width height
      darkness_limit brightness_limit (0 : Int) = some (SkColorSetARGB 0xFF lr lg lb) := by
  lift width to Nat using (by omega)
  lift height to Nat using (by omega)
  have hw2 : 2 ≤ width := by exact_mod_cast hw
  have hh2 : 2 ≤ height := by exact_mod_cast hh
  have hnN : width * height ≤ 16843009 := by exact_mod_cast hn
  have hsizeN : 4 * (width * height) ≤ 2147483647 := by omega
  have hlenN : image.length = 4 * (width * height) := by exact_mod_cast hlen
  have htoNat : ((width : Int) * (height : Int)).toNat = width * height := by
    rw [← Nat.cast_mul]
    exact Int.toNat_natCast _
  rw [htoNat] at hpix
  have hwI : (0 : Int) < (width : Int) := by omega
  have hhI : (0 : Int) < (height : Int) := by omega
  have hsizeI : 4 * ((width : Int) * (height : Int)) ≤ INT_MAX := by
    unfold INT_MAX
    exact_mod_cast hsizeN
  have hpos : 0 < width * height := Nat.mul_pos (by omega) (by omega)
  have h255 : (255 : Byte) ≠ 0 := by decide
  have hne : ¬ (dr = lr ∧ dg = lg ∧ db = lb) := by
    rintro ⟨e0, e1, e2⟩
    rw [e0, e1, e2] at hdark
    omega
  have hne2 : ¬ (lr = dr ∧ lg = dg ∧ lb = db) := fun h => hne ⟨h.1.symm, h.2.1.symm, h.2.2.symm⟩
  -- the clusters that initialization leaves
  have hinit : ∃ cl next, initLoop GridSampler.GetSample image (width : Int) (height : Int)
        kNumberOfClusters (List.replicate kNumberOfClusters KMeanCluster.Reset) 0 (0 : Int) =
          some (cl, next) ∧
      (∀ c ∈ cl, accumulatorsClear c) ∧
      (∀ c ∈ cl, (c.centroid0 = dr ∧ c.centroid1 = dg ∧ c.centroid2 = db) ∨
        (c.centroid0 = lr ∧ c.centroid1 = lg ∧ c.centroid2 = lb)) ∧
      (∃ c ∈ cl, c.centroid0 = dr ∧ c.centroid1 = dg ∧ c.centroid2 = db) ∧
      (∃ c ∈ cl, c.centroid0 = lr ∧ c.centroid1 = lg ∧ c.centroid2 = lb) := by
    have hg0 := GridSampler.GetSample_eq 0 width height hw2 hh2 hsizeN (by omega)
    rw [Nat.cast_zero] at hg0
    have hlt := Nat.mod_lt (1 + 0 / 4 * ((width - 2) / 4) +
      (1 + 0 % 4 * ((height - 2) / 4)) * width) hpos
    rcases hpix _ hlt with h | h
    · exact init_two_colours image width height hw2 hh2 hsizeN hlenN dr dg db lr lg lb hpix hne
        ⟨_, _, hg0, by rw [Int.toNat_natCast]; exact h⟩ hsl
    · obtain ⟨cl, next, h1, h2, h3, h4, h5⟩ :=
        init_two_colours image width height hw2 hh2 hsizeN hlenN lr lg lb dr dg db
          (fun i hi => (hpix i hi).symm) hne2
          ⟨_, _, hg0, by rw [Int.toNat_natCast]; exact h⟩ hsd
      exact ⟨cl, next, h1, h2, fun c hc => (h3 c hc).symm, h5, h4⟩
  obtain ⟨cl, next, hinit, hclear, hcol, ⟨cD, hcD, hD⟩, ⟨cL, hcL, hL⟩⟩ := hinit
  -- refinement changes no centroid
  have hcomplete : ∀ j p, j < ((width : Int) * (height : Int)).toNat →
      readPixel image j = some p → p.a ≠ 0 →
      (p.r, p.g, p.b) ∈ cl.map (fun c => (c.centroid0, c.centroid1, c.centroid2)) := by
    intro j p hj hp _
    rw [htoNat] at hj
    rcases hpix j hj with h | h
    · rw [h] at hp
      cases hp
      exact List.mem_map.mpr ⟨cD, hcD, by rw [hD.1, hD.2.1, hD.2.2]⟩
    · rw [h] at hp
      cases hp
      exact List.mem_map.mpr ⟨cL, hcL, by rw [hL.1, hL.2.1, hL.2.2]⟩
  obtain ⟨cl2, hiter, hmap⟩ := exact_iterate image (width : Int) (height : Int) hwI hhI hn hlen
    _ hcomplete kNumberOfIterations false cl hclear rfl
  have hmem2 : ∀ c ∈ cl2, (c.centroid0 = dr ∧ c.centroid1 = dg ∧ c.centroid2 = db) ∨
      (c.centroid0 = lr ∧ c.centroid1 = lg ∧ c.centroid2 = lb) := by
    intro c hc
    have : (c.centroid0, c.centroid1, c.centroid2) ∈
        cl2.map (fun c => (c.centroid0, c.centroid1, c.centroid2)) :=
      List.mem_map.mpr ⟨c, hc, rfl⟩
    rw [hmap] at this
    obtain ⟨c1, hc1, he⟩ := List.mem_map.mp this
    simp only [Prod.mk.injEq] at he
    rw [← he.1, ← he.2.1, ← he.2.2]
    exact hcol c1 hc1
  have hL2 : ∃ c ∈ cl2, c.centroid0 = lr ∧ c.centroid1 = lg ∧ c.centroid2 = lb := by
    have : (lr, lg, lb) ∈ cl2.map (fun c => (c.centroid0, c.centroid1, c.centroid2)) := by
      rw [hmap]
      exact List.mem_map.mpr ⟨cL, hcL, by rw [hL.1, hL.2.1, hL.2.2]⟩
    obtain ⟨c, hc, he⟩ := List.mem_map.mp this
    simp only [Prod.mk.injEq] at he
    exact ⟨c, hc, he⟩
  -- selection takes the lighter centroid
  have hperm := (hsort cl2).1
  have hselect : selectLoop darkness_limit brightness_limit (sort cl2) true kDefaultBgColor =
      SkColorSetARGB 0xFF lr lg lb := by
    obtain ⟨c2, hc2, hc2L⟩ := hL2
    have hwithin : ∃ c ∈ sort cl2, withinLimits darkness_limit brightness_limit c := by
      refine ⟨c2, hperm.mem_iff.mpr hc2, ?_⟩
      unfold withinLimits centroidSum
      rw [hc2L.1, hc2L.2.1, hc2L.2.2]
      exact hlight
    obtain ⟨pre, c, post, hl, hpre, hc⟩ :=
      exists_first_within darkness_limit brightness_limit (sort cl2) hwithin
    have hcmem : c ∈ cl2 := hperm.mem_iff.mp (by rw [hl]; simp)
    rw [hl, selectLoop_first_within darkness_limit brightness_limit c post hc pre true _ hpre]
    rcases hmem2 c hcmem with h | h
    · exfalso
      have h1 := hc.1
      unfold centroidSum at h1
      rw [h.1, h.2.1, h.2.2] at h1
      omega
    · unfold centroidColor
      rw [h.1, h.2.1, h.2.2]
  have hemp : ¬ cl.isEmpty = true := by
    simpa [List.isEmpty_iff] using List.ne_nil_of_mem hcL
  rw [CalculateKMeanColorOfBuffer_of_init sort GridSampler.GetSample image (width : Int)
    (height : Int) darkness_limit brightness_limit (0 : Int) next cl hwI hhI hinit, if_neg hemp,
    hiter, Option.some_bind, hselect]
  -- the pixel closest to the lighter colour has the lighter colour
  have hmin : INT_MIN ≤ (width : Int) * (height : Int) := by
    unfold INT_MIN
    omega
  have hmax : (width : Int) * (height : Int) ≤ INT_MAX := by
    unfold INT_MAX
    omega
  have hread : ∀ j, j < ((width : Int) * (height : Int)).toNat →
      ∃ p, readPixel image j = some p :=
    readPixel_of_length image _ (by omega)
  rcases FindClosestColor_cases image (width : Int) (height : Int)
      (SkColorSetARGB 0xFF lr lg lb) hmin hmax hread with
    ⟨_, hnone⟩ | ⟨k, p, hk, hp, ha, hres, hnearest, _⟩
  · exfalso
    rcases hpix 0 hpos with h | h
    · exact h255 (hnone 0 _ (by omega) h)
    · exact h255 (hnone 0 _ (by omega) h)
  · obtain ⟨m, _, i, s, _, hpl⟩ := hsl
    have hi : i.toNat < ((width : Int) * (height : Int)).toNat :=
      readPixel_lt_of_length (by omega) hpl
    have h1 := hnearest i.toNat _ hi hpl h255
    have h0 : rgbDistance (SkColorSetARGB 0xFF lr lg lb) ⟨lb, lg, lr, 255⟩ = 0 :=
      rgbDistance_SetRGB_self ⟨lb, lg, lr, 255⟩
    rw [h0] at h1
    have h2 := rgbDistance_nonneg (SkColorSetARGB 0xFF lr lg lb) p
    obtain ⟨e0, e1, e2⟩ := rgbDistance_eq_zero (le_antisymm h1 h2)
    rw [hres, ← e0, ← e1, ← e2]
    rfl

/-- C11 (witness).  The 2 x 6 buffer `darkWithLightStripe` has eleven pixels of
the dark colour `(30, 20, 10)` and one, pixel 5, of the lighter colour
`(100, 100, 100)`; the grid sampler draws the dark pixel 3 in call 0 and the
lighter pixel 5 in call 1, and the run with the limits 100 and 665 returns
`(100, 100, 100)`. -/
theorem brightness_exclusion_when_sampled_witness :
    CalculateKMeanColorOfBuffer sortByWeight GridSampler.GetSample darkWithLightStripe 2 6
      100 665 (0 : Int) = some (SkColorSetARGB 0xFF 100 100 100) :=
  brightness_exclusion_when_sampled sortByWeight sortByWeight_sorts darkWithLightStripe 2 6
    100 665 30 20 10 100 100 100 (by decide) (by decide) (by decide) (by decide)
    (by decide) (by decide) (by decide)
    ⟨0, by decide, 3, 1, by decide, by decide⟩
    ⟨1, by decide, 5, 2, by decide, by decide⟩

end color_utils
